import Mathlib

/-!
# LittleFlash: the POSIX-style adapter over the littlefs engine

A shallow embedding of `components/littleflash/littleflash.cpp`.

* The engine (`lfs_*`), the heap (`malloc`, `strdup`, `new`) and the host
  dispatch table (`esp_vfs_register`) are collaborators: the value each of
  them returns is an argument of the operation that calls it, and every call
  that is really made is appended to `State.trace`.
* A C pointer is an `Option`: `none` is `NULL`.
* An operation returns `none` where the C code has no defined behaviour (an
  index outside the table, a `NULL` table, a division by zero).
* The numeric constants of the headers the file is compiled against
  (`lfs.h`, `errno.h`, `fcntl.h`, `esp_err.h`, `dirent.h`, `sys/stat.h`) are
  not part of the repository; they are the fields of `Consts`.
-/

namespace LittleFlash

/-! ## Constants of the platform headers -/

/-- Values of the header constants used by `littleflash.cpp`. -/
structure Consts where
  LFS_ERR_OK : Int
  LFS_ERR_IO : Int
  LFS_ERR_CORRUPT : Int
  LFS_ERR_NOENT : Int
  LFS_ERR_EXIST : Int
  LFS_ERR_NOTDIR : Int
  LFS_ERR_ISDIR : Int
  LFS_ERR_NOTEMPTY : Int
  LFS_ERR_INVAL : Int
  LFS_ERR_NOSPC : Int
  LFS_ERR_NOMEM : Int
  EIO : Int
  ENOENT : Int
  EEXIST : Int
  ENOTDIR : Int
  EISDIR : Int
  ENOTEMPTY : Int
  EINVAL : Int
  ENOSPC : Int
  ENOMEM : Int
  EBADF : Int
  ENFILE : Int
  ENAMETOOLONG : Int
  ESP_OK : Int
  ESP_FAIL : Int
  ESP_ERR_NO_MEM : Int
  ESP_ERR_NOT_FOUND : Int
  SEEK_SET : Int
  SEEK_CUR : Int
  SEEK_END : Int
  LFS_SEEK_SET : Int
  LFS_SEEK_CUR : Int
  LFS_SEEK_END : Int
  O_ACCMODE : Nat
  O_RDONLY : Nat
  O_WRONLY : Nat
  O_RDWR : Nat
  O_CREAT : Nat
  O_EXCL : Nat
  O_TRUNC : Nat
  O_APPEND : Nat
  LFS_O_RDONLY : Nat
  LFS_O_WRONLY : Nat
  LFS_O_RDWR : Nat
  LFS_O_CREAT : Nat
  LFS_O_EXCL : Nat
  LFS_O_TRUNC : Nat
  LFS_O_APPEND : Nat
  LFS_TYPE_REG : Int
  LFS_TYPE_DIR : Int
  DT_REG : Int
  DT_DIR : Int
  DT_UNKNOWN : Int
  S_IFDIR : Nat
  S_IFREG : Nat
  S_IRWXU : Nat
  S_IRWXG : Nat
  S_IRWXO : Nat
  /-- The value of `sizeof(entry->d_name)` in `struct dirent`. -/
  d_name_size : Nat
  SPI_FLASH_SEC_SIZE : Nat

/-- The values of littlefs v1 (`lfs.h`), newlib (`errno.h`, `fcntl.h`,
`dirent.h`, `sys/stat.h`) and ESP-IDF (`esp_err.h`) on the ESP32. -/
def esp32 : Consts where
  LFS_ERR_OK := 0
  LFS_ERR_IO := -5
  LFS_ERR_CORRUPT := -52
  LFS_ERR_NOENT := -2
  LFS_ERR_EXIST := -17
  LFS_ERR_NOTDIR := -20
  LFS_ERR_ISDIR := -21
  LFS_ERR_NOTEMPTY := -39
  LFS_ERR_INVAL := -22
  LFS_ERR_NOSPC := -28
  LFS_ERR_NOMEM := -12
  EIO := 5
  ENOENT := 2
  EEXIST := 17
  ENOTDIR := 20
  EISDIR := 21
  ENOTEMPTY := 90
  EINVAL := 22
  ENOSPC := 28
  ENOMEM := 12
  EBADF := 9
  ENFILE := 23
  ENAMETOOLONG := 91
  ESP_OK := 0
  ESP_FAIL := -1
  ESP_ERR_NO_MEM := 257
  ESP_ERR_NOT_FOUND := 261
  SEEK_SET := 0
  SEEK_CUR := 1
  SEEK_END := 2
  LFS_SEEK_SET := 0
  LFS_SEEK_CUR := 1
  LFS_SEEK_END := 2
  O_ACCMODE := 3
  O_RDONLY := 0
  O_WRONLY := 1
  O_RDWR := 2
  O_CREAT := 512
  O_EXCL := 2048
  O_TRUNC := 1024
  O_APPEND := 8
  LFS_O_RDONLY := 1
  LFS_O_WRONLY := 2
  LFS_O_RDWR := 3
  LFS_O_CREAT := 256
  LFS_O_EXCL := 512
  LFS_O_TRUNC := 1024
  LFS_O_APPEND := 2048
  LFS_TYPE_REG := 17
  LFS_TYPE_DIR := 34
  DT_REG := 1
  DT_DIR := 2
  DT_UNKNOWN := 0
  S_IFDIR := 16384
  S_IFREG := 32768
  S_IRWXU := 448
  S_IRWXG := 56
  S_IRWXO := 7
  d_name_size := 256
  SPI_FLASH_SEC_SIZE := 4096

/-- The engine reports success as zero (`LFS_ERR_OK = 0` in `lfs.h`), so that
a negative return value is never the success code. -/
def Consts.lfs_ok_zero (K : Consts) : Prop := K.LFS_ERR_OK = 0

instance (K : Consts) : Decidable K.lfs_ok_zero := by
  unfold Consts.lfs_ok_zero; infer_instance

/-- The engine error codes are pairwise different enumerators, as the
`switch` of `map_lfs_error` needs for its case labels, and none of them is
the success code. -/
def Consts.lfs_err_distinct (K : Consts) : Prop :=
  [K.LFS_ERR_OK, K.LFS_ERR_IO, K.LFS_ERR_CORRUPT, K.LFS_ERR_NOENT, K.LFS_ERR_EXIST,
   K.LFS_ERR_NOTDIR, K.LFS_ERR_ISDIR, K.LFS_ERR_NOTEMPTY, K.LFS_ERR_INVAL,
   K.LFS_ERR_NOSPC, K.LFS_ERR_NOMEM].Nodup

instance (K : Consts) : Decidable K.lfs_err_distinct := by
  unfold Consts.lfs_err_distinct; infer_instance

/-- The three `whence` values of `lseek` are different numbers. -/
def Consts.seek_distinct (K : Consts) : Prop :=
  K.SEEK_SET ≠ K.SEEK_CUR ∧ K.SEEK_SET ≠ K.SEEK_END ∧ K.SEEK_CUR ≠ K.SEEK_END

instance (K : Consts) : Decidable K.seek_distinct := by
  unfold Consts.seek_distinct; infer_instance

/-- The engine access modes, or-ed together: the bits of the engine flags
that hold the access mode (`3` in `lfs.h`). -/
def Consts.lfs_acc_mask (K : Consts) : Nat :=
  K.LFS_O_RDONLY ||| K.LFS_O_WRONLY ||| K.LFS_O_RDWR

/-- Every bit an engine open flag can have. -/
def Consts.lfs_all_mask (K : Consts) : Nat :=
  K.lfs_acc_mask ||| K.LFS_O_CREAT ||| K.LFS_O_EXCL ||| K.LFS_O_TRUNC ||| K.LFS_O_APPEND

/-- The open flags are what `fcntl.h` and `lfs.h` make them: the three host
access modes are different values, and the engine's create, exclusive,
truncate and append flags are non-zero bits that overlap neither each other
nor an engine access mode. -/
def Consts.open_flags_wf (K : Consts) : Prop :=
  (K.O_RDONLY ≠ K.O_WRONLY ∧ K.O_RDONLY ≠ K.O_RDWR ∧ K.O_WRONLY ≠ K.O_RDWR) ∧
  (K.LFS_O_CREAT ≠ 0 ∧ K.LFS_O_EXCL ≠ 0 ∧ K.LFS_O_TRUNC ≠ 0 ∧ K.LFS_O_APPEND ≠ 0) ∧
  (∀ a ∈ [K.LFS_O_RDONLY, K.LFS_O_WRONLY, K.LFS_O_RDWR],
    ∀ b ∈ [K.LFS_O_CREAT, K.LFS_O_EXCL, K.LFS_O_TRUNC, K.LFS_O_APPEND], a &&& b = 0) ∧
  (K.LFS_O_CREAT &&& K.LFS_O_EXCL = 0 ∧ K.LFS_O_CREAT &&& K.LFS_O_TRUNC = 0 ∧
   K.LFS_O_CREAT &&& K.LFS_O_APPEND = 0 ∧ K.LFS_O_EXCL &&& K.LFS_O_TRUNC = 0 ∧
   K.LFS_O_EXCL &&& K.LFS_O_APPEND = 0 ∧ K.LFS_O_TRUNC &&& K.LFS_O_APPEND = 0)

instance (K : Consts) : Decidable K.open_flags_wf := by
  unfold Consts.open_flags_wf; infer_instance

/-! ## Data model -/

/-- A non-null heap address. -/
abbrev Ptr := Nat

/-- One slot of the file-handle table (`vfs_fd_t`): the engine file handle
and the retained copy of the path; `none` is `NULL`. -/
structure vfs_fd_t where
  file : Option Ptr
  name : Option String
  deriving DecidableEq, Repr

/-- The value `{}` of a slot: both pointers `NULL`. -/
def vfs_fd_t.empty : vfs_fd_t := { file := none, name := none }

/-- Calls into the littlefs engine, with the arguments the adapter passes. -/
inductive EngineCall where
  | lfs_mount
  | lfs_unmount
  | lfs_format
  | lfs_file_open (file : Ptr) (path : String) (lfs_flags : Nat)
  | lfs_file_close (file : Ptr)
  | lfs_file_write (file : Ptr) (size : Nat)
  | lfs_file_read (file : Ptr) (size : Nat)
  | lfs_file_seek (file : Ptr) (off : Int) (whence : Int)
  | lfs_file_tell (file : Ptr)
  | lfs_file_sync (file : Ptr)
  | lfs_stat (path : String)
  | lfs_remove (path : String)
  | lfs_rename (src dst : String)
  | lfs_mkdir (path : String)
  | lfs_dir_open (path : String)
  | lfs_dir_read
  | lfs_dir_rewind
  | lfs_dir_close
  deriving DecidableEq, Repr

/-- What an operation does that another party can observe, in program order. -/
inductive Event where
  | lock_init
  | lock_close
  | lock_acquire
  | lock_release
  | engine (c : EngineCall)
  /-- A read or a write of `fds[i]`. -/
  | fds_access (i : Nat)
  /-- A read or a write of a directory cursor's `off`. -/
  | off_access
  | vfs_register (base_path : String)
  | vfs_unregister (base_path : String)
  deriving DecidableEq, Repr

/-- The external flash chip as far as `init` queries it. -/
structure ExtFlash where
  sector_size : Nat
  chip_size : Nat
  deriving DecidableEq, Repr

/-- Mount configuration (`little_flash_config_t`). -/
structure little_flash_config_t where
  flash : Option ExtFlash
  part_label : String
  base_path : String
  open_files : Nat
  auto_format : Bool
  lookahead : Nat
  deriving DecidableEq, Repr

/-- The members of a `LittleFlash` object that the claims speak about, the
calling thread's `errno`, and the trace of observable events. -/
structure State where
  cfg : little_flash_config_t
  mounted : Bool
  registered : Bool
  sector_sz : Nat
  block_cnt : Nat
  fds : Option (List vfs_fd_t)
  errno : Int
  trace : List Event
  deriving DecidableEq, Repr

/-- Append one event to the trace. -/
def State.emit (s : State) (e : Event) : State :=
  { s with trace := s.trace ++ [e] }

/-- The engine calls of a trace, in order. -/
def engine_calls : List Event → List EngineCall
  | [] => []
  | Event.engine c :: t => c :: engine_calls t
  | _ :: t => engine_calls t

/-- Read `fds[fd]`; undefined when the table is `NULL` or `fd` is outside it. -/
def State.fds_get (s : State) (fd : Int) : Option (vfs_fd_t × State) :=
  match s.fds with
  | none => none
  | some t =>
    if fd < 0 then none
    else
      match t[fd.toNat]? with
      | none => none
      | some e => some (e, s.emit (Event.fds_access fd.toNat))

/-- Write `fds[fd]`; undefined when the table is `NULL` or `fd` is outside it. -/
def State.fds_set (s : State) (fd : Int) (e : vfs_fd_t) : Option State :=
  match s.fds with
  | none => none
  | some t =>
    if fd < 0 then none
    else if fd.toNat < t.length then
      some { s with fds := some (t.set fd.toNat e),
                    trace := s.trace ++ [Event.fds_access fd.toNat] }
    else none

/-- Constructor `LittleFlash::LittleFlash()`: it sets `fds`, `mounted` and
`registered`; the other members keep whatever the storage `s` held. -/
def LittleFlash_new (s : State) : State :=
  { s with fds := none, mounted := false, registered := false }

/-! ## Error translation -/

/-- Source `LittleFlash::map_lfs_error`: the return value and the state with
`errno` set. -/
def map_lfs_error (K : Consts) (err : Int) (s : State) : Int × State :=
  if err = K.LFS_ERR_OK then (0, s)
  else if err = K.LFS_ERR_IO then (-1, { s with errno := K.EIO })
  else if err = K.LFS_ERR_CORRUPT then (-1, { s with errno := K.EIO })
  else if err = K.LFS_ERR_NOENT then (-1, { s with errno := K.ENOENT })
  else if err = K.LFS_ERR_EXIST then (-1, { s with errno := K.EEXIST })
  else if err = K.LFS_ERR_NOTDIR then (-1, { s with errno := K.ENOTDIR })
  else if err = K.LFS_ERR_ISDIR then (-1, { s with errno := K.EISDIR })
  else if err = K.LFS_ERR_NOTEMPTY then (-1, { s with errno := K.ENOTEMPTY })
  else if err = K.LFS_ERR_INVAL then (-1, { s with errno := K.EINVAL })
  else if err = K.LFS_ERR_NOSPC then (-1, { s with errno := K.ENOSPC })
  else if err = K.LFS_ERR_NOMEM then (-1, { s with errno := K.ENOMEM })
  else (-1, { s with errno := K.EINVAL })

/-- The value `map_lfs_error` stores in `errno` for a code other than the
success code (the `switch` alone). -/
def lfs_errno (K : Consts) (err : Int) : Int :=
  if err = K.LFS_ERR_IO then K.EIO
  else if err = K.LFS_ERR_CORRUPT then K.EIO
  else if err = K.LFS_ERR_NOENT then K.ENOENT
  else if err = K.LFS_ERR_EXIST then K.EEXIST
  else if err = K.LFS_ERR_NOTDIR then K.ENOTDIR
  else if err = K.LFS_ERR_ISDIR then K.EISDIR
  else if err = K.LFS_ERR_NOTEMPTY then K.ENOTEMPTY
  else if err = K.LFS_ERR_INVAL then K.EINVAL
  else if err = K.LFS_ERR_NOSPC then K.ENOSPC
  else if err = K.LFS_ERR_NOMEM then K.ENOMEM
  else K.EINVAL

/-! ## The file-handle table -/

/-- The `for` loop of `get_free_fd`, with `k` iterations left and the loop
variable at `i`. -/
def get_free_fd_loop : Nat → Nat → State → Option (Int × State)
  | 0, _, s => some (-1, s)
  | k + 1, i, s =>
    match s.fds_get i with
    | none => none
    | some (e, s1) =>
      if e.file = none then some ((i : Int), s1)
      else get_free_fd_loop k (i + 1) s1

/-- Source `LittleFlash::get_free_fd`: the lowest index whose `file` is
`NULL`, or `-1`. -/
def get_free_fd (s : State) : Option (Int × State) :=
  get_free_fd_loop s.cfg.open_files 0 s

/-- The flag translation at the head of `open_p`. -/
def open_p_lfs_flags (K : Consts) (flags : Nat) : Nat :=
  let lfs_flags :=
    if flags &&& K.O_ACCMODE = K.O_RDONLY then K.LFS_O_RDONLY
    else if flags &&& K.O_ACCMODE = K.O_WRONLY then K.LFS_O_WRONLY
    else if flags &&& K.O_ACCMODE = K.O_RDWR then K.LFS_O_RDWR
    else 0
  let lfs_flags := if flags &&& K.O_CREAT ≠ 0 then lfs_flags ||| K.LFS_O_CREAT else lfs_flags
  let lfs_flags := if flags &&& K.O_EXCL ≠ 0 then lfs_flags ||| K.LFS_O_EXCL else lfs_flags
  let lfs_flags := if flags &&& K.O_TRUNC ≠ 0 then lfs_flags ||| K.LFS_O_TRUNC else lfs_flags
  let lfs_flags := if flags &&& K.O_APPEND ≠ 0 then lfs_flags ||| K.LFS_O_APPEND else lfs_flags
  lfs_flags

/-- Source `LittleFlash::open_p`. `file` is what `malloc` returned, `name_ok`
says whether `strdup(path)` returned a copy, `err` is what `lfs_file_open`
returns if it is called. -/
def open_p (K : Consts) (s : State) (path : String) (flags : Nat) (mode : Int)
    (file : Option Ptr) (name_ok : Bool) (err : Int) : Option (Int × State) :=
  let _ := mode
  let lfs_flags := open_p_lfs_flags K flags
  match file with
  | none => some (-1, { s with errno := K.ENOMEM })
  | some f =>
    if !name_ok then some (-1, { s with errno := K.ENOMEM })
    else
      let name := path
      match get_free_fd (s.emit Event.lock_acquire) with
      | none => none
      | some (fd, s1) =>
        if fd = -1 then
          some (-1, { (s1.emit Event.lock_release) with errno := K.ENFILE })
        else
          let s2 := s1.emit (Event.engine (EngineCall.lfs_file_open f path lfs_flags))
          if err < 0 then
            some (map_lfs_error K err (s2.emit Event.lock_release))
          else
            match s2.fds_set fd { file := some f, name := some name } with
            | none => none
            | some s3 => some (fd, s3.emit Event.lock_release)

/-- Source `LittleFlash::close_p`. `err` is what `lfs_file_close` returns if
it is called. -/
def close_p (K : Consts) (s : State) (fd : Int) (err : Int) : Option (Int × State) :=
  match (s.emit Event.lock_acquire).fds_get fd with
  | none => none
  | some (e, s1) =>
    match e.file with
    | none => some (-1, { (s1.emit Event.lock_release) with errno := K.EBADF })
    | some f =>
      let s2 := s1.emit (Event.engine (EngineCall.lfs_file_close f))
      match s2.fds_set fd vfs_fd_t.empty with
      | none => none
      | some s3 => some (map_lfs_error K err (s3.emit Event.lock_release))

/-- Source `LittleFlash::write_p`. `written` is what `lfs_file_write` returns
if it is called. -/
def write_p (K : Consts) (s : State) (fd : Int) (size : Nat) (written : Int) :
    Option (Int × State) :=
  match (s.emit Event.lock_acquire).fds_get fd with
  | none => none
  | some (e, s1) =>
    match e.file with
    | none => some (-1, { (s1.emit Event.lock_release) with errno := K.EBADF })
    | some f =>
      let s2 := (s1.emit (Event.engine (EngineCall.lfs_file_write f size))).emit Event.lock_release
      if written < 0 then some (map_lfs_error K written s2)
      else some (written, s2)

/-- Source `LittleFlash::lseek_p`. `seek_res` and `tell_res` are what
`lfs_file_seek` and `lfs_file_tell` return if they are called. -/
def lseek_p (K : Consts) (s : State) (fd : Int) (size : Int) (mode : Int)
    (seek_res tell_res : Int) : Option (Int × State) :=
  let lfs_mode : Option Int :=
    if mode = K.SEEK_SET then some K.LFS_SEEK_SET
    else if mode = K.SEEK_CUR then some K.LFS_SEEK_CUR
    else if mode = K.SEEK_END then some K.LFS_SEEK_END
    else none
  match lfs_mode with
  | none => some (-1, { s with errno := K.EINVAL })
  | some m =>
    match (s.emit Event.lock_acquire).fds_get fd with
    | none => none
    | some (e, s1) =>
      match e.file with
      | none => some (-1, { (s1.emit Event.lock_release) with errno := K.EBADF })
      | some f =>
        let s2 := s1.emit (Event.engine (EngineCall.lfs_file_seek f size m))
        let r : Int × State :=
          if seek_res ≥ 0 then (tell_res, s2.emit (Event.engine (EngineCall.lfs_file_tell f)))
          else (seek_res, s2)
        let s3 := r.2.emit Event.lock_release
        if r.1 < 0 then some (map_lfs_error K r.1 s3)
        else some (r.1, s3)

/-- Source `LittleFlash::read_p`. `read` is what `lfs_file_read` returns if it
is called. -/
def read_p (K : Consts) (s : State) (fd : Int) (size : Nat) (read : Int) :
    Option (Int × State) :=
  match (s.emit Event.lock_acquire).fds_get fd with
  | none => none
  | some (e, s1) =>
    match e.file with
    | none => some (-1, { (s1.emit Event.lock_release) with errno := K.EBADF })
    | some f =>
      let s2 := (s1.emit (Event.engine (EngineCall.lfs_file_read f size))).emit Event.lock_release
      if read < 0 then some (map_lfs_error K read s2)
      else some (read, s2)

/-- The engine's `struct lfs_info`. -/
structure lfs_info where
  type : Int
  size : Nat
  name : String
  deriving DecidableEq, Repr

/-- The fields of `struct stat` that the adapter fills. -/
structure stat where
  st_size : Nat
  st_mode : Nat
  deriving DecidableEq, Repr

/-- The tail of `fstat_p` and `stat_p`: `*st = {}` and the two fields. -/
def fill_stat (K : Consts) (info : lfs_info) : stat :=
  { st_size := info.size,
    st_mode :=
      if info.type = K.LFS_TYPE_DIR then K.S_IFDIR ||| K.S_IRWXU ||| K.S_IRWXG ||| K.S_IRWXO
      else K.S_IFREG ||| K.S_IRWXU ||| K.S_IRWXG ||| K.S_IRWXO }

/-- Source `LittleFlash::fstat_p`. `err` and `info` are what `lfs_stat`
returns if it is called; the middle component is `*st` when it is written. -/
def fstat_p (K : Consts) (s : State) (fd : Int) (err : Int) (info : lfs_info) :
    Option (Int × Option stat × State) :=
  match (s.emit Event.lock_acquire).fds_get fd with
  | none => none
  | some (e, s1) =>
    match e.file with
    | none => some (-1, none, { (s1.emit Event.lock_release) with errno := K.EBADF })
    | some _ =>
      match e.name with
      | none => none
      | some nm =>
        let s2 := (s1.emit (Event.engine (EngineCall.lfs_stat nm))).emit Event.lock_release
        if err < 0 then
          let r := map_lfs_error K err s2
          some (r.1, none, r.2)
        else some (0, some (fill_stat K info), s2)

/-- Source `LittleFlash::fsync_p`. `err` is what `lfs_file_sync` returns if it
is called. -/
def fsync_p (K : Consts) (s : State) (fd : Int) (err : Int) : Option (Int × State) :=
  match (s.emit Event.lock_acquire).fds_get fd with
  | none => none
  | some (e, s1) =>
    match e.file with
    | none => some (-1, { (s1.emit Event.lock_release) with errno := K.EBADF })
    | some f =>
      let s2 := (s1.emit (Event.engine (EngineCall.lfs_file_sync f))).emit Event.lock_release
      some (map_lfs_error K err s2)

/-! ## Paths -/

/-- Source `LittleFlash::stat_p`. `err` and `info` are what `lfs_stat`
returns; the middle component is `*st` when it is written. -/
def stat_p (K : Consts) (s : State) (path : String) (err : Int) (info : lfs_info) :
    Int × Option stat × State :=
  let s1 := ((s.emit Event.lock_acquire).emit (Event.engine (EngineCall.lfs_stat path))).emit
    Event.lock_release
  if err < 0 then
    let r := map_lfs_error K err s1
    (r.1, none, r.2)
  else (0, some (fill_stat K info), s1)

/-- Source `LittleFlash::unlink_p`. `err` is what `lfs_remove` returns. -/
def unlink_p (K : Consts) (s : State) (path : String) (err : Int) : Int × State :=
  map_lfs_error K err
    (((s.emit Event.lock_acquire).emit (Event.engine (EngineCall.lfs_remove path))).emit
      Event.lock_release)

/-- Source `LittleFlash::rename_p`. `err` is what `lfs_rename` returns. -/
def rename_p (K : Consts) (s : State) (src dst : String) (err : Int) : Int × State :=
  map_lfs_error K err
    (((s.emit Event.lock_acquire).emit (Event.engine (EngineCall.lfs_rename src dst))).emit
      Event.lock_release)

/-- Source `LittleFlash::mkdir_p`. `err` is what `lfs_mkdir` returns. -/
def mkdir_p (K : Consts) (s : State) (name : String) (mode : Int) (err : Int) : Int × State :=
  let _ := mode
  map_lfs_error K err
    (((s.emit Event.lock_acquire).emit (Event.engine (EngineCall.lfs_mkdir name))).emit
      Event.lock_release)

/-- Source `LittleFlash::rmdir_p`. `err` is what `lfs_remove` returns. -/
def rmdir_p (K : Consts) (s : State) (name : String) (err : Int) : Int × State :=
  map_lfs_error K err
    (((s.emit Event.lock_acquire).emit (Event.engine (EngineCall.lfs_remove name))).emit
      Event.lock_release)

/-! ## Mount -/

/-- What the collaborators answer during `init`. -/
structure InitEnv where
  /-- Result of `esp_partition_find_first`: the size of the partition, or `NULL`. -/
  part_size : Option Nat
  /-- Result of the first `lfs_mount`. -/
  mount : Int
  /-- Result of `lfs_format`. -/
  format : Int
  /-- Result of the second `lfs_mount`. -/
  remount : Int
  /-- Result of `new vfs_fd_t[cfg.open_files]`: `NULL`, or the contents of the
  fresh array before the loop of `init` writes it. -/
  new_fds : Option (Nat → vfs_fd_t)
  /-- Result of `esp_vfs_register`. -/
  register : Int

/-- The loop of `init` that sets every slot to `NULL`/`NULL`, with `k`
iterations left and the loop variable at `i`. -/
def init_slots_loop : Nat → Nat → List vfs_fd_t → List vfs_fd_t
  | 0, _, t => t
  | k + 1, i, t => init_slots_loop k (i + 1) (t.set i { file := none, name := none })

/-- Source `LittleFlash::init`, from `mounted = true` to the end. `err` is the
local variable of that name: the result of the last `lfs_mount`. -/
def init_finish (K : Consts) (s : State) (env : InitEnv) (err : Int) : Int × State :=
  let s1 := { s with mounted := true }
  match env.new_fds with
  | none => (K.ESP_ERR_NO_MEM, { s1 with fds := none })
  | some mem =>
    let t := init_slots_loop s1.cfg.open_files 0 ((List.range s1.cfg.open_files).map mem)
    let s2 := { s1 with fds := some t }
    let s3 := s2.emit (Event.vfs_register s2.cfg.base_path)
    if env.register ≠ K.ESP_OK then (err, s3)
    else (K.ESP_OK, { s3 with registered := true })

/-- Source `LittleFlash::init`, from the first `lfs_mount` to the end. -/
def init_mount (K : Consts) (s : State) (env : InitEnv) : Int × State :=
  let s1 := s.emit (Event.engine EngineCall.lfs_mount)
  if env.mount < 0 then
    let s2 := s1.emit (Event.engine EngineCall.lfs_unmount)
    if !s2.cfg.auto_format then (K.ESP_FAIL, s2)
    else
      let s3 := s2.emit (Event.engine EngineCall.lfs_format)
      if env.format < 0 then (K.ESP_FAIL, s3.emit (Event.engine EngineCall.lfs_unmount))
      else
        let s4 := s3.emit (Event.engine EngineCall.lfs_mount)
        if env.remount < 0 then (K.ESP_FAIL, s4.emit (Event.engine EngineCall.lfs_unmount))
        else init_finish K s4 env env.remount
  else init_finish K s1 env env.mount

/-- Source `LittleFlash::init`. Undefined when the sector size by which the
capacity is divided is zero. -/
def init (K : Consts) (s : State) (config : little_flash_config_t) (env : InitEnv) :
    Option (Int × State) :=
  let s0 := { (s.emit Event.lock_init) with cfg := config }
  match s0.cfg.flash with
  | some fl =>
    if fl.sector_size = 0 then none
    else
      some (init_mount K
        { s0 with sector_sz := fl.sector_size, block_cnt := fl.chip_size / fl.sector_size } env)
  | none =>
    match env.part_size with
    | none => some (K.ESP_ERR_NOT_FOUND, s0)
    | some sz =>
      if K.SPI_FLASH_SEC_SIZE = 0 then none
      else
        some (init_mount K
          { s0 with sector_sz := K.SPI_FLASH_SEC_SIZE, block_cnt := sz / K.SPI_FLASH_SEC_SIZE } env)

/-- The steps of `init` before the first `lfs_mount` go through: the block
device is resolved and its sector size is not zero. -/
def reaches_mount (K : Consts) (config : little_flash_config_t) (env : InitEnv) : Prop :=
  match config.flash with
  | some fl => fl.sector_size ≠ 0
  | none => env.part_size.isSome = true ∧ K.SPI_FLASH_SEC_SIZE ≠ 0

instance (K : Consts) (config : little_flash_config_t) (env : InitEnv) :
    Decidable (reaches_mount K config env) := by
  unfold reaches_mount
  split <;> infer_instance

/-! ## Unmount -/

/-- The body of the loop of `term` for slot `i`:
`if (fds[i].file) { close_p(this, i); fds[i].file = NULL; }`. `err` is what
`lfs_file_close` returns if it is called. -/
def term_close_slot (K : Consts) (s : State) (i : Nat) (err : Int) : Option State :=
  match s.fds_get (i : Int) with
  | none => none
  | some (e, s1) =>
    match e.file with
    | none => some s1
    | some _ =>
      match close_p K s1 (i : Int) err with
      | none => none
      | some (_, s2) =>
        match s2.fds_get (i : Int) with
        | none => none
        | some (e2, _) => s2.fds_set (i : Int) { e2 with file := none }

/-- The loop of `term` over the slots, with `k` iterations left and the loop
variable at `i`. `close_res i` is what `lfs_file_close` returns for slot `i`. -/
def term_loop (K : Consts) (close_res : Nat → Int) : Nat → Nat → State → Option State
  | 0, _, s => some s
  | k + 1, i, s =>
    match term_close_slot K s i (close_res i) with
    | none => none
    | some s1 => term_loop K close_res k (i + 1) s1

/-- Source `LittleFlash::term`. Undefined when the loop reads outside of the
table. -/
def term (K : Consts) (s : State) (close_res : Nat → Int) : Option State :=
  let r : Option State :=
    if s.registered then
      match term_loop K close_res s.cfg.open_files 0 s with
      | none => none
      | some s1 =>
        some { (s1.emit (Event.vfs_unregister s1.cfg.base_path)) with registered := false }
    else some s
  match r with
  | none => none
  | some s2 =>
    let s3 := match s2.fds with
      | some _ => { s2 with fds := none }
      | none => s2
    let s4 :=
      if s3.mounted then
        { (s3.emit (Event.engine EngineCall.lfs_unmount)) with mounted := false }
      else s3
    some (s4.emit Event.lock_close)

/-! ## Directory cursors -/

/-- One answer of the engine to `lfs_dir_read`: an entry, or the failure with
the negative code `-(n + 1)`. -/
inductive DirStep where
  | entry (info : lfs_info)
  | fail (n : Nat)
  deriving DecidableEq, Repr

/-- The engine's directory handle (`lfs_dir_t`) as the adapter sees it: the
answers the engine gives to successive reads after a rewind, and how many of
them have been consumed. Past the last answer the engine reports the end of
the directory. -/
structure lfs_dir_t where
  steps : List DirStep
  pos : Nat
  deriving DecidableEq, Repr

/-- Engine contract of `lfs_dir_read`: positive with the next entry, zero at
the end of the directory, negative on failure. -/
def lfs_dir_read (d : lfs_dir_t) : Int × lfs_info × lfs_dir_t :=
  match d.steps[d.pos]? with
  | none => (0, { type := 0, size := 0, name := "" }, d)
  | some (DirStep.entry info) => (1, info, { d with pos := d.pos + 1 })
  | some (DirStep.fail n) => (Int.negSucc n, { type := 0, size := 0, name := "" }, { d with pos := d.pos + 1 })

/-- Engine contract of `lfs_dir_rewind`: when it succeeds (`res` not
negative) the next read gives the first answer again. -/
def lfs_dir_rewind (d : lfs_dir_t) (res : Int) : Int × lfs_dir_t :=
  if res < 0 then (res, d) else (res, { d with pos := 0 })

/-- The fields of `struct dirent` that the adapter fills. -/
structure dirent where
  d_ino : Int
  d_type : Int
  d_name : String
  deriving DecidableEq, Repr

/-- The cursor `vfs_lfs_dir_t`. -/
structure vfs_lfs_dir_t where
  dirent : dirent
  lfs_dir : lfs_dir_t
  off : Int
  deriving DecidableEq, Repr

/-- C `strlcpy(dst, src, size)`: the new contents of `dst` (at most
`size - 1` characters of `src`) and the return value `strlen(src)`. -/
def strlcpy (dst src : String) (size : Nat) : String × Nat :=
  (if size = 0 then dst else String.mk (src.data.take (size - 1)), src.data.length)

/-- Source `LittleFlash::opendir_p`. `alloc_ok` says whether `malloc`
returned storage; `err` and `steps` are what `lfs_dir_open` returns and the
enumeration of the directory it opened, if it is called. -/
def opendir_p (K : Consts) (s : State) (name : String) (alloc_ok : Bool) (err : Int)
    (steps : List DirStep) : Option vfs_lfs_dir_t × State :=
  if !alloc_ok then (none, { s with errno := K.ENOMEM })
  else
    let vfs_dir : vfs_lfs_dir_t :=
      { dirent := { d_ino := 0, d_type := 0, d_name := "" },
        lfs_dir := { steps := [], pos := 0 }, off := 0 }
    let s1 := ((s.emit Event.lock_acquire).emit
      (Event.engine (EngineCall.lfs_dir_open name))).emit Event.lock_release
    if err ≠ K.LFS_ERR_OK then (none, (map_lfs_error K err s1).2)
    else (some { vfs_dir with lfs_dir := { steps := steps, pos := 0 } }, s1)

/-- What `readdir_r_p` leaves in `*out_dirent`. -/
inductive OutDirent where
  | untouched
  | null
  | entry
  deriving DecidableEq, Repr

/-- Result of `readdir_r_p`: the return value, the cursor, the caller's
`*entry`, and `*out_dirent`. -/
structure ReaddirR where
  ret : Int
  dir : Option vfs_lfs_dir_t
  entry : dirent
  out_dirent : OutDirent
  state : State

/-- Source `LittleFlash::readdir_r_p`. -/
def readdir_r_p (K : Consts) (s : State) (pdir : Option vfs_lfs_dir_t) (entry : dirent) :
    ReaddirR :=
  match pdir with
  | none =>
    { ret := K.EBADF, dir := none, entry := entry, out_dirent := OutDirent.untouched,
      state := { s with errno := K.EBADF } }
  | some vfs_dir =>
    let r := lfs_dir_read vfs_dir.lfs_dir
    let err := r.1
    let info := r.2.1
    let vfs_dir := { vfs_dir with lfs_dir := r.2.2 }
    let s1 := ((s.emit Event.lock_acquire).emit
      (Event.engine EngineCall.lfs_dir_read)).emit Event.lock_release
    if err = 0 then
      { ret := 0, dir := some vfs_dir, entry := entry, out_dirent := OutDirent.null, state := s1 }
    else if err < 0 then
      let s2 := (map_lfs_error K err s1).2
      { ret := s2.errno, dir := some vfs_dir, entry := entry,
        out_dirent := OutDirent.untouched, state := s2 }
    else
      let d_type :=
        if info.type = K.LFS_TYPE_REG then K.DT_REG
        else if info.type = K.LFS_TYPE_DIR then K.DT_DIR
        else K.DT_UNKNOWN
      let c := strlcpy entry.d_name info.name K.d_name_size
      let entry : dirent := { d_ino := 0, d_type := d_type, d_name := c.1 }
      if c.2 ≥ K.d_name_size then
        { ret := K.ENAMETOOLONG, dir := some vfs_dir, entry := entry,
          out_dirent := OutDirent.untouched, state := { s1 with errno := K.ENAMETOOLONG } }
      else
        { ret := 0, dir := some { vfs_dir with off := vfs_dir.off + 1 }, entry := entry,
          out_dirent := OutDirent.entry, state := s1.emit Event.off_access }

/-- Source `LittleFlash::readdir_p`: the cursor after the call, the entry it
returns (`none` is `NULL`), and the state. -/
def readdir_p (K : Consts) (s : State) (pdir : Option vfs_lfs_dir_t) :
    Option vfs_lfs_dir_t × Option dirent × State :=
  match pdir with
  | none => (none, none, { s with errno := K.EBADF })
  | some vfs_dir =>
    let r := readdir_r_p K s (some vfs_dir) vfs_dir.dirent
    let dir := r.dir.map (fun d => { d with dirent := r.entry })
    let out := match r.out_dirent with
      | OutDirent.entry => some r.entry
      | _ => none
    let s1 := if r.ret ≠ 0 then { r.state with errno := r.ret } else r.state
    (dir, out, s1)

/-- Source `LittleFlash::telldir_p`. -/
def telldir_p (K : Consts) (s : State) (pdir : Option vfs_lfs_dir_t) : Int × State :=
  match pdir with
  | none => (K.EBADF, { s with errno := K.EBADF })
  | some vfs_dir => (vfs_dir.off, s.emit Event.off_access)

/-- Apply `readdir_p` to a cursor `k` times in a row. -/
def readdir_n (K : Consts) : Nat → State → Option vfs_lfs_dir_t → Option vfs_lfs_dir_t × State
  | 0, s, pdir => (pdir, s)
  | k + 1, s, pdir =>
    let r := readdir_p K s pdir
    readdir_n K k r.2.2 r.1

/-- The `for` loop of `seekdir_p`, with `k = offset - off` iterations left:
each iteration tests `off < offset`, reads one entry, leaves the loop when
the read fails, and otherwise increments `off`. The third component is the
local `err`. -/
def seekdir_loop : Nat → vfs_lfs_dir_t → State → Int → vfs_lfs_dir_t × State × Int
  | 0, d, s, err => (d, s.emit Event.off_access, err)
  | k + 1, d, s, _ =>
    let r := lfs_dir_read d.lfs_dir
    let d1 := { d with lfs_dir := r.2.2 }
    let s1 := (s.emit Event.off_access).emit (Event.engine EngineCall.lfs_dir_read)
    if r.1 < 0 then (d1, s1, r.1)
    else seekdir_loop k { d1 with off := d1.off + 1 } (s1.emit Event.off_access) r.1

/-- Source `LittleFlash::seekdir_p`: the cursor after the call and the state.
`rewind_res` is what `lfs_dir_rewind` returns. -/
def seekdir_p (K : Consts) (s : State) (pdir : Option vfs_lfs_dir_t) (offset : Int)
    (rewind_res : Int) : Option vfs_lfs_dir_t × State :=
  match pdir with
  | none => (none, { s with errno := K.EBADF })
  | some vfs_dir =>
    let s1 := (s.emit Event.lock_acquire).emit (Event.engine EngineCall.lfs_dir_rewind)
    let rw := lfs_dir_rewind vfs_dir.lfs_dir rewind_res
    let d1 := { vfs_dir with lfs_dir := rw.2 }
    let r : vfs_lfs_dir_t × State × Int :=
      if rw.1 ≥ 0 then seekdir_loop offset.toNat { d1 with off := 0 } (s1.emit Event.off_access) rw.1
      else (d1, s1, rw.1)
    let s2 := r.2.1.emit Event.lock_release
    if r.2.2 < 0 then (some r.1, (map_lfs_error K r.2.2 s2).2)
    else (some r.1, s2)

/-- Source `LittleFlash::closedir_p`: the return value and the state; the
cursor's storage is freed. `err` is what `lfs_dir_close` returns. -/
def closedir_p (K : Consts) (s : State) (pdir : Option vfs_lfs_dir_t) (err : Int) :
    Int × State :=
  match pdir with
  | none => (-1, { s with errno := K.EBADF })
  | some _ =>
    map_lfs_error K err
      (((s.emit Event.lock_acquire).emit (Event.engine EngineCall.lfs_dir_close)).emit
        Event.lock_release)

/-! ## Block devices -/

/-- A call into a flash driver, with the address arguments the adapter passes:
the three member functions of the external chip and the three partition
functions of the platform. -/
inductive DriverCall where
  | flash_read (addr size : Nat)
  | flash_write (addr size : Nat)
  | flash_erase_sector (sector : Nat)
  | esp_partition_read (src_offset size : Nat)
  | esp_partition_write (dst_offset size : Nat)
  | esp_partition_erase_range (start_addr size : Nat)
  deriving DecidableEq, Repr

/-- The value of an expression of type `size_t`, which has 32 bits on the
ESP32. -/
def size_t (n : Nat) : Nat := n % 2 ^ 32

/-- Source `LittleFlash::external_read`: the driver call made and the code
returned, `err` being what the driver answers. Undefined when `cfg.flash` is
`NULL`. -/
def external_read (K : Consts) (s : State) (block off size : Nat) (err : Int) :
    Option (DriverCall × Int) :=
  match s.cfg.flash with
  | none => none
  | some _ =>
    some (DriverCall.flash_read (size_t ((block * s.sector_sz) + off)) size,
      if err = K.ESP_OK then K.LFS_ERR_OK else K.LFS_ERR_IO)

/-- Source `LittleFlash::external_prog`. -/
def external_prog (K : Consts) (s : State) (block off size : Nat) (err : Int) :
    Option (DriverCall × Int) :=
  match s.cfg.flash with
  | none => none
  | some _ =>
    some (DriverCall.flash_write (size_t ((block * s.sector_sz) + off)) size,
      if err = K.ESP_OK then K.LFS_ERR_OK else K.LFS_ERR_IO)

/-- Source `LittleFlash::external_erase`. -/
def external_erase (K : Consts) (s : State) (block : Nat) (err : Int) :
    Option (DriverCall × Int) :=
  match s.cfg.flash with
  | none => none
  | some _ =>
    some (DriverCall.flash_erase_sector block,
      if err = K.ESP_OK then K.LFS_ERR_OK else K.LFS_ERR_IO)

/-- Source `LittleFlash::external_sync`. -/
def external_sync (K : Consts) : Int := K.LFS_ERR_OK

/-- Source `LittleFlash::internal_read`. -/
def internal_read (K : Consts) (s : State) (block off size : Nat) (err : Int) :
    DriverCall × Int :=
  (DriverCall.esp_partition_read (size_t ((block * s.sector_sz) + off)) size,
    if err = K.ESP_OK then K.LFS_ERR_OK else K.LFS_ERR_IO)

/-- Source `LittleFlash::internal_prog`. -/
def internal_prog (K : Consts) (s : State) (block off size : Nat) (err : Int) :
    DriverCall × Int :=
  (DriverCall.esp_partition_write (size_t ((block * s.sector_sz) + off)) size,
    if err = K.ESP_OK then K.LFS_ERR_OK else K.LFS_ERR_IO)

/-- Source `LittleFlash::internal_erase`. -/
def internal_erase (K : Consts) (s : State) (block : Nat) (err : Int) : DriverCall × Int :=
  (DriverCall.esp_partition_erase_range (size_t (block * s.sector_sz)) s.sector_sz,
    if err = K.ESP_OK then K.LFS_ERR_OK else K.LFS_ERR_IO)

/-- Source `LittleFlash::internal_sync`. -/
def internal_sync (K : Consts) : Int := K.LFS_ERR_OK

/-! ## Vocabulary of the claims -/

/-- Every slot of the table is bound to an engine handle. -/
def table_full (t : List vfs_fd_t) : Prop :=
  ∀ e ∈ t, e.file ≠ none

instance (t : List vfs_fd_t) : Decidable (table_full t) := by
  unfold table_full; infer_instance

/-- An `open` call whose two allocations succeeded: `file` is the storage
`malloc` returned, the copy of `path` is the one `strdup` returned, and `err`
is what `lfs_file_open` returns if it is called. -/
structure OpenReq where
  path : String
  flags : Nat
  mode : Int
  file : Ptr
  err : Int
  deriving DecidableEq, Repr

/-- Run `open_p` for each request in turn; the descriptors returned, in
order, and the final state. -/
def open_seq (K : Consts) : State → List OpenReq → Option (List Int × State)
  | s, [] => some ([], s)
  | s, q :: qs =>
    match open_p K s q.path q.flags q.mode (some q.file) true q.err with
    | none => none
    | some (r, s1) =>
      match open_seq K s1 qs with
      | none => none
      | some (rs, s2) => some (r :: rs, s2)

/-- A mounted volume of capacity 2 with slot 0 bound and slot 1 free. -/
def sample_half : State :=
  { cfg := { flash := none, part_label := "littlefs", base_path := "/littleflash",
             open_files := 2, auto_format := true, lookahead := 32 },
    mounted := true, registered := true, sector_sz := 4096, block_cnt := 16,
    fds := some [{ file := some 1, name := some "/a" }, { file := none, name := none }],
    errno := 0, trace := [] }

/-- A freshly mounted volume of capacity 2. -/
def sample_fresh : State :=
  { sample_half with fds := some [{ file := none, name := none }, { file := none, name := none }] }

/-- A mounted volume of capacity 2 with both slots bound. -/
def sample_full : State :=
  { sample_half with
    fds := some [{ file := some 1, name := some "/a" }, { file := some 2, name := some "/b" }] }

/-- Storage of a `LittleFlash` object before its constructor has run. -/
def sample_storage : State :=
  { cfg := { flash := none, part_label := "", base_path := "", open_files := 0,
             auto_format := false, lookahead := 0 },
    mounted := true, registered := true, sector_sz := 0, block_cnt := 0,
    fds := some [], errno := 0, trace := [] }

/-- The configuration of the repository's tests (`test_littleflash_setup`)
with four open files, on an external chip of 4 MiB with 4 KiB sectors. -/
def sample_config : little_flash_config_t :=
  { flash := some { sector_size := 4096, chip_size := 4194304 }, part_label := "",
    base_path := "/littleflash", open_files := 4, auto_format := true, lookahead := 32 }

/-- The engine mounts at once, the table is allocated, and
`esp_vfs_register` refuses with `ESP_ERR_NO_MEM`. -/
def sample_register_fails : InitEnv :=
  { part_size := none, mount := 0, format := 0, remount := 0,
    new_fds := some (fun _ => { file := some 99, name := some "?" }),
    register := 257 }

/-- An unformatted device: the first mount fails with `LFS_ERR_CORRUPT`,
format and the second mount succeed, and so does the registration. -/
def sample_unformatted : InitEnv :=
  { part_size := none, mount := -52, format := 0, remount := 0,
    new_fds := some (fun _ => { file := some 99, name := some "?" }),
    register := 0 }

/-- A volume on an external chip with 4 KiB sectors. -/
def sample_chip : State :=
  { sample_half with cfg := sample_config, sector_sz := 4096, block_cnt := 1024 }

/-- The constants of the ESP32 with a host name field of 4 bytes, as for a
`struct dirent` that is shorter than the names of the engine. -/
def esp32_short_names : Consts := { esp32 with d_name_size := 4 }

/-- A cursor on a directory of one entry, before the first read. -/
def sample_cursor : vfs_lfs_dir_t :=
  { dirent := { d_ino := 0, d_type := 0, d_name := "" },
    lfs_dir := { steps := [DirStep.entry { type := 17, size := 5, name := "1.txt" }], pos := 0 },
    off := 0 }

/-- The entries `n` calls of `readdir_p` return, in order (`none` is `NULL`). -/
def readdir_outs (K : Consts) : Nat → State → Option vfs_lfs_dir_t → List (Option dirent)
  | 0, _, _ => []
  | n + 1, s, pdir =>
    let r := readdir_p K s pdir
    r.2.1 :: readdir_outs K n r.2.2 r.1

/-- The host entry `readdir_r_p` builds from an engine entry whose name fits. -/
def to_dirent (K : Consts) (info : lfs_info) : dirent :=
  { d_ino := 0,
    d_type := if info.type = K.LFS_TYPE_REG then K.DT_REG
      else if info.type = K.LFS_TYPE_DIR then K.DT_DIR else K.DT_UNKNOWN,
    d_name := info.name }

/-- The number of entries the engine handle has yielded since the last
rewind: the entries among the answers it has consumed. -/
def yielded (d : lfs_dir_t) : Nat :=
  ((d.steps.take d.pos).filter (fun st => match st with
    | DirStep.entry _ => true
    | DirStep.fail _ => false)).length

/-- A call on a directory cursor, with what the engine answers where the
answer is not fixed by the directory: `readdir`, `readdir_r` with the
caller's entry buffer, `telldir`, and `seekdir` with its offset and the
result of the engine rewind. -/
inductive DirOp where
  | readdir
  | readdir_r (entry : dirent)
  | telldir
  | seekdir (offset : Int) (rewind_res : Int)
  deriving DecidableEq, Repr

/-- Run one call on a cursor. -/
def DirOp.run (K : Consts) : DirOp → State × vfs_lfs_dir_t → State × vfs_lfs_dir_t
  | DirOp.readdir, (s, d) =>
    let r := readdir_p K s (some d)
    (r.2.2, r.1.getD d)
  | DirOp.readdir_r entry, (s, d) =>
    let r := readdir_r_p K s (some d) entry
    (r.state, r.dir.getD d)
  | DirOp.telldir, (s, d) => ((telldir_p K s (some d)).2, d)
  | DirOp.seekdir offset rewind_res, (s, d) =>
    let r := seekdir_p K s (some d) offset rewind_res
    (r.2, r.1.getD d)

/-- Run a sequence of calls on a cursor. -/
def dir_run (K : Consts) : List DirOp → State × vfs_lfs_dir_t → State × vfs_lfs_dir_t
  | [], c => c
  | op :: ops, c => dir_run K ops (op.run K c)

/-- The call does not seek past position `T`. -/
def DirOp.within (T : Nat) : DirOp → Prop
  | DirOp.seekdir offset _ => offset ≤ (T : Int)
  | _ => True

instance (T : Nat) (op : DirOp) : Decidable (op.within T) := by
  cases op <;> unfold DirOp.within <;> infer_instance

/-- A call of the call surface, with its arguments and with what the heap
and the engine answer during the call. -/
inductive Op where
  | open (path : String) (flags : Nat) (mode : Int) (file : Option Ptr) (name_ok : Bool)
      (err : Int)
  | close (fd : Int) (err : Int)
  | read (fd : Int) (size : Nat) (res : Int)
  | write (fd : Int) (size : Nat) (written : Int)
  | lseek (fd : Int) (size : Int) (mode : Int) (seek_res tell_res : Int)
  | fstat (fd : Int) (err : Int) (info : lfs_info)
  | stat (path : String) (err : Int) (info : lfs_info)
  | unlink (path : String) (err : Int)
  | rename (src dst : String) (err : Int)
  | mkdir (name : String) (mode : Int) (err : Int)
  | rmdir (name : String) (err : Int)
  | opendir (name : String) (alloc_ok : Bool) (err : Int) (steps : List DirStep)
  | readdir (pdir : Option vfs_lfs_dir_t)
  | readdir_r (pdir : Option vfs_lfs_dir_t) (entry : dirent)
  | telldir (pdir : Option vfs_lfs_dir_t)
  | seekdir (pdir : Option vfs_lfs_dir_t) (offset : Int) (rewind_res : Int)
  | closedir (pdir : Option vfs_lfs_dir_t) (err : Int)
  | fsync (fd : Int) (err : Int)
  deriving DecidableEq, Repr

/-- The state after a call of the call surface. -/
def Op.run (K : Consts) : Op → State → Option State
  | Op.open path flags mode file name_ok err, s =>
    (open_p K s path flags mode file name_ok err).map (fun r => r.2)
  | Op.close fd err, s => (close_p K s fd err).map (fun r => r.2)
  | Op.read fd size res, s => (read_p K s fd size res).map (fun r => r.2)
  | Op.write fd size written, s => (write_p K s fd size written).map (fun r => r.2)
  | Op.lseek fd size mode seek_res tell_res, s =>
    (lseek_p K s fd size mode seek_res tell_res).map (fun r => r.2)
  | Op.fstat fd err info, s => (fstat_p K s fd err info).map (fun r => r.2.2)
  | Op.stat path err info, s => some (stat_p K s path err info).2.2
  | Op.unlink path err, s => some (unlink_p K s path err).2
  | Op.rename src dst err, s => some (rename_p K s src dst err).2
  | Op.mkdir name mode err, s => some (mkdir_p K s name mode err).2
  | Op.rmdir name err, s => some (rmdir_p K s name err).2
  | Op.opendir name alloc_ok err steps, s => some (opendir_p K s name alloc_ok err steps).2
  | Op.readdir pdir, s => some (readdir_p K s pdir).2.2
  | Op.readdir_r pdir entry, s => some (readdir_r_p K s pdir entry).state
  | Op.telldir pdir, s => some (telldir_p K s pdir).2
  | Op.seekdir pdir offset rewind_res, s => some (seekdir_p K s pdir offset rewind_res).2
  | Op.closedir pdir err, s => some (closedir_p K s pdir err).2
  | Op.fsync fd err, s => (fsync_p K s fd err).map (fun r => r.2)

/-- Follow the lock flag along a trace, starting with the flag at `held`: the
flag at the end, or `none` when the lock is acquired while held, released
while free, or when the engine or the file-handle table is accessed while the
lock is free. With `guard_off` the same is asked of every access to a
position counter. -/
def lock_walk (guard_off : Bool) : Bool → List Event → Option Bool
  | held, [] => some held
  | held, Event.lock_acquire :: t => if held then none else lock_walk guard_off true t
  | held, Event.lock_release :: t => if held then lock_walk guard_off false t else none
  | held, Event.engine _ :: t => if held then lock_walk guard_off held t else none
  | held, Event.fds_access _ :: t => if held then lock_walk guard_off held t else none
  | held, Event.off_access :: t =>
    if held || !guard_off then lock_walk guard_off held t else none
  | held, _ :: t => lock_walk guard_off held t

/-- A step in the life of a `LittleFlash` object after its construction: the
host dispatches a call to it, `init` is called, or `term` is called. -/
inductive Step where
  | call (op : Op)
  | init (config : little_flash_config_t) (env : InitEnv)
  | term (close_res : Nat → Int)

/-- Run one step. The host dispatches calls only while the call surface is
registered, and `init` is for an object whose call surface is not
registered; `none` also stands for a step outside of these rules. -/
def Step.run (K : Consts) : Step → State → Option State
  | Step.call op, s => if s.registered then op.run K s else none
  | Step.init config env, s =>
    if s.registered then none else (LittleFlash.init K s config env).map (fun r => r.2)
  | Step.term close_res, s => LittleFlash.term K s close_res

/-- Run a sequence of steps. -/
def run_steps (K : Consts) : List Step → State → Option State
  | [], s => some s
  | st :: sts, s =>
    match st.run K s with
    | none => none
    | some s1 => run_steps K sts s1

/-- A step in the life of the table of a mounted volume: a call of the call
surface, or the forced close of slot `i` by `term`. -/
inductive TableStep where
  | call (op : Op)
  | forced_close (i : Nat) (err : Int)
  deriving DecidableEq, Repr

/-- Run one step on the table. -/
def TableStep.run (K : Consts) : TableStep → State → Option State
  | TableStep.call op, s => op.run K s
  | TableStep.forced_close i err, s => term_close_slot K s i err

/-- Run a sequence of steps on the table. -/
def table_run (K : Consts) : List TableStep → State → Option State
  | [], s => some s
  | st :: sts, s =>
    match st.run K s with
    | none => none
    | some s1 => table_run K sts s1

/-- The engine handles of the slots that are open, in the order of the
slots. -/
def open_handles (s : State) : List Ptr :=
  match s.fds with
  | none => []
  | some t => t.filterMap (fun e => e.file)

/-- The slot retains a path if and only if it holds an engine handle. -/
def vfs_fd_t.paired (e : vfs_fd_t) : Prop :=
  e.name ≠ none ↔ e.file ≠ none

instance (e : vfs_fd_t) : Decidable e.paired := by
  unfold vfs_fd_t.paired; infer_instance

/-- The object `s1` is `s` after the events `delta`: they differ by these
events at the end of the trace, by the value of `errno`, and by at most one
slot of the table, which has been written with a paired value. -/
def State.after (s s1 : State) (delta : List Event) : Prop :=
  ∃ (en : Int) (fds1 : Option (List vfs_fd_t)),
    s1 = { s with trace := s.trace ++ delta, errno := en, fds := fds1 } ∧
    (fds1 = s.fds ∨ ∃ (t : List vfs_fd_t) (j : Nat) (e : vfs_fd_t),
      s.fds = some t ∧ j < t.length ∧ fds1 = some (t.set j e) ∧ e.paired)

/-- While the call surface is registered the table is allocated with
`cfg.open_files` slots, and while it is not registered no slot holds an engine
handle. -/
def State.consistent (s : State) : Prop :=
  (s.registered = true → ∃ t, s.fds = some t ∧ t.length = s.cfg.open_files) ∧
  (s.registered = false → open_handles s = [])

/-- The life of an object up to two open files: `init` on an unformatted
chip, then two calls of `open` dispatched by the host. -/
def sample_life : List Step :=
  [Step.init sample_config sample_unformatted,
   Step.call (Op.open "/a" 0 0 (some 7) true 0),
   Step.call (Op.open "/b" 0 0 (some 8) true 0)]

/-- The object at the end of `sample_life`. -/
def sample_two_open : State :=
  (run_steps esp32 sample_life (LittleFlash_new sample_storage)).getD sample_storage

/-- A configuration for one open file on a partition that does not exist. -/
def sample_other_config : little_flash_config_t :=
  { flash := none, part_label := "missing", base_path := "/other", open_files := 1,
    auto_format := false, lookahead := 32 }

/-- The object `sample_two_open` after `init` has been called on it once
more, with `sample_other_config`. -/
def sample_reinit : State :=
  ((init esp32 sample_two_open sample_other_config sample_unformatted).map
    (fun r => r.2)).getD sample_storage

/-- The object right after the `init` of `sample_life`. -/
def sample_mounted : State :=
  ((init esp32 (LittleFlash_new sample_storage) sample_config sample_unformatted).map
    (fun r => r.2)).getD sample_storage

/-- Two opens, the close of the first descriptor, and the forced close of
slot 1 with the engine reporting an I/O error. -/
def sample_table_steps : List TableStep :=
  [TableStep.call (Op.open "/a" 0 0 (some 7) true 0),
   TableStep.call (Op.open "/b" 0 0 (some 8) true 0),
   TableStep.call (Op.close 0 0),
   TableStep.forced_close 1 (-5)]

/-- The object `sample_mounted` after `sample_table_steps`. -/
def sample_after_closes : State :=
  (table_run esp32 sample_table_steps sample_mounted).getD sample_storage

/-- The events of a list are all accesses to the file-handle table. -/
def only_fds_access (tr : List Event) : Prop :=
  ∀ e ∈ tr, ∃ j, e = Event.fds_access j

/-! ## Basic facts -/

@[simp] theorem emit_fds (s : State) (e : Event) : (s.emit e).fds = s.fds := rfl
@[simp] theorem emit_errno (s : State) (e : Event) : (s.emit e).errno = s.errno := rfl
@[simp] theorem emit_cfg (s : State) (e : Event) : (s.emit e).cfg = s.cfg := rfl
@[simp] theorem emit_mounted (s : State) (e : Event) : (s.emit e).mounted = s.mounted := rfl
@[simp] theorem emit_registered (s : State) (e : Event) :
    (s.emit e).registered = s.registered := rfl
@[simp] theorem emit_trace (s : State) (e : Event) : (s.emit e).trace = s.trace ++ [e] := rfl

theorem engine_calls_append (a b : List Event) :
    engine_calls (a ++ b) = engine_calls a ++ engine_calls b := by
  induction a with
  | nil => rfl
  | cons e t ih => cases e <;> simp [engine_calls, ih]

/-- The function `map_lfs_error` in one line: success leaves the state alone,
every other code gives `-1` and sets `errno` from the `switch`. -/
theorem map_lfs_error_eq (K : Consts) (err : Int) (s : State) :
    map_lfs_error K err s =
      if err = K.LFS_ERR_OK then (0, s) else (-1, { s with errno := lfs_errno K err }) := by
  unfold map_lfs_error lfs_errno
  by_cases h0 : err = K.LFS_ERR_OK
  · simp only [if_pos h0]
  simp only [if_neg h0]
  by_cases h1 : err = K.LFS_ERR_IO
  · simp only [if_pos h1]
  simp only [if_neg h1]
  by_cases h2 : err = K.LFS_ERR_CORRUPT
  · simp only [if_pos h2]
  simp only [if_neg h2]
  by_cases h3 : err = K.LFS_ERR_NOENT
  · simp only [if_pos h3]
  simp only [if_neg h3]
  by_cases h4 : err = K.LFS_ERR_EXIST
  · simp only [if_pos h4]
  simp only [if_neg h4]
  by_cases h5 : err = K.LFS_ERR_NOTDIR
  · simp only [if_pos h5]
  simp only [if_neg h5]
  by_cases h6 : err = K.LFS_ERR_ISDIR
  · simp only [if_pos h6]
  simp only [if_neg h6]
  by_cases h7 : err = K.LFS_ERR_NOTEMPTY
  · simp only [if_pos h7]
  simp only [if_neg h7]
  by_cases h8 : err = K.LFS_ERR_INVAL
  · simp only [if_pos h8]
  simp only [if_neg h8]
  by_cases h9 : err = K.LFS_ERR_NOSPC
  · simp only [if_pos h9]
  simp only [if_neg h9]
  by_cases h10 : err = K.LFS_ERR_NOMEM
  · simp only [if_pos h10]
  simp only [if_neg h10]

theorem map_lfs_error_ok (K : Consts) (s : State) :
    map_lfs_error K K.LFS_ERR_OK s = (0, s) := by
  rw [map_lfs_error_eq, if_pos rfl]

theorem map_lfs_error_ne (K : Consts) (err : Int) (s : State) (h : err ≠ K.LFS_ERR_OK) :
    map_lfs_error K err s = (-1, { s with errno := lfs_errno K err }) := by
  rw [map_lfs_error_eq, if_neg h]

@[simp] theorem map_lfs_error_fds (K : Consts) (err : Int) (s : State) :
    (map_lfs_error K err s).2.fds = s.fds := by
  rw [map_lfs_error_eq]; split <;> rfl

@[simp] theorem map_lfs_error_trace (K : Consts) (err : Int) (s : State) :
    (map_lfs_error K err s).2.trace = s.trace := by
  rw [map_lfs_error_eq]; split <;> rfl

@[simp] theorem map_lfs_error_cfg (K : Consts) (err : Int) (s : State) :
    (map_lfs_error K err s).2.cfg = s.cfg := by
  rw [map_lfs_error_eq]; split <;> rfl

/-- A code other than the success code is reported as `-1`. -/
theorem map_lfs_error_ret (K : Consts) (err : Int) (s : State) (h : err ≠ K.LFS_ERR_OK) :
    (map_lfs_error K err s).1 = -1 := by
  rw [map_lfs_error_ne K err s h]

theorem fds_get_eq (s : State) (t : List vfs_fd_t) (i : Nat) (e : vfs_fd_t)
    (ht : s.fds = some t) (he : t[i]? = some e) :
    s.fds_get (i : Int) = some (e, s.emit (Event.fds_access i)) := by
  simp [State.fds_get, ht, he]

theorem fds_set_eq (s : State) (t : List vfs_fd_t) (i : Nat) (e : vfs_fd_t)
    (ht : s.fds = some t) (hi : i < t.length) :
    s.fds_set (i : Int) e =
      some { s with fds := some (t.set i e), trace := s.trace ++ [Event.fds_access i] } := by
  simp [State.fds_set, ht, hi]

/-- What the scan of `get_free_fd` returns on a table `t`, from index `i`
for `k` iterations: it only appends table accesses to the trace, and the
result is the lowest index in the range whose handle is `NULL`, or `-1` when
there is none. -/
theorem get_free_fd_loop_spec (t : List vfs_fd_t) :
    ∀ (k i : Nat) (s : State), s.fds = some t → i + k ≤ t.length →
      ∃ (r : Int) (tr : List Event),
        get_free_fd_loop k i s = some (r, { s with trace := s.trace ++ tr }) ∧
        engine_calls tr = [] ∧
        ((r = -1 ∧ ∀ j, i ≤ j → j < i + k → ∀ e, t[j]? = some e → e.file ≠ none) ∨
         (∃ j : Nat, r = (j : Int) ∧ i ≤ j ∧ j < i + k ∧
            (∃ e, t[j]? = some e ∧ e.file = none) ∧
            ∀ j', i ≤ j' → j' < j → ∀ e, t[j']? = some e → e.file ≠ none)) := by
  intro k
  induction k with
  | zero =>
    intro i s _ _
    refine ⟨-1, [], ?_, rfl, Or.inl ⟨rfl, ?_⟩⟩
    · simp [get_free_fd_loop]
    · intro j h1 h2; omega
  | succ k ih =>
    intro i s ht hlen
    have hi : i < t.length := by omega
    obtain ⟨e, he⟩ : ∃ e, t[i]? = some e := ⟨t[i], by simp [hi]⟩
    by_cases hf : e.file = none
    · refine ⟨(i : Int), [Event.fds_access i], ?_, rfl, Or.inr ⟨i, rfl, le_refl _, by omega,
        ⟨e, he, hf⟩, ?_⟩⟩
      · simp [get_free_fd_loop, fds_get_eq s t i e ht he, hf, State.emit]
      · intro j' h1 h2; omega
    · obtain ⟨r, tr, hr, htr, hcase⟩ :=
        ih (i + 1) (s.emit (Event.fds_access i)) (by simpa using ht) (by omega)
      refine ⟨r, Event.fds_access i :: tr, ?_, ?_, ?_⟩
      · rw [get_free_fd_loop, fds_get_eq s t i e ht he]
        simp only [hf, if_false]
        rw [hr]
        simp [State.emit]
      · simpa [engine_calls] using htr
      · rcases hcase with ⟨hr1, hall⟩ | ⟨j, hj, h1, h2, h3, h4⟩
        · refine Or.inl ⟨hr1, ?_⟩
          intro j h1 h2 e' he'
          by_cases hji : j = i
          · subst hji; rw [he] at he'; cases he'; exact hf
          · exact hall j (by omega) (by omega) e' he'
        · refine Or.inr ⟨j, hj, by omega, by omega, h3, ?_⟩
          intro j' h1' h2' e' he'
          by_cases hji : j' = i
          · subst hji; rw [he] at he'; cases he'; exact hf
          · exact h4 j' (by omega) h2' e' he'

theorem get_free_fd_found (s : State) (t : List vfs_fd_t) (j : Nat)
    (ht : s.fds = some t) (hlen : t.length = s.cfg.open_files)
    (hj : (∃ e, t[j]? = some e ∧ e.file = none) ∧
      ∀ j', j' < j → ∀ e, t[j']? = some e → e.file ≠ none) :
    ∃ tr, get_free_fd s = some ((j : Int), { s with trace := s.trace ++ tr }) ∧
      engine_calls tr = [] := by
  obtain ⟨r, tr, hr, htr, hcase⟩ :=
    get_free_fd_loop_spec t s.cfg.open_files 0 s ht (by omega)
  obtain ⟨⟨e, he, hfree⟩, hlow⟩ := hj
  have hjlt : j < t.length := by
    by_contra hge
    rw [List.getElem?_eq_none (by omega)] at he
    cases he
  refine ⟨tr, ?_, htr⟩
  rcases hcase with ⟨_, hall⟩ | ⟨j2, hj2, _, h2, ⟨e2, he2, hfree2⟩, h4⟩
  · exact absurd hfree (hall j (Nat.zero_le _) (by omega) e he)
  · have : j2 = j := by
      rcases Nat.lt_trichotomy j2 j with h | h | h
      · exact absurd hfree2 (hlow j2 h e2 he2)
      · exact h
      · exact absurd hfree (h4 j (Nat.zero_le _) h e he)
    subst this
    unfold get_free_fd
    rw [hr, hj2]

theorem get_free_fd_full (s : State) (t : List vfs_fd_t)
    (ht : s.fds = some t) (hlen : t.length = s.cfg.open_files) (hfull : table_full t) :
    ∃ tr, get_free_fd s = some (-1, { s with trace := s.trace ++ tr }) ∧
      engine_calls tr = [] := by
  obtain ⟨r, tr, hr, htr, hcase⟩ :=
    get_free_fd_loop_spec t s.cfg.open_files 0 s ht (by omega)
  refine ⟨tr, ?_, htr⟩
  rcases hcase with ⟨hr1, _⟩ | ⟨j2, _, _, _, ⟨e2, he2, hfree2⟩, _⟩
  · unfold get_free_fd
    rw [hr, hr1]
  · exact absurd hfree2 (hfull e2 (List.getElem?_mem he2))

@[simp] theorem engine_calls_nil : engine_calls [] = [] := rfl

@[simp] theorem engine_calls_cons_engine (c : EngineCall) (t : List Event) :
    engine_calls (Event.engine c :: t) = c :: engine_calls t := rfl

@[simp] theorem engine_calls_cons_acquire (t : List Event) :
    engine_calls (Event.lock_acquire :: t) = engine_calls t := rfl

@[simp] theorem engine_calls_cons_release (t : List Event) :
    engine_calls (Event.lock_release :: t) = engine_calls t := rfl

@[simp] theorem engine_calls_cons_fds (i : Nat) (t : List Event) :
    engine_calls (Event.fds_access i :: t) = engine_calls t := rfl

@[simp] theorem engine_calls_cons_off (t : List Event) :
    engine_calls (Event.off_access :: t) = engine_calls t := rfl

@[simp] theorem engine_calls_cons_lock_init (t : List Event) :
    engine_calls (Event.lock_init :: t) = engine_calls t := rfl

@[simp] theorem engine_calls_cons_lock_close (t : List Event) :
    engine_calls (Event.lock_close :: t) = engine_calls t := rfl

@[simp] theorem engine_calls_cons_register (b : String) (t : List Event) :
    engine_calls (Event.vfs_register b :: t) = engine_calls t := rfl

@[simp] theorem engine_calls_cons_unregister (b : String) (t : List Event) :
    engine_calls (Event.vfs_unregister b :: t) = engine_calls t := rfl

/-- `open_p` with both allocations done, on a table whose lowest free slot is
`j`, when the engine opens the file: it binds slot `j` and returns `j`. -/
theorem open_p_found (K : Consts) (s : State) (t : List vfs_fd_t) (j : Nat)
    (path : String) (flags : Nat) (mode : Int) (f : Ptr) (err : Int)
    (ht : s.fds = some t) (hlen : t.length = s.cfg.open_files)
    (hj : (∃ e, t[j]? = some e ∧ e.file = none) ∧
      ∀ j', j' < j → ∀ e, t[j']? = some e → e.file ≠ none)
    (herr : 0 ≤ err) :
    ∃ tr, open_p K s path flags mode (some f) true err =
        some ((j : Int), { s with fds := some (t.set j { file := some f, name := some path }),
                                  trace := s.trace ++ tr }) ∧
      engine_calls tr = [EngineCall.lfs_file_open f path (open_p_lfs_flags K flags)] := by
  obtain ⟨tr, hget, htr⟩ :=
    get_free_fd_found (s.emit Event.lock_acquire) t j (by simpa using ht) (by simpa using hlen) hj
  have hjlt : j < t.length := by
    obtain ⟨⟨e, he, _⟩, _⟩ := hj
    by_contra hge
    rw [List.getElem?_eq_none (by omega)] at he
    cases he
  have hne : ((j : Int) = -1) = False := by
    apply eq_false; omega
  refine ⟨Event.lock_acquire :: tr ++
    [Event.engine (EngineCall.lfs_file_open f path (open_p_lfs_flags K flags)),
     Event.fds_access j, Event.lock_release], ?_, ?_⟩
  · unfold open_p
    simp only [Bool.not_true, Bool.false_eq_true, if_false, hget, hne, not_lt.mpr herr]
    rw [fds_set_eq _ t j _ (by simpa [State.emit] using ht) hjlt]
    simp [State.emit]
  · simp [engine_calls_append, htr]

/-- `open_p` with both allocations done, on a full table: `ENFILE`, no
engine call, the table as before. -/
theorem open_p_full (K : Consts) (s : State) (t : List vfs_fd_t)
    (path : String) (flags : Nat) (mode : Int) (f : Ptr) (err : Int)
    (ht : s.fds = some t) (hlen : t.length = s.cfg.open_files) (hfull : table_full t) :
    ∃ tr, open_p K s path flags mode (some f) true err =
        some (-1, { s with errno := K.ENFILE, trace := s.trace ++ tr }) ∧
      engine_calls tr = [] := by
  obtain ⟨tr, hget, htr⟩ :=
    get_free_fd_full (s.emit Event.lock_acquire) t (by simpa using ht) (by simpa using hlen) hfull
  refine ⟨Event.lock_acquire :: tr ++ [Event.lock_release], ?_, ?_⟩
  · unfold open_p
    simp only [Bool.not_true, Bool.false_eq_true, if_false, hget, if_true]
    simp [State.emit]
  · simp [engine_calls_append, htr]

/-- `open_p` with both allocations done, on a table with a free slot, when
the engine refuses: the translated error, the table as before. -/
theorem open_p_engine_failure (K : Consts) (s : State) (t : List vfs_fd_t) (j : Nat)
    (path : String) (flags : Nat) (mode : Int) (f : Ptr) (err : Int)
    (ht : s.fds = some t) (hlen : t.length = s.cfg.open_files)
    (hj : (∃ e, t[j]? = some e ∧ e.file = none) ∧
      ∀ j', j' < j → ∀ e, t[j']? = some e → e.file ≠ none)
    (herr : err < 0) :
    ∃ tr, open_p K s path flags mode (some f) true err =
        some (map_lfs_error K err { s with trace := s.trace ++ tr }) ∧
      engine_calls tr = [EngineCall.lfs_file_open f path (open_p_lfs_flags K flags)] := by
  obtain ⟨tr, hget, htr⟩ :=
    get_free_fd_found (s.emit Event.lock_acquire) t j (by simpa using ht) (by simpa using hlen) hj
  have hne : ((j : Int) = -1) = False := by
    apply eq_false; omega
  refine ⟨Event.lock_acquire :: tr ++
    [Event.engine (EngineCall.lfs_file_open f path (open_p_lfs_flags K flags)),
     Event.lock_release], ?_, ?_⟩
  · unfold open_p
    simp only [Bool.not_true, Bool.false_eq_true, if_false, hget, hne, herr, if_true]
    simp [State.emit]
  · simp [engine_calls_append, htr]

theorem fds_get_frame (s s1 : State) (fd : Int) (e : vfs_fd_t)
    (h : s.fds_get fd = some (e, s1)) : s1.fds = s.fds := by
  unfold State.fds_get at h
  split at h
  · cases h
  · split at h
    · cases h
    · split at h
      · cases h
      · cases h; rfl

/-- Whatever the table, the scan leaves it as it was, and returns `-1` or a
value that is not negative. -/
theorem get_free_fd_loop_frame :
    ∀ (k i : Nat) (s : State) (r : Int) (s' : State),
      get_free_fd_loop k i s = some (r, s') → s'.fds = s.fds ∧ (r = -1 ∨ 0 ≤ r) := by
  intro k
  induction k with
  | zero =>
    intro i s r s' h
    simp only [get_free_fd_loop, Option.some.injEq, Prod.mk.injEq] at h
    obtain ⟨h1, h2⟩ := h
    subst h1 h2
    exact ⟨rfl, Or.inl rfl⟩
  | succ k ih =>
    intro i s r s' h
    rw [get_free_fd_loop] at h
    split at h
    · cases h
    · rename_i e s1 hget
      have hs1 := fds_get_frame s s1 _ e hget
      split at h
      · simp only [Option.some.injEq, Prod.mk.injEq] at h
        obtain ⟨h1, h2⟩ := h
        subst h1 h2
        exact ⟨hs1, Or.inr (Int.natCast_nonneg i)⟩
      · obtain ⟨h1, h2⟩ := ih (i + 1) s1 r s' h
        exact ⟨h1.trans hs1, h2⟩

/-- A table that is not full has a lowest free slot. -/
theorem exists_lowest_free (t : List vfs_fd_t) (h : ¬ table_full t) :
    ∃ j : Nat, (∃ e : vfs_fd_t, t[j]? = some e ∧ e.file = none) ∧
      ∀ j' : Nat, j' < j → ∀ e : vfs_fd_t, t[j']? = some e → e.file ≠ none := by
  classical
  have hex : ∃ j : Nat, ∃ e : vfs_fd_t, t[j]? = some e ∧ e.file = none := by
    unfold table_full at h
    push_neg at h
    obtain ⟨e, hmem, hf⟩ := h
    obtain ⟨j, hj⟩ := List.mem_iff_getElem?.mp hmem
    exact ⟨j, e, hj, hf⟩
  refine ⟨Nat.find hex, Nat.find_spec hex, ?_⟩
  intro j' hlt e he hf
  exact Nat.find_min hex hlt ⟨e, he, hf⟩

theorem fds_get_int (s : State) (t : List vfs_fd_t) (fd : Int) (e : vfs_fd_t)
    (ht : s.fds = some t) (h0 : 0 ≤ fd) (he : t[fd.toNat]? = some e) :
    s.fds_get fd = some (e, s.emit (Event.fds_access fd.toNat)) := by
  obtain ⟨i, rfl⟩ := Int.eq_ofNat_of_zero_le h0
  simp only [Int.toNat_ofNat] at he ⊢
  exact fds_get_eq s t i e ht he

theorem fds_set_int (s : State) (t : List vfs_fd_t) (fd : Int) (e : vfs_fd_t)
    (ht : s.fds = some t) (h0 : 0 ≤ fd) (hi : fd.toNat < t.length) :
    s.fds_set fd e =
      some { s with fds := some (t.set fd.toNat e),
                    trace := s.trace ++ [Event.fds_access fd.toNat] } := by
  obtain ⟨i, rfl⟩ := Int.eq_ofNat_of_zero_le h0
  simp only [Int.toNat_ofNat] at hi ⊢
  exact fds_set_eq s t i e ht hi

/-- `close_p` on a bound slot: the engine close is called, the slot is reset,
and the engine's result is translated. -/
theorem close_p_bound (K : Consts) (s : State) (t : List vfs_fd_t) (fd : Int)
    (e : vfs_fd_t) (f : Ptr) (r : Int)
    (ht : s.fds = some t) (h0 : 0 ≤ fd) (he : t[fd.toNat]? = some e) (hf : e.file = some f) :
    close_p K s fd r = some (map_lfs_error K r
      { s with fds := some (t.set fd.toNat vfs_fd_t.empty),
               trace := s.trace ++ [Event.lock_acquire, Event.fds_access fd.toNat,
                 Event.engine (EngineCall.lfs_file_close f), Event.fds_access fd.toNat,
                 Event.lock_release] }) := by
  have hlt : fd.toNat < t.length := by
    by_contra hge
    rw [List.getElem?_eq_none (by omega)] at he
    cases he
  unfold close_p
  rw [fds_get_int _ t fd e (by simpa using ht) h0 he]
  simp only [hf]
  rw [fds_set_int _ t fd _ (by simpa using ht) h0 hlt]
  simp [State.emit]

/-- The loop of `init` leaves every slot it visits empty. -/
theorem init_slots_loop_spec :
    ∀ (k i : Nat) (t : List vfs_fd_t), i + k = t.length →
      (∀ j e, j < i → t[j]? = some e → e = vfs_fd_t.empty) →
      init_slots_loop k i t = List.replicate t.length vfs_fd_t.empty := by
  intro k
  induction k with
  | zero =>
    intro i t hlen hbelow
    simp only [init_slots_loop]
    apply List.ext_getElem?
    intro j
    by_cases hj : j < t.length
    · rw [List.getElem?_replicate_of_lt hj]
      obtain ⟨e, he⟩ : ∃ e, t[j]? = some e := ⟨t[j], by simp [hj]⟩
      rw [he, hbelow j e (by omega) he]
    · rw [List.getElem?_eq_none (by omega), List.getElem?_eq_none (by simp; omega)]
  | succ k ih =>
    intro i t hlen hbelow
    rw [init_slots_loop, ih (i + 1) _ (by simp; omega)]
    · simp
    · intro j e hj he
      by_cases hji : j = i
      · subst hji
        have hlt : j < t.length := by omega
        simp [hlt] at he
        rw [← he]
        rfl
      · rw [List.getElem?_set_ne (Ne.symm hji)] at he
        exact hbelow j e (by omega) he

/-- The table `init` builds: `open_files` empty slots, whatever the fresh
array held. -/
theorem init_slots_empty (n : Nat) (mem : Nat → vfs_fd_t) :
    init_slots_loop n 0 ((List.range n).map mem) = List.replicate n vfs_fd_t.empty := by
  have h := init_slots_loop_spec n 0 ((List.range n).map mem) (by simp)
    (fun j e hj _ => absurd hj (Nat.not_lt_zero j))
  simpa using h

/-- Up to the first `lfs_mount`, `init` stores the configuration and the
geometry and touches nothing else. -/
theorem init_reaches_mount (K : Consts) (s : State) (config : little_flash_config_t)
    (env : InitEnv) (h : reaches_mount K config env) :
    ∃ sz cnt, init K s config env = some (init_mount K
      { s with cfg := config, sector_sz := sz, block_cnt := cnt,
               trace := s.trace ++ [Event.lock_init] } env) := by
  unfold reaches_mount at h
  unfold init
  cases hfl : config.flash with
  | some fl =>
    rw [hfl] at h
    simp only at h
    exact ⟨fl.sector_size, fl.chip_size / fl.sector_size, by simp [hfl, h, State.emit]⟩
  | none =>
    rw [hfl] at h
    simp only at h
    obtain ⟨hp, hsec⟩ := h
    obtain ⟨sz, hsz⟩ := Option.isSome_iff_exists.mp hp
    exact ⟨K.SPI_FLASH_SEC_SIZE, sz / K.SPI_FLASH_SEC_SIZE, by simp [hfl, hsz, hsec, State.emit]⟩

/-- One `readdir_p` on a cursor whose engine handle stands before an entry
with a name that fits: the engine handle advances by one and so does `off`. -/
theorem readdir_p_entry (K : Consts) (s : State) (d : vfs_lfs_dir_t) (info : lfs_info)
    (hstep : d.lfs_dir.steps[d.lfs_dir.pos]? = some (DirStep.entry info))
    (hfit : info.name.length < K.d_name_size) :
    ∃ d' : vfs_lfs_dir_t, (readdir_p K s (some d)).1 = some d' ∧
      d'.lfs_dir = { d.lfs_dir with pos := d.lfs_dir.pos + 1 } ∧ d'.off = d.off + 1 ∧
      (readdir_p K s (some d)).2.1 =
        some { d_ino := 0,
               d_type := if info.type = K.LFS_TYPE_REG then K.DT_REG
                 else if info.type = K.LFS_TYPE_DIR then K.DT_DIR else K.DT_UNKNOWN,
               d_name := info.name } := by
  have hlen : info.name.data.length < K.d_name_size := hfit
  have hge : ¬ (info.name.data.length ≥ K.d_name_size) := by omega
  have hsz : K.d_name_size ≠ 0 := by omega
  have hname : String.mk (info.name.data.take (K.d_name_size - 1)) = info.name := by
    rw [List.take_of_length_le (by omega)]
  simp only [readdir_p, readdir_r_p, lfs_dir_read, hstep, strlcpy, hsz, if_false, hname]
  simp only [one_ne_zero, if_false, show ¬ ((1 : Int) < 0) by decide, hge]
  exact ⟨_, rfl, rfl, rfl, trivial⟩

/-- After `k` calls of `readdir_p` on a cursor whose engine handle has at
least `k` entries ahead, all with names that fit, `off` has grown by `k`. -/
theorem readdir_n_entries (K : Consts) (es : List lfs_info)
    (hfit : ∀ e ∈ es, e.name.length < K.d_name_size) :
    ∀ (k : Nat) (s : State) (d : vfs_lfs_dir_t),
      d.lfs_dir.steps = es.map DirStep.entry → d.lfs_dir.pos + k ≤ es.length →
      ∃ d' : vfs_lfs_dir_t, (readdir_n K k s (some d)).1 = some d' ∧
        d'.lfs_dir = { d.lfs_dir with pos := d.lfs_dir.pos + k } ∧ d'.off = d.off + (k : Int) := by
  intro k
  induction k with
  | zero =>
    intro s d _ _
    exact ⟨d, rfl, rfl, by simp⟩
  | succ k ih =>
    intro s d hsteps hpos
    have hlt : d.lfs_dir.pos < es.length := by omega
    have hstep : d.lfs_dir.steps[d.lfs_dir.pos]? = some (DirStep.entry es[d.lfs_dir.pos]) := by
      rw [hsteps]
      simp [hlt]
    obtain ⟨d1, h1, hdir1, hoff1, _⟩ := readdir_p_entry K s d es[d.lfs_dir.pos] hstep
      (hfit _ (List.getElem_mem _))
    obtain ⟨d', h', hdir', hoff'⟩ := ih (readdir_p K s (some d)).2.2 d1
      (by rw [hdir1]; exact hsteps) (by rw [hdir1]; simp only; omega)
    refine ⟨d', ?_, ?_, ?_⟩
    · simp only [readdir_n]
      rw [h1]
      exact h'
    · rw [hdir', hdir1]
      simp only [lfs_dir_t.mk.injEq, true_and]
      omega
    · rw [hoff', hoff1]
      push_cast
      omega

/-! ## The operations on any state -/

theorem fds_get_some (s s1 : State) (fd : Int) (e : vfs_fd_t)
    (h : s.fds_get fd = some (e, s1)) :
    s1 = s.emit (Event.fds_access fd.toNat) ∧ 0 ≤ fd ∧
      ∃ t, s.fds = some t ∧ t[fd.toNat]? = some e := by
  unfold State.fds_get at h
  split at h
  · cases h
  · rename_i t ht
    split at h
    · cases h
    · rename_i hfd
      split at h
      · cases h
      · rename_i e' he'
        simp only [Option.some.injEq, Prod.mk.injEq] at h
        obtain ⟨h1, h2⟩ := h
        subst h1
        exact ⟨h2.symm, by omega, t, ht, he'⟩

theorem fds_set_some (s s1 : State) (fd : Int) (e : vfs_fd_t)
    (h : s.fds_set fd e = some s1) :
    0 ≤ fd ∧ ∃ t, s.fds = some t ∧ fd.toNat < t.length ∧
      s1 = { s with fds := some (t.set fd.toNat e),
                    trace := s.trace ++ [Event.fds_access fd.toNat] } := by
  unfold State.fds_set at h
  split at h
  · cases h
  · rename_i t ht
    split at h
    · cases h
    · split at h
      · rename_i hfd hlt
        simp only [Option.some.injEq] at h
        exact ⟨by omega, t, ht, hlt, h.symm⟩
      · cases h

/-- Whatever the table, the scan only appends table accesses to the trace, and
what it returns is `-1` or the index of a slot whose handle is `NULL`. -/
theorem get_free_fd_loop_shape :
    ∀ (k i : Nat) (s : State) (r : Int) (s' : State),
      get_free_fd_loop k i s = some (r, s') →
      ∃ tr, s' = { s with trace := s.trace ++ tr } ∧ only_fds_access tr ∧
        (r = -1 ∨ ∃ (j : Nat) (t : List vfs_fd_t) (e : vfs_fd_t),
          r = (j : Int) ∧ s.fds = some t ∧ t[j]? = some e ∧ e.file = none) := by
  intro k
  induction k with
  | zero =>
    intro i s r s' h
    simp only [get_free_fd_loop, Option.some.injEq, Prod.mk.injEq] at h
    obtain ⟨h1, h2⟩ := h
    subst h1 h2
    exact ⟨[], by simp, (fun e he => by cases he), Or.inl rfl⟩
  | succ k ih =>
    intro i s r s' h
    rw [get_free_fd_loop] at h
    split at h
    · cases h
    · rename_i e s1 hget
      obtain ⟨hs1, _, t, ht, he⟩ := fds_get_some s s1 _ e hget
      simp only [Int.toNat_ofNat] at hs1 he
      split at h
      · rename_i hfile
        simp only [Option.some.injEq, Prod.mk.injEq] at h
        obtain ⟨h1, h2⟩ := h
        subst h1 h2
        refine ⟨[Event.fds_access i], by rw [hs1]; rfl, ?_, Or.inr ⟨i, t, e, rfl, ht, he, hfile⟩⟩
        intro e' he'
        simp only [List.mem_singleton] at he'
        exact ⟨i, he'⟩
      · obtain ⟨tr, h1, h2, h3⟩ := ih (i + 1) s1 r s' h
        refine ⟨Event.fds_access i :: tr, ?_, ?_, ?_⟩
        · rw [h1, hs1]
          simp [State.emit]
        · intro e' he'
          simp only [List.mem_cons] at he'
          rcases he' with h' | h'
          · exact ⟨i, h'⟩
          · exact h2 e' h'
        · rcases h3 with h3 | ⟨j, t', e', hj, ht', he', hf'⟩
          · exact Or.inl h3
          · refine Or.inr ⟨j, t', e', hj, ?_, he', hf'⟩
            rw [hs1] at ht'
            exact ht'

theorem only_fds_access_engine (tr : List Event) (h : only_fds_access tr) :
    engine_calls tr = [] := by
  induction tr with
  | nil => rfl
  | cons e tr ih =>
    obtain ⟨j, hj⟩ := h e (List.mem_cons_self _ _)
    subst hj
    simp only [engine_calls_cons_fds]
    exact ih (fun e' he' => h e' (List.mem_cons_of_mem _ he'))

/-- The four ways `open_p` can end, on any state: an allocation failed; the
table is full; the engine refused; or slot `j`, which was free, is bound. -/
theorem open_p_cases (K : Consts) (s : State) (path : String) (flags : Nat) (mode : Int)
    (file : Option Ptr) (name_ok : Bool) (err : Int) (ret : Int) (s' : State)
    (h : open_p K s path flags mode file name_ok err = some (ret, s')) :
    (ret = -1 ∧ s' = { s with errno := K.ENOMEM }) ∨
    (∃ tr, only_fds_access tr ∧ ret = -1 ∧
      s' = { s with errno := K.ENFILE,
                    trace := s.trace ++ (Event.lock_acquire :: tr ++ [Event.lock_release]) }) ∨
    (∃ tr f, only_fds_access tr ∧ file = some f ∧ err < 0 ∧
      (ret, s') = map_lfs_error K err
        { s with trace := s.trace ++ (Event.lock_acquire :: tr ++
          [Event.engine (EngineCall.lfs_file_open f path (open_p_lfs_flags K flags)),
           Event.lock_release]) }) ∨
    (∃ (tr : List Event) (f : Ptr) (j : Nat) (t : List vfs_fd_t) (e : vfs_fd_t),
      only_fds_access tr ∧ file = some f ∧
      0 ≤ err ∧ ret = (j : Int) ∧ s.fds = some t ∧ t[j]? = some e ∧ e.file = none ∧
      s' = { s with fds := some (t.set j { file := some f, name := some path }),
                    trace := s.trace ++ (Event.lock_acquire :: tr ++
          [Event.engine (EngineCall.lfs_file_open f path (open_p_lfs_flags K flags)),
           Event.fds_access j, Event.lock_release]) }) := by
  unfold open_p at h
  simp only at h
  split at h
  · simp only [Option.some.injEq, Prod.mk.injEq] at h
    exact Or.inl ⟨h.1.symm, h.2.symm⟩
  · rename_i f
    split at h
    · simp only [Option.some.injEq, Prod.mk.injEq] at h
      exact Or.inl ⟨h.1.symm, h.2.symm⟩
    · split at h
      · cases h
      · rename_i fd s1 hget
        obtain ⟨tr, hs1, htr, hr⟩ := get_free_fd_loop_shape _ _ _ _ _ hget
        split at h
        · simp only [Option.some.injEq, Prod.mk.injEq] at h
          refine Or.inr (Or.inl ⟨tr, htr, h.1.symm, ?_⟩)
          rw [← h.2, hs1]
          simp [State.emit]
        · rename_i hfd
          split at h
          · rename_i herr
            simp only [Option.some.injEq] at h
            refine Or.inr (Or.inr (Or.inl ⟨tr, f, htr, rfl, herr, ?_⟩))
            rw [← h, hs1]
            simp [State.emit]
          · rename_i herr
            split at h
            · cases h
            · rename_i s3 hset
              simp only [Option.some.injEq, Prod.mk.injEq] at h
              obtain ⟨h1, h2⟩ := h
              rcases hr with hr | ⟨j, t, e, hj, ht, he, hf⟩
              · exact absurd hr hfd
              · subst hj
                obtain ⟨_, t', ht', _, hs3⟩ := fds_set_some _ _ _ _ hset
                simp only [Int.toNat_ofNat] at hs3
                have ht0 : s.fds = some t := ht
                have htt : t' = t := by
                  rw [hs1] at ht'
                  simp only [emit_fds] at ht'
                  rw [ht0] at ht'
                  exact (Option.some.inj ht').symm
                subst htt
                refine Or.inr (Or.inr (Or.inr ⟨tr, f, j, t', e, htr, rfl, not_lt.mp herr,
                  h1.symm, ht0, he, hf, ?_⟩))
                rw [← h2, hs3, hs1]
                simp [State.emit]

/-! ## Facts about directory cursors -/

/-- Whatever the cursor holds, `readdir_p` reads the engine handle once. -/
theorem readdir_p_handle (K : Consts) (s : State) (d : vfs_lfs_dir_t) :
    ∃ d' : vfs_lfs_dir_t, (readdir_p K s (some d)).1 = some d' ∧
      d'.lfs_dir = (lfs_dir_read d.lfs_dir).2.2 := by
  simp only [readdir_p, readdir_r_p]
  split_ifs <;> exact ⟨_, rfl, rfl⟩

/-- The entry `readdir_p` returns depends on the engine handle alone. -/
theorem readdir_p_out_congr (K : Consts) (s1 s2 : State) (d1 d2 : vfs_lfs_dir_t)
    (h : d1.lfs_dir = d2.lfs_dir) :
    (readdir_p K s1 (some d1)).2.1 = (readdir_p K s2 (some d2)).2.1 := by
  simp only [readdir_p, readdir_r_p, h, strlcpy]
  by_cases hz : K.d_name_size = 0
  · simp only [hz, ge_iff_le, Nat.zero_le, if_true]
    split_ifs <;> rfl
  · simp only [hz, if_false]
    split_ifs <;> rfl

/-- The entries a run of `readdir_p` calls returns depend on the engine
handle alone. -/
theorem readdir_outs_congr (K : Consts) :
    ∀ (n : Nat) (s1 s2 : State) (d1 d2 : vfs_lfs_dir_t), d1.lfs_dir = d2.lfs_dir →
      readdir_outs K n s1 (some d1) = readdir_outs K n s2 (some d2) := by
  intro n
  induction n with
  | zero => intro _ _ _ _ _; rfl
  | succ n ih =>
    intro s1 s2 d1 d2 h
    obtain ⟨d1', h1, hd1⟩ := readdir_p_handle K s1 d1
    obtain ⟨d2', h2, hd2⟩ := readdir_p_handle K s2 d2
    simp only [readdir_outs]
    rw [h1, h2, readdir_p_out_congr K s1 s2 d1 d2 h]
    rw [ih _ _ d1' d2' (by rw [hd1, hd2, h])]

theorem readdir_outs_length (K : Consts) :
    ∀ (n : Nat) (s : State) (p : Option vfs_lfs_dir_t), (readdir_outs K n s p).length = n := by
  intro n
  induction n with
  | zero => intro _ _; rfl
  | succ n ih => intro s p; simp [readdir_outs, ih]

/-- A run of `k + n` calls is a run of `k` calls followed by a run of `n`
calls on the cursor the first run leaves. -/
theorem readdir_outs_add (K : Consts) :
    ∀ (k n : Nat) (s : State) (p : Option vfs_lfs_dir_t),
      readdir_outs K (k + n) s p =
        readdir_outs K k s p ++ readdir_outs K n (readdir_n K k s p).2 (readdir_n K k s p).1 := by
  intro k
  induction k with
  | zero => intro n s p; simp [readdir_outs, readdir_n]
  | succ k ih =>
    intro n s p
    rw [show k + 1 + n = (k + n) + 1 by omega]
    simp only [readdir_outs, readdir_n, List.cons_append]
    rw [ih]

/-- On a directory whose reads all succeed, `k` calls of `readdir_p` move the
engine handle forward by `k`, whatever the names are. -/
theorem readdir_n_handle (K : Consts) (es : List lfs_info) :
    ∀ (k : Nat) (s : State) (d : vfs_lfs_dir_t),
      d.lfs_dir.steps = es.map DirStep.entry → d.lfs_dir.pos + k ≤ es.length →
      ∃ d' : vfs_lfs_dir_t, (readdir_n K k s (some d)).1 = some d' ∧
        d'.lfs_dir = { d.lfs_dir with pos := d.lfs_dir.pos + k } := by
  intro k
  induction k with
  | zero => intro s d _ _; exact ⟨d, rfl, rfl⟩
  | succ k ih =>
    intro s d hsteps hpos
    obtain ⟨d1, h1, hd1⟩ := readdir_p_handle K s d
    have hlt : d.lfs_dir.pos < es.length := by omega
    have hread : (lfs_dir_read d.lfs_dir).2.2 = { d.lfs_dir with pos := d.lfs_dir.pos + 1 } := by
      simp [lfs_dir_read, hsteps, hlt]
    rw [hread] at hd1
    obtain ⟨d', h', hd'⟩ := ih (readdir_p K s (some d)).2.2 d1
      (by rw [hd1]; exact hsteps) (by rw [hd1]; simp only; omega)
    refine ⟨d', ?_, ?_⟩
    · simp only [readdir_n]
      rw [h1]
      exact h'
    · rw [hd', hd1]
      simp only [lfs_dir_t.mk.injEq, true_and]
      omega

/-- On a directory whose reads all succeed and whose names all fit, the
remaining entries come out in order. -/
theorem readdir_outs_entries (K : Consts) (es : List lfs_info)
    (hfit : ∀ e ∈ es, e.name.length < K.d_name_size) :
    ∀ (n : Nat) (s : State) (d : vfs_lfs_dir_t),
      d.lfs_dir.steps = es.map DirStep.entry → d.lfs_dir.pos + n = es.length →
      readdir_outs K n s (some d) =
        (es.drop d.lfs_dir.pos).map (fun e => some (to_dirent K e)) := by
  intro n
  induction n with
  | zero =>
    intro s d _ hpos
    rw [List.drop_of_length_le (by omega)]
    rfl
  | succ n ih =>
    intro s d hsteps hpos
    have hlt : d.lfs_dir.pos < es.length := by omega
    have hstep : d.lfs_dir.steps[d.lfs_dir.pos]? = some (DirStep.entry es[d.lfs_dir.pos]) := by
      rw [hsteps]
      simp [hlt]
    obtain ⟨d1, h1, hdir1, _, hout⟩ := readdir_p_entry K s d es[d.lfs_dir.pos] hstep
      (hfit _ (List.getElem_mem _))
    simp only [readdir_outs]
    rw [h1, hout, ih _ d1 (by rw [hdir1]; exact hsteps) (by rw [hdir1]; simp only; omega),
      hdir1, List.drop_eq_getElem_cons hlt]
    rfl

/-- The replay loop of `seekdir_p` on a directory whose reads all succeed:
`k` iterations move the engine handle and `off` forward by `k`. -/
theorem seekdir_loop_entries (es : List lfs_info) :
    ∀ (k : Nat) (d : vfs_lfs_dir_t) (s : State) (err : Int),
      d.lfs_dir.steps = es.map DirStep.entry → d.lfs_dir.pos + k ≤ es.length → 0 ≤ err →
      (seekdir_loop k d s err).1.lfs_dir = { d.lfs_dir with pos := d.lfs_dir.pos + k } ∧
      (seekdir_loop k d s err).1.off = d.off + (k : Int) ∧
      0 ≤ (seekdir_loop k d s err).2.2 ∧
      (seekdir_loop k d s err).2.1.errno = s.errno := by
  intro k
  induction k with
  | zero =>
    intro d s err _ _ herr
    exact ⟨rfl, by simp [seekdir_loop], herr, rfl⟩
  | succ k ih =>
    intro d s err hsteps hpos _
    have hlt : d.lfs_dir.pos < es.length := by omega
    have hread : lfs_dir_read d.lfs_dir =
        (1, es[d.lfs_dir.pos], { d.lfs_dir with pos := d.lfs_dir.pos + 1 }) := by
      simp [lfs_dir_read, hsteps, hlt]
    simp only [seekdir_loop, hread, show ¬ ((1 : Int) < 0) by decide, if_false]
    obtain ⟨h1, h2, h3, h4⟩ := ih
      { dirent := d.dirent, lfs_dir := { d.lfs_dir with pos := d.lfs_dir.pos + 1 },
        off := d.off + 1 }
      (((s.emit Event.off_access).emit (Event.engine EngineCall.lfs_dir_read)).emit
        Event.off_access) 1 hsteps (by simp only; omega) (by decide)
    refine ⟨?_, ?_, h3, ?_⟩
    · rw [h1]
      simp only [lfs_dir_t.mk.injEq, true_and]
      omega
    · rw [h2]
      push_cast
      omega
    · rw [h4]
      rfl

/-- `seekdir_p` to `k` on a directory whose reads all succeed, with `k` not
past the end and the rewind succeeding: the engine handle and `off` both
stand at `k` and `errno` is untouched. -/
theorem seekdir_p_entries (K : Consts) (s : State) (es : List lfs_info) (d : vfs_lfs_dir_t)
    (k : Nat) (rewind_res : Int) (hd : d.lfs_dir.steps = es.map DirStep.entry)
    (hk : k ≤ es.length) (hrw : 0 ≤ rewind_res) :
    ∃ (d' : vfs_lfs_dir_t) (s' : State),
      seekdir_p K s (some d) (k : Int) rewind_res = (some d', s') ∧
      d'.lfs_dir = { steps := es.map DirStep.entry, pos := k } ∧ d'.off = (k : Int) ∧
      s'.errno = s.errno := by
  obtain ⟨h1, h2, h3, h4⟩ := seekdir_loop_entries es k
    { dirent := d.dirent, lfs_dir := { d.lfs_dir with pos := 0 }, off := 0 }
    (((s.emit Event.lock_acquire).emit (Event.engine EngineCall.lfs_dir_rewind)).emit
      Event.off_access) rewind_res hd (by simpa using hk) hrw
  simp only [seekdir_p, lfs_dir_rewind, not_lt.mpr hrw, if_false, ge_iff_le, hrw, if_true,
    Int.toNat_ofNat, not_lt.mpr h3]
  simp only [Nat.zero_add, Int.zero_add] at h1 h2
  refine ⟨_, _, rfl, ?_, ?_, ?_⟩
  · rw [h1]
    simp only [lfs_dir_t.mk.injEq, and_true]
    exact hd
  · rw [h2]
  · simp only [emit_errno]
    rw [h4]
    rfl

theorem yielded_zero (steps : List DirStep) : yielded { steps := steps, pos := 0 } = 0 := by
  simp [yielded]

theorem yielded_succ_entry (steps : List DirStep) (pos : Nat) (info : lfs_info)
    (h : steps[pos]? = some (DirStep.entry info)) :
    yielded { steps := steps, pos := pos + 1 } = yielded { steps := steps, pos := pos } + 1 := by
  simp [yielded, List.take_succ, h]

theorem yielded_succ_fail (steps : List DirStep) (pos : Nat) (n : Nat)
    (h : steps[pos]? = some (DirStep.fail n)) :
    yielded { steps := steps, pos := pos + 1 } = yielded { steps := steps, pos := pos } := by
  simp [yielded, List.take_succ, h]

/-- `readdir_r_p` at the end of the directory: no entry, no error, the cursor
as it was. -/
theorem readdir_r_p_end (K : Consts) (s : State) (d : vfs_lfs_dir_t) (entry : dirent)
    (h : d.lfs_dir.steps[d.lfs_dir.pos]? = none) :
    readdir_r_p K s (some d) entry =
      { ret := 0, dir := some d, entry := entry, out_dirent := OutDirent.null,
        state := ((s.emit Event.lock_acquire).emit (Event.engine EngineCall.lfs_dir_read)).emit
          Event.lock_release } := by
  simp [readdir_r_p, lfs_dir_read, h]

/-- `readdir_r_p` when the engine read fails: the cursor's `off` is as it was. -/
theorem readdir_r_p_fail (K : Consts) (s : State) (d : vfs_lfs_dir_t) (entry : dirent) (n : Nat)
    (h : d.lfs_dir.steps[d.lfs_dir.pos]? = some (DirStep.fail n)) :
    (readdir_r_p K s (some d) entry).dir =
      some { d with lfs_dir := { d.lfs_dir with pos := d.lfs_dir.pos + 1 } } := by
  simp [readdir_r_p, lfs_dir_read, h, Int.negSucc_lt_zero, Int.negSucc_ne_zero]

/-- `readdir_r_p` on an entry whose name fits. -/
theorem readdir_r_p_fit (K : Consts) (s : State) (d : vfs_lfs_dir_t) (entry : dirent)
    (info : lfs_info) (h : d.lfs_dir.steps[d.lfs_dir.pos]? = some (DirStep.entry info))
    (hfit : info.name.length < K.d_name_size) :
    readdir_r_p K s (some d) entry =
      { ret := 0,
        dir := some { d with lfs_dir := { d.lfs_dir with pos := d.lfs_dir.pos + 1 },
                             off := d.off + 1 },
        entry := to_dirent K info, out_dirent := OutDirent.entry,
        state := (((s.emit Event.lock_acquire).emit (Event.engine EngineCall.lfs_dir_read)).emit
          Event.lock_release).emit Event.off_access } := by
  have hlen : info.name.data.length < K.d_name_size := hfit
  have hge : ¬ (info.name.data.length ≥ K.d_name_size) := by omega
  have hsz : K.d_name_size ≠ 0 := by omega
  have hname : String.mk (info.name.data.take (K.d_name_size - 1)) = info.name := by
    rw [List.take_of_length_le (by omega)]
  simp only [readdir_r_p, lfs_dir_read, h, strlcpy, hsz, if_false, hname, to_dirent]
  simp only [one_ne_zero, if_false, show ¬ ((1 : Int) < 0) by decide, hge]

/-- `readdir_r_p` on an entry whose name does not fit. -/
theorem readdir_r_p_toolong (K : Consts) (s : State) (d : vfs_lfs_dir_t) (entry : dirent)
    (info : lfs_info) (h : d.lfs_dir.steps[d.lfs_dir.pos]? = some (DirStep.entry info))
    (hlong : K.d_name_size ≤ info.name.length) :
    readdir_r_p K s (some d) entry =
      { ret := K.ENAMETOOLONG,
        dir := some { d with lfs_dir := { d.lfs_dir with pos := d.lfs_dir.pos + 1 } },
        entry := { d_ino := 0, d_type := (to_dirent K info).d_type,
                   d_name := (strlcpy entry.d_name info.name K.d_name_size).1 },
        out_dirent := OutDirent.untouched,
        state := { (((s.emit Event.lock_acquire).emit
          (Event.engine EngineCall.lfs_dir_read)).emit Event.lock_release) with
            errno := K.ENAMETOOLONG } } := by
  have hlen : K.d_name_size ≤ info.name.data.length := hlong
  have hge : info.name.data.length ≥ K.d_name_size := hlen
  simp only [readdir_r_p, lfs_dir_read, h, to_dirent]
  simp only [one_ne_zero, if_false, show ¬ ((1 : Int) < 0) by decide]
  rw [if_pos (by simpa [strlcpy] using hge)]

/-- The replay loop of `seekdir_p` keeps `off` equal to the number of entries
the engine has yielded, as long as it does not run past the end of the
enumeration. -/
theorem seekdir_loop_yielded (steps : List DirStep) :
    ∀ (k : Nat) (d : vfs_lfs_dir_t) (s : State) (err : Int),
      d.lfs_dir.steps = steps → d.lfs_dir.pos + k ≤ steps.length →
      d.off = (yielded d.lfs_dir : Int) →
      (seekdir_loop k d s err).1.lfs_dir.steps = steps ∧
      (seekdir_loop k d s err).1.off = (yielded (seekdir_loop k d s err).1.lfs_dir : Int) := by
  intro k
  induction k with
  | zero =>
    intro d s err hsteps _ hoff
    exact ⟨hsteps, hoff⟩
  | succ k ih =>
    intro d s err hsteps hpos hoff
    have hlt : d.lfs_dir.pos < steps.length := by omega
    obtain ⟨st, hst⟩ : ∃ st, d.lfs_dir.steps[d.lfs_dir.pos]? = some st :=
      ⟨steps[d.lfs_dir.pos], by rw [hsteps]; simp [hlt]⟩
    cases st with
    | entry info =>
      simp only [seekdir_loop, lfs_dir_read, hst, show ¬ ((1 : Int) < 0) by decide, if_false]
      apply ih
      · exact hsteps
      · simp only; omega
      · simp only
        rw [hoff]
        have h := yielded_succ_entry d.lfs_dir.steps d.lfs_dir.pos info hst
        rw [h]
        push_cast
        rfl
    | fail n =>
      simp only [seekdir_loop, lfs_dir_read, hst, Int.negSucc_lt_zero, if_true]
      refine ⟨hsteps, ?_⟩
      rw [hoff]
      have h := yielded_succ_fail d.lfs_dir.steps d.lfs_dir.pos n hst
      rw [h]

/-- The facts about a cursor that every call keeps: it enumerates `steps`, and
`off` equals the number of entries the engine has yielded since the last
rewind. -/
theorem dir_op_keeps_count (K : Consts) (steps : List DirStep)
    (hfit : ∀ info, DirStep.entry info ∈ steps → info.name.length < K.d_name_size)
    (op : DirOp) (hop : op.within steps.length) (s : State) (d : vfs_lfs_dir_t)
    (hsteps : d.lfs_dir.steps = steps) (hoff : d.off = (yielded d.lfs_dir : Int)) :
    (op.run K (s, d)).2.lfs_dir.steps = steps ∧
    (op.run K (s, d)).2.off = (yielded (op.run K (s, d)).2.lfs_dir : Int) := by
  have hread : ∀ entry : dirent,
      ∃ d', (readdir_r_p K s (some d) entry).dir = some d' ∧ d'.lfs_dir.steps = steps ∧
        d'.off = (yielded d'.lfs_dir : Int) := by
    intro entry
    cases hst : d.lfs_dir.steps[d.lfs_dir.pos]? with
    | none =>
      rw [readdir_r_p_end K s d entry hst]
      exact ⟨d, rfl, hsteps, hoff⟩
    | some st =>
      cases st with
      | entry info =>
        have hmem : DirStep.entry info ∈ steps := by
          rw [← hsteps]
          exact List.getElem?_mem hst
        rw [readdir_r_p_fit K s d entry info hst (hfit info hmem)]
        refine ⟨_, rfl, hsteps, ?_⟩
        simp only
        rw [hoff]
        have h := yielded_succ_entry d.lfs_dir.steps d.lfs_dir.pos info hst
        rw [h]
        push_cast
        rfl
      | fail n =>
        rw [readdir_r_p_fail K s d entry n hst]
        refine ⟨_, rfl, hsteps, ?_⟩
        simp only
        rw [hoff]
        have h := yielded_succ_fail d.lfs_dir.steps d.lfs_dir.pos n hst
        rw [h]
  cases op with
  | readdir =>
    obtain ⟨d', h1, h2, h3⟩ := hread d.dirent
    simp only [DirOp.run, readdir_p, h1, Option.map_some', Option.getD_some]
    exact ⟨h2, h3⟩
  | readdir_r entry =>
    obtain ⟨d', h1, h2, h3⟩ := hread entry
    simp only [DirOp.run, h1, Option.getD_some]
    exact ⟨h2, h3⟩
  | telldir => exact ⟨hsteps, hoff⟩
  | seekdir offset rewind_res =>
    simp only [DirOp.within] at hop
    by_cases hrw : rewind_res < 0
    · simp only [DirOp.run, seekdir_p, lfs_dir_rewind, hrw, if_true, ge_iff_le,
        not_le.mpr hrw, if_false]
      exact ⟨hsteps, hoff⟩
    · have hloop := seekdir_loop_yielded steps offset.toNat
        { dirent := d.dirent, lfs_dir := { d.lfs_dir with pos := 0 }, off := 0 }
        (((s.emit Event.lock_acquire).emit (Event.engine EngineCall.lfs_dir_rewind)).emit
          Event.off_access) rewind_res hsteps (by simp only; omega)
        (by simp only; rw [yielded_zero]; rfl)
      simp only [DirOp.run, seekdir_p, lfs_dir_rewind, hrw, if_false, ge_iff_le,
        not_lt.mp hrw, if_true]
      first
        | exact hloop
        | (split <;> exact hloop)

/-- Every sequence of calls that never seeks past the end keeps the count. -/
theorem dir_run_keeps_count (K : Consts) (steps : List DirStep)
    (hfit : ∀ info, DirStep.entry info ∈ steps → info.name.length < K.d_name_size) :
    ∀ (ops : List DirOp) (s : State) (d : vfs_lfs_dir_t),
      (∀ op ∈ ops, op.within steps.length) →
      d.lfs_dir.steps = steps → d.off = (yielded d.lfs_dir : Int) →
      (dir_run K ops (s, d)).2.lfs_dir.steps = steps ∧
      (dir_run K ops (s, d)).2.off = (yielded (dir_run K ops (s, d)).2.lfs_dir : Int) := by
  intro ops
  induction ops with
  | nil => intro s d _ h1 h2; exact ⟨h1, h2⟩
  | cons op ops ih =>
    intro s d hops h1 h2
    obtain ⟨h3, h4⟩ := dir_op_keeps_count K steps hfit op (hops op (List.mem_cons_self _ _))
      s d h1 h2
    exact ih (op.run K (s, d)).1 (op.run K (s, d)).2
      (fun o ho => hops o (List.mem_cons_of_mem _ ho)) h3 h4

/-! ## Facts about bit masks -/

theorem lor_land_right (a b c : Nat) : (a ||| b) &&& c = (a &&& c) ||| (b &&& c) := by
  rw [Nat.and_comm, Nat.and_or_distrib_left, Nat.and_comm c a, Nat.and_comm c b]

/-- A mask that is inside `m` is inside `m ||| n`. -/
theorem land_lor_of_land (a m n : Nat) (h : a &&& m = a) : a &&& (m ||| n) = a := by
  apply Nat.eq_of_testBit_eq
  intro i
  have hi := congrArg (fun x => x.testBit i) h
  simp only [Nat.testBit_and] at hi
  simp only [Nat.testBit_and, Nat.testBit_or]
  cases ha : a.testBit i <;> cases hm : m.testBit i <;> simp_all

theorem land_lor_self (a m : Nat) : a &&& (m ||| a) = a := by
  apply Nat.eq_of_testBit_eq
  intro i
  simp only [Nat.testBit_and, Nat.testBit_or]
  cases a.testBit i <;> simp

theorem land_lor_zero (a m n : Nat) (h1 : a &&& m = 0) (h2 : a &&& n = 0) :
    a &&& (m ||| n) = 0 := by
  rw [Nat.and_or_distrib_left, h1, h2]
  rfl

theorem land_self_lor (a n : Nat) : a &&& (a ||| n) = a := by
  apply Nat.eq_of_testBit_eq
  intro i
  simp only [Nat.testBit_and, Nat.testBit_or]
  cases a.testBit i <;> simp

theorem lor5_land (a c e t p m : Nat) :
    (a ||| c ||| e ||| t ||| p) &&& m =
      a &&& m ||| c &&& m ||| e &&& m ||| t &&& m ||| p &&& m := by
  simp only [lor_land_right]

/-- The engine flags are the access mode or-ed with one engine bit for each
of the four host bits that is set. -/
theorem open_p_lfs_flags_eq (K : Consts) (flags : Nat) :
    open_p_lfs_flags K flags =
      (if flags &&& K.O_ACCMODE = K.O_RDONLY then K.LFS_O_RDONLY
        else if flags &&& K.O_ACCMODE = K.O_WRONLY then K.LFS_O_WRONLY
        else if flags &&& K.O_ACCMODE = K.O_RDWR then K.LFS_O_RDWR
        else 0) |||
      (if flags &&& K.O_CREAT ≠ 0 then K.LFS_O_CREAT else 0) |||
      (if flags &&& K.O_EXCL ≠ 0 then K.LFS_O_EXCL else 0) |||
      (if flags &&& K.O_TRUNC ≠ 0 then K.LFS_O_TRUNC else 0) |||
      (if flags &&& K.O_APPEND ≠ 0 then K.LFS_O_APPEND else 0) := by
  unfold open_p_lfs_flags
  simp only []
  split_ifs <;> simp

/-- With `b` outside of `m`, the bit pattern chosen for a flag is outside of
`m` too. -/
theorem ite_land_zero (c : Prop) [Decidable c] (b m : Nat) (h : b &&& m = 0) :
    (if c then b else 0) &&& m = 0 := by
  split_ifs
  · exact h
  · exact Nat.zero_and m

/-- With `b` inside of `m`, so is the bit pattern chosen for a flag. -/
theorem ite_land_self (c : Prop) [Decidable c] (b m : Nat) (h : b &&& m = b) :
    (if c then b else 0) &&& m = if c then b else 0 := by
  split_ifs
  · exact h
  · exact Nat.zero_and m

/-! ## What a call does to the object -/

@[simp] theorem map_lfs_error_mounted (K : Consts) (err : Int) (s : State) :
    (map_lfs_error K err s).2.mounted = s.mounted := by
  rw [map_lfs_error_eq]; split <;> rfl

@[simp] theorem map_lfs_error_registered (K : Consts) (err : Int) (s : State) :
    (map_lfs_error K err s).2.registered = s.registered := by
  rw [map_lfs_error_eq]; split <;> rfl

/-- The function `map_lfs_error` changes `errno` at most. -/
theorem map_lfs_error_state (K : Consts) (err : Int) (s : State) :
    ∃ en : Int, (map_lfs_error K err s).2 = { s with errno := en } := by
  rw [map_lfs_error_eq]
  split
  · exact ⟨s.errno, rfl⟩
  · exact ⟨_, rfl⟩

theorem after_nil (s : State) : s.after s [] :=
  ⟨s.errno, s.fds, by simp, Or.inl rfl⟩

theorem after_emit (s s1 : State) (delta : List Event) (e : Event) (h : s.after s1 delta) :
    s.after (s1.emit e) (delta ++ [e]) := by
  obtain ⟨en, fds1, hs, hf⟩ := h
  refine ⟨en, fds1, ?_, hf⟩
  rw [hs]
  simp [State.emit]

theorem after_errno (s s1 : State) (delta : List Event) (x : Int) (h : s.after s1 delta) :
    s.after { s1 with errno := x } delta := by
  obtain ⟨en, fds1, hs, hf⟩ := h
  refine ⟨x, fds1, ?_, hf⟩
  rw [hs]

theorem after_map_lfs_error (K : Consts) (err : Int) (s s1 : State) (delta : List Event)
    (h : s.after s1 delta) : s.after (map_lfs_error K err s1).2 delta := by
  obtain ⟨en, hen⟩ := map_lfs_error_state K err s1
  rw [hen]
  exact after_errno s s1 delta en h

theorem after_fds_get (s s0 s1 : State) (delta : List Event) (fd : Int) (e : vfs_fd_t)
    (h : s.after s0 delta) (hget : s0.fds_get fd = some (e, s1)) :
    s.after s1 (delta ++ [Event.fds_access fd.toNat]) := by
  rw [(fds_get_some s0 s1 fd e hget).1]
  exact after_emit s s0 delta _ h

theorem after_cfg (s s1 : State) (delta : List Event) (h : s.after s1 delta) :
    s1.cfg = s.cfg ∧ s1.mounted = s.mounted ∧ s1.registered = s.registered ∧
      s1.trace = s.trace ++ delta := by
  obtain ⟨en, fds1, hs, _⟩ := h
  rw [hs]
  exact ⟨rfl, rfl, rfl, rfl⟩

/-- The table after a call has the length it had, and its slots are paired
if they were. -/
theorem after_table (s s1 : State) (delta : List Event) (h : s.after s1 delta) :
    (s.fds = none → s1.fds = none) ∧
    ∀ t, s.fds = some t → ∃ t1, s1.fds = some t1 ∧ t1.length = t.length ∧
      ((∀ e ∈ t, e.paired) → ∀ e ∈ t1, e.paired) := by
  obtain ⟨en, fds1, hs, hf⟩ := h
  rw [hs]
  rcases hf with hf | ⟨t, j, e, ht, hj, hf, he⟩
  · subst hf
    exact ⟨(fun h => h), (fun t ht => ⟨t, ht, rfl, (fun h => h)⟩)⟩
  · subst hf
    refine ⟨(fun h => by rw [ht] at h; cases h), fun t0 ht0 => ?_⟩
    rw [ht] at ht0
    cases ht0
    refine ⟨_, rfl, ?_, ?_⟩
    · simp
    · intro hall e1 he1
      rcases List.mem_or_eq_of_mem_set he1 with h1 | h1
      · exact hall e1 h1
      · rw [h1]; exact he

theorem after_of_eq (s s0 : State) (delta : List Event)
    (h : s0 = { s with trace := s.trace ++ delta }) : s.after s0 delta :=
  ⟨s.errno, s.fds, by rw [h], Or.inl rfl⟩

theorem after_fds_set (s s0 s1 : State) (delta : List Event) (fd : Int) (e : vfs_fd_t)
    (h : s0 = { s with trace := s.trace ++ delta }) (hset : s0.fds_set fd e = some s1)
    (he : e.paired) : s.after s1 (delta ++ [Event.fds_access fd.toNat]) := by
  obtain ⟨_, t, ht, hlt, hs1⟩ := fds_set_some s0 s1 fd e hset
  have ht0 : s.fds = some t := by rw [h] at ht; exact ht
  refine ⟨s.errno, some (t.set fd.toNat e), ?_, Or.inr ⟨t, fd.toNat, e, ht0, hlt, rfl, he⟩⟩
  rw [hs1, h]
  simp

/-! ## The lock flag along a trace -/

theorem lock_walk_append (g : Bool) :
    ∀ (a b : List Event) (held : Bool),
      lock_walk g held (a ++ b) = (lock_walk g held a).bind (fun h => lock_walk g h b) := by
  intro a
  induction a with
  | nil => intro b held; rfl
  | cons e a ih =>
    intro b held
    cases e <;> cases held <;> cases g <;> simp [lock_walk, ih]

theorem lock_walk_fds (g : Bool) (tr : List Event) (h : only_fds_access tr) :
    lock_walk g true tr = some true := by
  induction tr with
  | nil => rfl
  | cons e tr ih =>
    obtain ⟨j, hj⟩ := h e (List.mem_cons_self _ _)
    subst hj
    simp only [lock_walk, if_true]
    exact ih (fun e' he' => h e' (List.mem_cons_of_mem _ he'))

/-- A trace that keeps the discipline with the position counter guarded keeps
it without. -/
theorem lock_walk_weaken :
    ∀ (tr : List Event) (held r : Bool),
      lock_walk true held tr = some r → lock_walk false held tr = some r := by
  intro tr
  induction tr with
  | nil => intro held r h; exact h
  | cons e tr ih =>
    intro held r h
    cases e <;> cases held <;> simp [lock_walk] at h ⊢ <;> exact ih _ _ h

/-! ## The calls, one by one -/

theorem read_p_after (K : Consts) (s : State) (fd : Int) (size : Nat) (res ret : Int)
    (s' : State) (h : read_p K s fd size res = some (ret, s')) :
    ∃ delta, s.after s' delta ∧ lock_walk true false delta = some false ∧
      Event.lock_acquire ∈ delta := by
  unfold read_p at h
  split at h
  · cases h
  · rename_i e s1 hget
    have h1 := after_fds_get s _ s1 _ fd e (after_emit s s [] Event.lock_acquire (after_nil s)) hget
    split at h
    · simp only [Option.some.injEq, Prod.mk.injEq] at h
      rw [← h.2]
      exact ⟨_, after_errno _ _ _ _ (after_emit _ _ _ Event.lock_release h1), rfl, by simp⟩
    · rename_i f hf
      have h2 := after_emit _ _ _ Event.lock_release
        (after_emit _ _ _ (Event.engine (EngineCall.lfs_file_read f size)) h1)
      simp only at h
      split at h
      · simp only [Option.some.injEq] at h
        have h3 := congrArg Prod.snd h
        simp only at h3
        rw [← h3]
        exact ⟨_, after_map_lfs_error K _ _ _ _ h2, rfl, by simp⟩
      · simp only [Option.some.injEq, Prod.mk.injEq] at h
        rw [← h.2]
        exact ⟨_, h2, rfl, by simp⟩

theorem write_p_after (K : Consts) (s : State) (fd : Int) (size : Nat) (written ret : Int)
    (s' : State) (h : write_p K s fd size written = some (ret, s')) :
    ∃ delta, s.after s' delta ∧ lock_walk true false delta = some false ∧
      Event.lock_acquire ∈ delta := by
  unfold write_p at h
  split at h
  · cases h
  · rename_i e s1 hget
    have h1 := after_fds_get s _ s1 _ fd e (after_emit s s [] Event.lock_acquire (after_nil s)) hget
    split at h
    · simp only [Option.some.injEq, Prod.mk.injEq] at h
      rw [← h.2]
      exact ⟨_, after_errno _ _ _ _ (after_emit _ _ _ Event.lock_release h1), rfl, by simp⟩
    · rename_i f hf
      have h2 := after_emit _ _ _ Event.lock_release
        (after_emit _ _ _ (Event.engine (EngineCall.lfs_file_write f size)) h1)
      simp only at h
      split at h
      · simp only [Option.some.injEq] at h
        have h3 := congrArg Prod.snd h
        simp only at h3
        rw [← h3]
        exact ⟨_, after_map_lfs_error K _ _ _ _ h2, rfl, by simp⟩
      · simp only [Option.some.injEq, Prod.mk.injEq] at h
        rw [← h.2]
        exact ⟨_, h2, rfl, by simp⟩

theorem fsync_p_after (K : Consts) (s : State) (fd : Int) (err ret : Int)
    (s' : State) (h : fsync_p K s fd err = some (ret, s')) :
    ∃ delta, s.after s' delta ∧ lock_walk true false delta = some false ∧
      Event.lock_acquire ∈ delta := by
  unfold fsync_p at h
  split at h
  · cases h
  · rename_i e s1 hget
    have h1 := after_fds_get s _ s1 _ fd e (after_emit s s [] Event.lock_acquire (after_nil s)) hget
    split at h
    · simp only [Option.some.injEq, Prod.mk.injEq] at h
      rw [← h.2]
      exact ⟨_, after_errno _ _ _ _ (after_emit _ _ _ Event.lock_release h1), rfl, by simp⟩
    · rename_i f hf
      have h2 := after_emit _ _ _ Event.lock_release
        (after_emit _ _ _ (Event.engine (EngineCall.lfs_file_sync f)) h1)
      simp only [Option.some.injEq] at h
      have h3 := congrArg Prod.snd h
      simp only at h3
      rw [← h3]
      exact ⟨_, after_map_lfs_error K _ _ _ _ h2, rfl, by simp⟩

theorem fstat_p_after (K : Consts) (s : State) (fd : Int) (err : Int) (info : lfs_info)
    (ret : Int) (st : Option stat) (s' : State)
    (h : fstat_p K s fd err info = some (ret, st, s')) :
    ∃ delta, s.after s' delta ∧ lock_walk true false delta = some false ∧
      Event.lock_acquire ∈ delta := by
  unfold fstat_p at h
  split at h
  · cases h
  · rename_i e s1 hget
    have h1 := after_fds_get s _ s1 _ fd e (after_emit s s [] Event.lock_acquire (after_nil s)) hget
    split at h
    · simp only [Option.some.injEq, Prod.mk.injEq] at h
      rw [← h.2.2]
      exact ⟨_, after_errno _ _ _ _ (after_emit _ _ _ Event.lock_release h1), rfl, by simp⟩
    · split at h
      · cases h
      · rename_i nm hnm
        have h2 := after_emit _ _ _ Event.lock_release
          (after_emit _ _ _ (Event.engine (EngineCall.lfs_stat nm)) h1)
        simp only at h
        split at h
        · simp only [Option.some.injEq, Prod.mk.injEq] at h
          rw [← h.2.2]
          exact ⟨_, after_map_lfs_error K _ _ _ _ h2, rfl, by simp⟩
        · simp only [Option.some.injEq, Prod.mk.injEq] at h
          rw [← h.2.2]
          exact ⟨_, h2, rfl, by simp⟩

theorem lseek_p_after (K : Consts) (s : State) (fd : Int) (size mode seek_res tell_res : Int)
    (ret : Int) (s' : State)
    (h : lseek_p K s fd size mode seek_res tell_res = some (ret, s')) :
    ∃ delta, s.after s' delta ∧ lock_walk true false delta = some false ∧
      (delta = [] ∨ Event.lock_acquire ∈ delta) := by
  unfold lseek_p at h
  simp only at h
  split at h
  · simp only [Option.some.injEq, Prod.mk.injEq] at h
    rw [← h.2]
    exact ⟨[], after_errno _ _ _ _ (after_nil s), rfl, Or.inl rfl⟩
  · rename_i m hm
    split at h
    · cases h
    · rename_i e s1 hget
      have h1 := after_fds_get s _ s1 _ fd e
        (after_emit s s [] Event.lock_acquire (after_nil s)) hget
      split at h
      · simp only [Option.some.injEq, Prod.mk.injEq] at h
        rw [← h.2]
        exact ⟨_, after_errno _ _ _ _ (after_emit _ _ _ Event.lock_release h1), rfl,
          Or.inr (by simp)⟩
      · rename_i f hf
        have h2 := after_emit _ _ _ (Event.engine (EngineCall.lfs_file_seek f size m)) h1
        by_cases hseek : seek_res ≥ 0
        · simp only [if_pos hseek] at h
          have h3 := after_emit _ _ _ Event.lock_release
            (after_emit _ _ _ (Event.engine (EngineCall.lfs_file_tell f)) h2)
          split at h
          · simp only [Option.some.injEq] at h
            have h4 := congrArg Prod.snd h
            simp only at h4
            rw [← h4]
            exact ⟨_, after_map_lfs_error K _ _ _ _ h3, rfl, Or.inr (by simp)⟩
          · simp only [Option.some.injEq, Prod.mk.injEq] at h
            rw [← h.2]
            exact ⟨_, h3, rfl, Or.inr (by simp)⟩
        · simp only [if_neg hseek] at h
          have h3 := after_emit _ _ _ Event.lock_release h2
          split at h
          · simp only [Option.some.injEq] at h
            have h4 := congrArg Prod.snd h
            simp only at h4
            rw [← h4]
            exact ⟨_, after_map_lfs_error K _ _ _ _ h3, rfl, Or.inr (by simp)⟩
          · simp only [Option.some.injEq, Prod.mk.injEq] at h
            rw [← h.2]
            exact ⟨_, h3, rfl, Or.inr (by simp)⟩

theorem close_p_after (K : Consts) (s : State) (fd : Int) (err ret : Int)
    (s' : State) (h : close_p K s fd err = some (ret, s')) :
    ∃ delta, s.after s' delta ∧ lock_walk true false delta = some false ∧
      Event.lock_acquire ∈ delta := by
  unfold close_p at h
  split at h
  · cases h
  · rename_i e s1 hget
    have hs1 := (fds_get_some _ s1 fd e hget).1
    split at h
    · have h1 := after_fds_get s _ s1 _ fd e
        (after_emit s s [] Event.lock_acquire (after_nil s)) hget
      simp only [Option.some.injEq, Prod.mk.injEq] at h
      rw [← h.2]
      exact ⟨_, after_errno _ _ _ _ (after_emit _ _ _ Event.lock_release h1), rfl, by simp⟩
    · rename_i f hf
      simp only at h
      split at h
      · cases h
      · rename_i s3 hset
        have h2 := after_fds_set s _ s3
          [Event.lock_acquire, Event.fds_access fd.toNat,
            Event.engine (EngineCall.lfs_file_close f)] fd vfs_fd_t.empty
          (by rw [hs1]; simp [State.emit]) hset
          (by unfold vfs_fd_t.paired vfs_fd_t.empty; simp)
        have h3 := after_emit _ _ _ Event.lock_release h2
        simp only [Option.some.injEq] at h
        have h4 := congrArg Prod.snd h
        simp only at h4
        rw [← h4]
        exact ⟨_, after_map_lfs_error K _ _ _ _ h3, rfl, by simp⟩

theorem open_p_after (K : Consts) (s : State) (path : String) (flags : Nat) (mode : Int)
    (file : Option Ptr) (name_ok : Bool) (err : Int) (ret : Int) (s' : State)
    (h : open_p K s path flags mode file name_ok err = some (ret, s')) :
    ∃ delta, s.after s' delta ∧ lock_walk true false delta = some false ∧
      (delta = [] ∨ Event.lock_acquire ∈ delta) := by
  rcases open_p_cases K s path flags mode file name_ok err ret s' h with
    ⟨_, hs⟩ | ⟨tr, htr, _, hs⟩ | ⟨tr, f, htr, hf, _, hs⟩ |
    ⟨tr, f, j, t, e, htr, hf, _, _, ht, he, _, hs⟩
  · rw [hs]
    exact ⟨[], after_errno _ _ _ _ (after_nil s), rfl, Or.inl rfl⟩
  · refine ⟨Event.lock_acquire :: tr ++ [Event.lock_release],
      ⟨K.ENFILE, s.fds, by rw [hs], Or.inl rfl⟩, ?_, Or.inr (by simp)⟩
    simp [lock_walk, lock_walk_append, lock_walk_fds _ tr htr]
  · refine ⟨Event.lock_acquire :: tr ++
      [Event.engine (EngineCall.lfs_file_open f path (open_p_lfs_flags K flags)),
        Event.lock_release], ?_, ?_, Or.inr (by simp)⟩
    · have h2 := congrArg Prod.snd hs
      simp only at h2
      rw [h2]
      exact after_map_lfs_error K _ _ _ _ (after_of_eq _ _ _ rfl)
    · simp [lock_walk, lock_walk_append, lock_walk_fds _ tr htr]
  · have hlt : j < t.length := by
      by_contra hge
      rw [List.getElem?_eq_none (by omega)] at he
      cases he
    refine ⟨Event.lock_acquire :: tr ++
      [Event.engine (EngineCall.lfs_file_open f path (open_p_lfs_flags K flags)),
        Event.fds_access j, Event.lock_release], ?_, ?_, Or.inr (by simp)⟩
    · refine ⟨s.errno, some (t.set j { file := some f, name := some path }), by rw [hs],
        Or.inr ⟨t, j, _, ht, hlt, rfl, ?_⟩⟩
      unfold vfs_fd_t.paired
      simp
    · simp [lock_walk, lock_walk_append, lock_walk_fds _ tr htr]

theorem stat_p_after (K : Consts) (s : State) (path : String) (err : Int) (info : lfs_info) :
    ∃ delta, s.after (stat_p K s path err info).2.2 delta ∧
      lock_walk true false delta = some false ∧ Event.lock_acquire ∈ delta := by
  have h2 := after_emit _ _ _ Event.lock_release
    (after_emit _ _ _ (Event.engine (EngineCall.lfs_stat path))
      (after_emit s s [] Event.lock_acquire (after_nil s)))
  unfold stat_p
  simp only
  split
  · exact ⟨_, after_map_lfs_error K _ _ _ _ h2, rfl, by simp⟩
  · exact ⟨_, h2, rfl, by simp⟩

theorem unlink_p_after (K : Consts) (s : State) (path : String) (err : Int) :
    ∃ delta, s.after (unlink_p K s path err).2 delta ∧
      lock_walk true false delta = some false ∧ Event.lock_acquire ∈ delta :=
  ⟨_, after_map_lfs_error K _ _ _ _ (after_emit _ _ _ Event.lock_release
    (after_emit _ _ _ (Event.engine (EngineCall.lfs_remove path))
      (after_emit s s [] Event.lock_acquire (after_nil s)))), rfl, by simp⟩

theorem rename_p_after (K : Consts) (s : State) (src dst : String) (err : Int) :
    ∃ delta, s.after (rename_p K s src dst err).2 delta ∧
      lock_walk true false delta = some false ∧ Event.lock_acquire ∈ delta :=
  ⟨_, after_map_lfs_error K _ _ _ _ (after_emit _ _ _ Event.lock_release
    (after_emit _ _ _ (Event.engine (EngineCall.lfs_rename src dst))
      (after_emit s s [] Event.lock_acquire (after_nil s)))), rfl, by simp⟩

theorem mkdir_p_after (K : Consts) (s : State) (name : String) (mode err : Int) :
    ∃ delta, s.after (mkdir_p K s name mode err).2 delta ∧
      lock_walk true false delta = some false ∧ Event.lock_acquire ∈ delta :=
  ⟨_, after_map_lfs_error K _ _ _ _ (after_emit _ _ _ Event.lock_release
    (after_emit _ _ _ (Event.engine (EngineCall.lfs_mkdir name))
      (after_emit s s [] Event.lock_acquire (after_nil s)))), rfl, by simp⟩

theorem rmdir_p_after (K : Consts) (s : State) (name : String) (err : Int) :
    ∃ delta, s.after (rmdir_p K s name err).2 delta ∧
      lock_walk true false delta = some false ∧ Event.lock_acquire ∈ delta :=
  ⟨_, after_map_lfs_error K _ _ _ _ (after_emit _ _ _ Event.lock_release
    (after_emit _ _ _ (Event.engine (EngineCall.lfs_remove name))
      (after_emit s s [] Event.lock_acquire (after_nil s)))), rfl, by simp⟩

theorem closedir_p_after (K : Consts) (s : State) (pdir : Option vfs_lfs_dir_t) (err : Int) :
    ∃ delta, s.after (closedir_p K s pdir err).2 delta ∧
      lock_walk true false delta = some false ∧ (delta = [] ∨ Event.lock_acquire ∈ delta) := by
  cases pdir with
  | none => exact ⟨[], after_errno _ _ _ _ (after_nil s), rfl, Or.inl rfl⟩
  | some d =>
    exact ⟨_, after_map_lfs_error K _ _ _ _ (after_emit _ _ _ Event.lock_release
      (after_emit _ _ _ (Event.engine EngineCall.lfs_dir_close)
        (after_emit s s [] Event.lock_acquire (after_nil s)))), rfl, Or.inr (by simp)⟩

theorem opendir_p_after (K : Consts) (s : State) (name : String) (alloc_ok : Bool) (err : Int)
    (steps : List DirStep) :
    ∃ delta, s.after (opendir_p K s name alloc_ok err steps).2 delta ∧
      lock_walk true false delta = some false ∧ (delta = [] ∨ Event.lock_acquire ∈ delta) := by
  have h2 := after_emit _ _ _ Event.lock_release
    (after_emit _ _ _ (Event.engine (EngineCall.lfs_dir_open name))
      (after_emit s s [] Event.lock_acquire (after_nil s)))
  unfold opendir_p
  split
  · exact ⟨[], after_errno _ _ _ _ (after_nil s), rfl, Or.inl rfl⟩
  · simp only
    split
    · exact ⟨_, after_map_lfs_error K _ _ _ _ h2, rfl, Or.inr (by simp)⟩
    · exact ⟨_, h2, rfl, Or.inr (by simp)⟩

/-- The position counter is incremented after the lock is released. -/
theorem readdir_r_p_after (K : Consts) (s : State) (pdir : Option vfs_lfs_dir_t)
    (entry : dirent) :
    ∃ delta, s.after (readdir_r_p K s pdir entry).state delta ∧
      lock_walk false false delta = some false ∧ (delta = [] ∨ Event.lock_acquire ∈ delta) := by
  cases pdir with
  | none => exact ⟨[], after_errno _ _ _ _ (after_nil s), rfl, Or.inl rfl⟩
  | some d =>
    have h2 := after_emit _ _ _ Event.lock_release
      (after_emit _ _ _ (Event.engine EngineCall.lfs_dir_read)
        (after_emit s s [] Event.lock_acquire (after_nil s)))
    unfold readdir_r_p
    simp only
    split
    · exact ⟨_, h2, rfl, Or.inr (by simp)⟩
    · split
      · exact ⟨_, after_map_lfs_error K _ _ _ _ h2, rfl, Or.inr (by simp)⟩
      · split
        · exact ⟨_, after_errno _ _ _ _ h2, rfl, Or.inr (by simp)⟩
        · exact ⟨_, after_emit _ _ _ Event.off_access h2, rfl, Or.inr (by simp)⟩

theorem readdir_p_after (K : Consts) (s : State) (pdir : Option vfs_lfs_dir_t) :
    ∃ delta, s.after (readdir_p K s pdir).2.2 delta ∧
      lock_walk false false delta = some false ∧ (delta = [] ∨ Event.lock_acquire ∈ delta) := by
  cases pdir with
  | none => exact ⟨[], after_errno _ _ _ _ (after_nil s), rfl, Or.inl rfl⟩
  | some d =>
    obtain ⟨delta, h1, h2, h3⟩ := readdir_r_p_after K s (some d) d.dirent
    unfold readdir_p
    simp only
    split
    · exact ⟨delta, after_errno _ _ _ _ h1, h2, h3⟩
    · exact ⟨delta, h1, h2, h3⟩

/-- The loop of `seekdir_p` runs with the lock held. -/
theorem seekdir_loop_after :
    ∀ (k : Nat) (d : vfs_lfs_dir_t) (s : State) (err : Int),
      ∃ tr, (seekdir_loop k d s err).2.1 = { s with trace := s.trace ++ tr } ∧
        lock_walk true true tr = some true := by
  intro k
  induction k with
  | zero =>
    intro d s err
    exact ⟨[Event.off_access], rfl, rfl⟩
  | succ k ih =>
    intro d s err
    rw [seekdir_loop]
    simp only
    split
    · exact ⟨[Event.off_access, Event.engine EngineCall.lfs_dir_read], by simp [State.emit], rfl⟩
    · obtain ⟨tr, h1, h2⟩ := ih
        { dirent := d.dirent, lfs_dir := (lfs_dir_read d.lfs_dir).2.2, off := d.off + 1 }
        (((s.emit Event.off_access).emit (Event.engine EngineCall.lfs_dir_read)).emit
          Event.off_access) (lfs_dir_read d.lfs_dir).1
      refine ⟨[Event.off_access, Event.engine EngineCall.lfs_dir_read, Event.off_access] ++ tr,
        ?_, ?_⟩
      · rw [h1]
        simp [State.emit]
      · rw [lock_walk_append]
        exact h2

/-- In `seekdir_p` the position counter is accessed with the lock held. -/
theorem seekdir_p_after (K : Consts) (s : State) (pdir : Option vfs_lfs_dir_t)
    (offset rewind_res : Int) :
    ∃ delta, s.after (seekdir_p K s pdir offset rewind_res).2 delta ∧
      lock_walk true false delta = some false ∧ (delta = [] ∨ Event.lock_acquire ∈ delta) := by
  cases pdir with
  | none => exact ⟨[], after_errno _ _ _ _ (after_nil s), rfl, Or.inl rfl⟩
  | some d =>
    unfold seekdir_p
    simp only
    by_cases hrw : (lfs_dir_rewind d.lfs_dir rewind_res).1 ≥ 0
    · simp only [if_pos hrw]
      obtain ⟨tr, h1, h2⟩ := seekdir_loop_after offset.toNat
        { dirent := d.dirent, lfs_dir := (lfs_dir_rewind d.lfs_dir rewind_res).2, off := 0 }
        (((s.emit Event.lock_acquire).emit (Event.engine EngineCall.lfs_dir_rewind)).emit
          Event.off_access) (lfs_dir_rewind d.lfs_dir rewind_res).1
      have h3 : s.after ((seekdir_loop offset.toNat
          { dirent := d.dirent, lfs_dir := (lfs_dir_rewind d.lfs_dir rewind_res).2, off := 0 }
          (((s.emit Event.lock_acquire).emit (Event.engine EngineCall.lfs_dir_rewind)).emit
            Event.off_access) (lfs_dir_rewind d.lfs_dir rewind_res).1).2.1.emit
            Event.lock_release)
          (([Event.lock_acquire, Event.engine EngineCall.lfs_dir_rewind, Event.off_access] ++ tr)
            ++ [Event.lock_release]) := by
        apply after_emit
        apply after_of_eq
        rw [h1]
        simp [State.emit]
      have hw : lock_walk true false
          (([Event.lock_acquire, Event.engine EngineCall.lfs_dir_rewind, Event.off_access] ++ tr)
            ++ [Event.lock_release]) = some false := by
        rw [lock_walk_append, lock_walk_append]
        simp [lock_walk, h2]
      split
      · exact ⟨_, after_map_lfs_error K _ _ _ _ h3, hw, Or.inr (by simp)⟩
      · exact ⟨_, h3, hw, Or.inr (by simp)⟩
    · simp only [if_neg hrw]
      have h3 := after_emit _ _ _ Event.lock_release
        (after_emit _ _ _ (Event.engine EngineCall.lfs_dir_rewind)
          (after_emit s s [] Event.lock_acquire (after_nil s)))
      split
      · exact ⟨_, after_map_lfs_error K _ _ _ _ h3, rfl, Or.inr (by simp)⟩
      · exact ⟨_, h3, rfl, Or.inr (by simp)⟩

/-- The function `telldir_p` reads the position counter and takes no lock. -/
theorem telldir_p_after (K : Consts) (s : State) (pdir : Option vfs_lfs_dir_t) :
    ∃ delta, s.after (telldir_p K s pdir).2 delta ∧
      (delta = [] ∨ delta = [Event.off_access]) := by
  cases pdir with
  | none => exact ⟨[], after_errno _ _ _ _ (after_nil s), Or.inl rfl⟩
  | some d => exact ⟨_, after_emit s s [] Event.off_access (after_nil s), Or.inr rfl⟩

/-- Every call of the call surface leaves the object as it was but for the
events it appends, `errno` and at most one slot; it keeps the lock discipline
for the engine and the table, and for the position counter too unless it is
`readdir`, `readdir_r` or `telldir`; and it acquires the lock unless it
returns at once or is `telldir`. -/
theorem op_run_after (K : Consts) (op : Op) (s s' : State) (h : op.run K s = some s') :
    ∃ delta, s.after s' delta ∧ lock_walk false false delta = some false ∧
      (delta = [] ∨ Event.lock_acquire ∈ delta ∨ ∃ d, op = Op.telldir (some d)) ∧
      ((∀ pdir, op ≠ Op.readdir pdir) → (∀ pdir entry, op ≠ Op.readdir_r pdir entry) →
        (∀ pdir, op ≠ Op.telldir pdir) → lock_walk true false delta = some false) := by
  match op, h with
  | Op.open path flags mode file name_ok err, h =>
    simp only [Op.run, Option.map_eq_some'] at h
    obtain ⟨⟨ret, s1⟩, h1, h2⟩ := h
    simp only at h2
    subst h2
    obtain ⟨delta, ha, hw, hq⟩ := open_p_after K s path flags mode file name_ok err ret _ h1
    exact ⟨delta, ha, lock_walk_weaken _ _ _ hw, hq.imp id Or.inl, fun _ _ _ => hw⟩
  | Op.close fd err, h =>
    simp only [Op.run, Option.map_eq_some'] at h
    obtain ⟨⟨ret, s1⟩, h1, h2⟩ := h
    simp only at h2
    subst h2
    obtain ⟨delta, ha, hw, hq⟩ := close_p_after K s fd err ret _ h1
    exact ⟨delta, ha, lock_walk_weaken _ _ _ hw, Or.inr (Or.inl hq), fun _ _ _ => hw⟩
  | Op.read fd size res, h =>
    simp only [Op.run, Option.map_eq_some'] at h
    obtain ⟨⟨ret, s1⟩, h1, h2⟩ := h
    simp only at h2
    subst h2
    obtain ⟨delta, ha, hw, hq⟩ := read_p_after K s fd size res ret _ h1
    exact ⟨delta, ha, lock_walk_weaken _ _ _ hw, Or.inr (Or.inl hq), fun _ _ _ => hw⟩
  | Op.write fd size written, h =>
    simp only [Op.run, Option.map_eq_some'] at h
    obtain ⟨⟨ret, s1⟩, h1, h2⟩ := h
    simp only at h2
    subst h2
    obtain ⟨delta, ha, hw, hq⟩ := write_p_after K s fd size written ret _ h1
    exact ⟨delta, ha, lock_walk_weaken _ _ _ hw, Or.inr (Or.inl hq), fun _ _ _ => hw⟩
  | Op.lseek fd size mode seek_res tell_res, h =>
    simp only [Op.run, Option.map_eq_some'] at h
    obtain ⟨⟨ret, s1⟩, h1, h2⟩ := h
    simp only at h2
    subst h2
    obtain ⟨delta, ha, hw, hq⟩ := lseek_p_after K s fd size mode seek_res tell_res ret _ h1
    exact ⟨delta, ha, lock_walk_weaken _ _ _ hw, hq.imp id Or.inl, fun _ _ _ => hw⟩
  | Op.fstat fd err info, h =>
    simp only [Op.run, Option.map_eq_some'] at h
    obtain ⟨⟨ret, st, s1⟩, h1, h2⟩ := h
    simp only at h2
    subst h2
    obtain ⟨delta, ha, hw, hq⟩ := fstat_p_after K s fd err info ret st _ h1
    exact ⟨delta, ha, lock_walk_weaken _ _ _ hw, Or.inr (Or.inl hq), fun _ _ _ => hw⟩
  | Op.stat path err info, h =>
    simp only [Op.run, Option.some.injEq] at h
    subst h
    obtain ⟨delta, ha, hw, hq⟩ := stat_p_after K s path err info
    exact ⟨delta, ha, lock_walk_weaken _ _ _ hw, Or.inr (Or.inl hq), fun _ _ _ => hw⟩
  | Op.unlink path err, h =>
    simp only [Op.run, Option.some.injEq] at h
    subst h
    obtain ⟨delta, ha, hw, hq⟩ := unlink_p_after K s path err
    exact ⟨delta, ha, lock_walk_weaken _ _ _ hw, Or.inr (Or.inl hq), fun _ _ _ => hw⟩
  | Op.rename src dst err, h =>
    simp only [Op.run, Option.some.injEq] at h
    subst h
    obtain ⟨delta, ha, hw, hq⟩ := rename_p_after K s src dst err
    exact ⟨delta, ha, lock_walk_weaken _ _ _ hw, Or.inr (Or.inl hq), fun _ _ _ => hw⟩
  | Op.mkdir name mode err, h =>
    simp only [Op.run, Option.some.injEq] at h
    subst h
    obtain ⟨delta, ha, hw, hq⟩ := mkdir_p_after K s name mode err
    exact ⟨delta, ha, lock_walk_weaken _ _ _ hw, Or.inr (Or.inl hq), fun _ _ _ => hw⟩
  | Op.rmdir name err, h =>
    simp only [Op.run, Option.some.injEq] at h
    subst h
    obtain ⟨delta, ha, hw, hq⟩ := rmdir_p_after K s name err
    exact ⟨delta, ha, lock_walk_weaken _ _ _ hw, Or.inr (Or.inl hq), fun _ _ _ => hw⟩
  | Op.opendir name alloc_ok err steps, h =>
    simp only [Op.run, Option.some.injEq] at h
    subst h
    obtain ⟨delta, ha, hw, hq⟩ := opendir_p_after K s name alloc_ok err steps
    exact ⟨delta, ha, lock_walk_weaken _ _ _ hw, hq.imp id Or.inl, fun _ _ _ => hw⟩
  | Op.readdir pdir, h =>
    simp only [Op.run, Option.some.injEq] at h
    subst h
    obtain ⟨delta, ha, hw, hq⟩ := readdir_p_after K s pdir
    exact ⟨delta, ha, hw, hq.imp id Or.inl, fun h1 _ _ => absurd rfl (h1 pdir)⟩
  | Op.readdir_r pdir entry, h =>
    simp only [Op.run, Option.some.injEq] at h
    subst h
    obtain ⟨delta, ha, hw, hq⟩ := readdir_r_p_after K s pdir entry
    exact ⟨delta, ha, hw, hq.imp id Or.inl, fun _ h2 _ => absurd rfl (h2 pdir entry)⟩
  | Op.telldir pdir, h =>
    simp only [Op.run, Option.some.injEq] at h
    subst h
    obtain ⟨delta, ha, hq⟩ := telldir_p_after K s pdir
    refine ⟨delta, ha, ?_, ?_, fun _ _ h3 => absurd rfl (h3 pdir)⟩
    · rcases hq with hq | hq <;> rw [hq] <;> rfl
    · rcases hq with hq | hq
      · exact Or.inl hq
      · cases pdir with
        | none =>
          obtain ⟨_, _, hs, _⟩ := ha
          have ht := congrArg State.trace hs
          simp [telldir_p, hq] at ht
        | some d => exact Or.inr (Or.inr ⟨d, rfl⟩)
  | Op.seekdir pdir offset rewind_res, h =>
    simp only [Op.run, Option.some.injEq] at h
    subst h
    obtain ⟨delta, ha, hw, hq⟩ := seekdir_p_after K s pdir offset rewind_res
    exact ⟨delta, ha, lock_walk_weaken _ _ _ hw, hq.imp id Or.inl, fun _ _ _ => hw⟩
  | Op.closedir pdir err, h =>
    simp only [Op.run, Option.some.injEq] at h
    subst h
    obtain ⟨delta, ha, hw, hq⟩ := closedir_p_after K s pdir err
    exact ⟨delta, ha, lock_walk_weaken _ _ _ hw, hq.imp id Or.inl, fun _ _ _ => hw⟩
  | Op.fsync fd err, h =>
    simp only [Op.run, Option.map_eq_some'] at h
    obtain ⟨⟨ret, s1⟩, h1, h2⟩ := h
    simp only at h2
    subst h2
    obtain ⟨delta, ha, hw, hq⟩ := fsync_p_after K s fd err ret _ h1
    exact ⟨delta, ha, lock_walk_weaken _ _ _ hw, Or.inr (Or.inl hq), fun _ _ _ => hw⟩

/-! ## Facts about `term` -/

theorem term_close_slot_free (K : Consts) (s : State) (t : List vfs_fd_t) (i : Nat) (err : Int)
    (e : vfs_fd_t) (ht : s.fds = some t) (he : t[i]? = some e) (hf : e.file = none) :
    term_close_slot K s i err = some (s.emit (Event.fds_access i)) := by
  unfold term_close_slot
  rw [fds_get_int s t (i : Int) e ht (Int.natCast_nonneg i) (by simpa using he)]
  simp [hf]

theorem term_close_slot_bound (K : Consts) (s : State) (t : List vfs_fd_t) (i : Nat)
    (err : Int) (e : vfs_fd_t) (f : Ptr) (ht : s.fds = some t) (he : t[i]? = some e)
    (hf : e.file = some f) :
    ∃ en : Int, term_close_slot K s i err =
      some { s with fds := some (t.set i vfs_fd_t.empty), errno := en,
                    trace := s.trace ++ [Event.fds_access i, Event.lock_acquire,
                      Event.fds_access i, Event.engine (EngineCall.lfs_file_close f),
                      Event.fds_access i, Event.lock_release, Event.fds_access i] } := by
  have hlt : i < t.length := by
    by_contra hge
    rw [List.getElem?_eq_none (by omega)] at he
    cases he
  obtain ⟨en, hen⟩ := map_lfs_error_state K err
    { (s.emit (Event.fds_access i)) with
      fds := some (t.set i vfs_fd_t.empty),
      trace := (s.emit (Event.fds_access i)).trace ++ [Event.lock_acquire,
        Event.fds_access (i : Int).toNat, Event.engine (EngineCall.lfs_file_close f),
        Event.fds_access (i : Int).toNat, Event.lock_release] }
  obtain ⟨ret, s2, hm⟩ : ∃ ret s2, map_lfs_error K err
    { (s.emit (Event.fds_access i)) with
      fds := some (t.set i vfs_fd_t.empty),
      trace := (s.emit (Event.fds_access i)).trace ++ [Event.lock_acquire,
        Event.fds_access (i : Int).toNat, Event.engine (EngineCall.lfs_file_close f),
        Event.fds_access (i : Int).toNat, Event.lock_release] } = (ret, s2) := ⟨_, _, rfl⟩
  rw [hm] at hen
  simp only at hen
  refine ⟨en, ?_⟩
  unfold term_close_slot
  rw [fds_get_int s t (i : Int) e ht (Int.natCast_nonneg i) (by simpa using he)]
  simp only [hf]
  rw [close_p_bound K (s.emit (Event.fds_access (i : Int).toNat)) t (i : Int) e f err
    (by simpa using ht) (Int.natCast_nonneg i) (by simpa using he) hf]
  simp only [Int.toNat_ofNat] at hm ⊢
  rw [hm]
  simp only
  rw [hen]
  rw [fds_get_int _ (t.set i vfs_fd_t.empty) (i : Int) vfs_fd_t.empty rfl
    (Int.natCast_nonneg i) (by simp [hlt])]
  simp only
  rw [fds_set_int _ (t.set i vfs_fd_t.empty) (i : Int) _ rfl (Int.natCast_nonneg i)
    (by simp [hlt])]
  simp [State.emit, vfs_fd_t.empty]

/-- The loop of `term` from slot `i` on: it closes the handles of the slots
`i`, `i + 1`, ... that are open, one engine close each, in order. -/
theorem term_loop_spec (K : Consts) (close_res : Nat → Int) :
    ∀ (k i : Nat) (s : State) (t : List vfs_fd_t), s.fds = some t → i + k = t.length →
      ∃ (s' : State) (t' : List vfs_fd_t), term_loop K close_res k i s = some s' ∧
        s'.fds = some t' ∧ t'.length = t.length ∧ s'.cfg = s.cfg ∧ s'.mounted = s.mounted ∧
        s'.registered = s.registered ∧
        engine_calls s'.trace = engine_calls s.trace ++
          ((t.drop i).filterMap (fun e => e.file)).map EngineCall.lfs_file_close := by
  intro k
  induction k with
  | zero =>
    intro i s t ht hlen
    refine ⟨s, t, rfl, ht, rfl, rfl, rfl, rfl, ?_⟩
    rw [List.drop_of_length_le (by omega)]
    simp
  | succ k ih =>
    intro i s t ht hlen
    have hlt : i < t.length := by omega
    have he : t[i]? = some t[i] := by simp [hlt]
    have hdrop : t.drop i = t[i] :: t.drop (i + 1) := by
      rw [List.drop_eq_getElem_cons hlt]
    rw [term_loop]
    cases hf : t[i].file with
    | none =>
      rw [term_close_slot_free K s t i _ t[i] ht he hf]
      simp only
      obtain ⟨s', t', h1, h2, h3, h4, h5, h6, h7⟩ :=
        ih (i + 1) (s.emit (Event.fds_access i)) t (by simpa using ht) (by omega)
      refine ⟨s', t', h1, h2, h3, h4, h5, h6, ?_⟩
      rw [h7, hdrop]
      simp only [List.filterMap_cons, hf, emit_trace, engine_calls_append, engine_calls,
        List.append_nil]
    | some f =>
      obtain ⟨en, hen⟩ := term_close_slot_bound K s t i (close_res i) t[i] f ht he hf
      rw [hen]
      simp only
      obtain ⟨s', t', h1, h2, h3, h4, h5, h6, h7⟩ :=
        ih (i + 1)
          { s with fds := some (t.set i vfs_fd_t.empty), errno := en,
                   trace := s.trace ++ [Event.fds_access i, Event.lock_acquire,
                     Event.fds_access i, Event.engine (EngineCall.lfs_file_close f),
                     Event.fds_access i, Event.lock_release, Event.fds_access i] }
          (t.set i vfs_fd_t.empty) rfl (by simp; omega)
      refine ⟨s', t', h1, h2, by simpa using h3, h4, h5, h6, ?_⟩
      have hd : (t.set i vfs_fd_t.empty).drop (i + 1) = t.drop (i + 1) := by
        rw [List.drop_set_of_lt _ _ (by omega)]
      rw [h7, hdrop, hd]
      simp only [List.filterMap_cons, hf, engine_calls_append, engine_calls, List.map_cons,
        List.append_assoc, List.singleton_append, List.nil_append]

/-- The function `term` on a torn-down or never initialised object releases
the lock object and does nothing else. -/
theorem term_torn_down (K : Consts) (s : State) (close_res : Nat → Int)
    (h1 : s.registered = false) (h2 : s.mounted = false) (h3 : s.fds = none) :
    term K s close_res = some { s with trace := s.trace ++ [Event.lock_close] } := by
  unfold term
  simp [h1, h2, h3, State.emit]

/-- The function `term` on a consistent object. -/
theorem term_spec (K : Consts) (s : State) (close_res : Nat → Int) (hc : s.consistent) :
    ∃ s', term K s close_res = some s' ∧
      s'.registered = false ∧ s'.mounted = false ∧ s'.fds = none ∧ s'.cfg = s.cfg ∧
      engine_calls s'.trace = engine_calls s.trace ++
        (open_handles s).map EngineCall.lfs_file_close ++
        (if s.mounted then [EngineCall.lfs_unmount] else []) := by
  obtain ⟨hc1, hc2⟩ := hc
  unfold term
  cases hreg : s.registered with
  | true =>
    obtain ⟨t, ht, hlen⟩ := hc1 hreg
    obtain ⟨s1, t1, h1, h2, h3, h4, h5, h6, h7⟩ :=
      term_loop_spec K close_res s.cfg.open_files 0 s t ht (by omega)
    simp only [if_true, h1, emit_fds, h2]
    have ho : open_handles s = t.filterMap (fun e => e.file) := by
      unfold open_handles
      rw [ht]
    cases hm : s.mounted with
    | true =>
      refine ⟨_, rfl, ?_⟩
      simp [h5, hm, h4, State.emit, engine_calls_append, engine_calls, h7, ho]
    | false =>
      refine ⟨_, rfl, ?_⟩
      simp [h5, hm, h4, State.emit, engine_calls_append, engine_calls, h7, ho]
  | false =>
    have ho := hc2 hreg
    simp only [Bool.false_eq_true, if_false]
    cases hf : s.fds with
    | none =>
      cases hm : s.mounted with
      | true =>
        refine ⟨_, rfl, ?_⟩
        simp [hm, hreg, hf, State.emit, engine_calls_append, engine_calls, ho]
      | false =>
        refine ⟨_, rfl, ?_⟩
        simp [hm, hreg, hf, State.emit, engine_calls_append, engine_calls, ho]
    | some t =>
      cases hm : s.mounted with
      | true =>
        refine ⟨_, rfl, ?_⟩
        simp [hm, hreg, State.emit, engine_calls_append, engine_calls, ho]
      | false =>
        refine ⟨_, rfl, ?_⟩
        simp [hm, hreg, State.emit, engine_calls_append, engine_calls, ho]

/-! ## Facts about the life of an object -/

theorem open_handles_replicate (s : State) (n : Nat)
    (h : s.fds = some (List.replicate n vfs_fd_t.empty)) : open_handles s = [] := by
  unfold open_handles
  rw [h]
  simp only
  rw [List.filterMap_eq_nil_iff]
  intro e he
  rw [(List.mem_replicate.mp he).2]
  rfl

theorem consistent_of_unregistered (s : State) (h1 : s.registered = false)
    (h2 : open_handles s = []) : s.consistent :=
  ⟨(fun h => by rw [h1] at h; cases h), fun _ => h2⟩

/-- From `mounted = true` on, `init` replaces the table; it sets `registered`
only after it has allocated the table and made every slot empty. -/
theorem init_finish_spec (K : Consts) (s : State) (env : InitEnv) (err : Int)
    (hreg : s.registered = false) :
    (init_finish K s env err).2.consistent ∧ (init_finish K s env err).2.cfg = s.cfg ∧
    ((init_finish K s env err).2.registered = true →
      (init_finish K s env err).1 = K.ESP_OK ∧ (init_finish K s env err).2.mounted = true ∧
      (init_finish K s env err).2.fds =
        some (List.replicate s.cfg.open_files vfs_fd_t.empty)) := by
  unfold init_finish
  simp only
  cases hn : env.new_fds with
  | none =>
    simp only
    refine ⟨consistent_of_unregistered _ hreg rfl, trivial, ?_⟩
    intro h
    rw [hreg] at h
    cases h
  | some mem =>
    simp only [init_slots_empty]
    split
    · refine ⟨consistent_of_unregistered _ hreg (open_handles_replicate _ s.cfg.open_files rfl),
        rfl, ?_⟩
      intro h
      simp only [emit_registered] at h
      rw [hreg] at h
      cases h
    · refine ⟨⟨fun _ => ⟨_, rfl, by simp⟩, fun h => by cases h⟩, rfl, fun _ => ?_⟩
      exact ⟨rfl, rfl, rfl⟩

/-- The two ways `init` can go on from the first `lfs_mount`: it gives up
with `ESP_FAIL`, or it reaches `mounted = true`. -/
theorem init_mount_cases (K : Consts) (s : State) (env : InitEnv) :
    (∃ tr, init_mount K s env = (K.ESP_FAIL, { s with trace := s.trace ++ tr })) ∨
    (∃ tr err, init_mount K s env =
      init_finish K { s with trace := s.trace ++ tr } env err) := by
  unfold init_mount
  simp only
  split
  · split
    · exact Or.inl ⟨[Event.engine EngineCall.lfs_mount, Event.engine EngineCall.lfs_unmount],
        by simp [State.emit]⟩
    · split
      · exact Or.inl ⟨[Event.engine EngineCall.lfs_mount, Event.engine EngineCall.lfs_unmount,
          Event.engine EngineCall.lfs_format, Event.engine EngineCall.lfs_unmount],
          by simp [State.emit]⟩
      · split
        · exact Or.inl ⟨[Event.engine EngineCall.lfs_mount, Event.engine EngineCall.lfs_unmount,
            Event.engine EngineCall.lfs_format, Event.engine EngineCall.lfs_mount,
            Event.engine EngineCall.lfs_unmount], by simp [State.emit]⟩
        · exact Or.inr ⟨[Event.engine EngineCall.lfs_mount, Event.engine EngineCall.lfs_unmount,
            Event.engine EngineCall.lfs_format, Event.engine EngineCall.lfs_mount], env.remount,
            by simp [State.emit]⟩
  · exact Or.inr ⟨[Event.engine EngineCall.lfs_mount], env.mount, by simp [State.emit]⟩

theorem init_mount_spec (K : Consts) (s : State) (env : InitEnv)
    (hreg : s.registered = false) (ho : open_handles s = []) :
    (init_mount K s env).2.consistent ∧ (init_mount K s env).2.cfg = s.cfg ∧
    ((init_mount K s env).2.registered = true →
      (init_mount K s env).1 = K.ESP_OK ∧ (init_mount K s env).2.mounted = true ∧
      (init_mount K s env).2.fds =
        some (List.replicate s.cfg.open_files vfs_fd_t.empty)) := by
  rcases init_mount_cases K s env with ⟨tr, h⟩ | ⟨tr, err, h⟩
  · rw [h]
    refine ⟨consistent_of_unregistered _ hreg (by simpa [open_handles] using ho), rfl, ?_⟩
    intro hr
    simp only at hr
    rw [hreg] at hr
    cases hr
  · rw [h]
    exact init_finish_spec K { s with trace := s.trace ++ tr } env err hreg

/-- On an object whose call surface is not registered, `init` ends in a
consistent state whatever step fails, and if it ends with `registered` set it
returns `ESP_OK` with the engine mounted and a table of `open_files` empty
slots. -/
theorem init_spec (K : Consts) (s : State) (config : little_flash_config_t) (env : InitEnv)
    (ret : Int) (s' : State) (hreg : s.registered = false) (ho : open_handles s = [])
    (h : init K s config env = some (ret, s')) :
    s'.consistent ∧ s'.cfg = config ∧
    (s'.registered = true → ret = K.ESP_OK ∧ s'.mounted = true ∧
      s'.fds = some (List.replicate config.open_files vfs_fd_t.empty)) := by
  unfold init at h
  simp only at h
  cases hfl : config.flash with
  | some fl =>
    simp only [hfl] at h
    split at h
    · cases h
    · simp only [Option.some.injEq] at h
      have hm := init_mount_spec K
        { s with cfg := config, sector_sz := fl.sector_size,
                 block_cnt := fl.chip_size / fl.sector_size,
                 trace := s.trace ++ [Event.lock_init] } env hreg
        (by simpa [open_handles] using ho)
      rw [show init_mount K
        { s with cfg := config, sector_sz := fl.sector_size,
                 block_cnt := fl.chip_size / fl.sector_size,
                 trace := s.trace ++ [Event.lock_init] } env = (ret, s') from h] at hm
      exact hm
  | none =>
    simp only [hfl] at h
    split at h
    · simp only [Option.some.injEq, Prod.mk.injEq] at h
      rw [← h.2]
      refine ⟨consistent_of_unregistered _ hreg (by simpa [open_handles] using ho), rfl, ?_⟩
      intro hr
      simp only [emit_registered] at hr
      rw [hreg] at hr
      cases hr
    · rename_i sz hsz
      split at h
      · cases h
      · simp only [Option.some.injEq] at h
        have hm := init_mount_spec K
          { s with cfg := config, sector_sz := K.SPI_FLASH_SEC_SIZE,
                   block_cnt := sz / K.SPI_FLASH_SEC_SIZE,
                   trace := s.trace ++ [Event.lock_init] } env hreg
          (by simpa [open_handles] using ho)
        rw [show init_mount K
          { s with cfg := config, sector_sz := K.SPI_FLASH_SEC_SIZE,
                   block_cnt := sz / K.SPI_FLASH_SEC_SIZE,
                   trace := s.trace ++ [Event.lock_init] } env = (ret, s') from h] at hm
        exact hm

theorem new_consistent (s0 : State) : (LittleFlash_new s0).consistent :=
  ⟨(fun h => by cases h), fun _ => rfl⟩

/-- A call of the call surface keeps the object consistent. -/
theorem op_run_consistent (K : Consts) (op : Op) (s s' : State) (h : op.run K s = some s')
    (hreg : s.registered = true) (hc : s.consistent) : s'.consistent := by
  obtain ⟨delta, ha, _⟩ := op_run_after K op s s' h
  obtain ⟨h1, _, h3, _⟩ := after_cfg s s' delta ha
  obtain ⟨t, ht, hlen⟩ := hc.1 hreg
  obtain ⟨t1, ht1, hlen1, _⟩ := (after_table s s' delta ha).2 t ht
  refine ⟨fun _ => ⟨t1, ht1, by rw [hlen1, hlen, h1]⟩, fun h => ?_⟩
  rw [h3, hreg] at h
  cases h

/-- Every state in the life of an object is consistent. -/
theorem run_steps_consistent (K : Consts) :
    ∀ (steps : List Step) (s s' : State), run_steps K steps s = some s' →
      s.consistent → s'.consistent := by
  intro steps
  induction steps with
  | nil =>
    intro s s' h hc
    simp only [run_steps, Option.some.injEq] at h
    rw [← h]
    exact hc
  | cons st steps ih =>
    intro s s' h hc
    rw [run_steps] at h
    split at h
    · cases h
    · rename_i s1 hst
      refine ih s1 s' h ?_
      cases st with
      | call op =>
        simp only [Step.run] at hst
        split at hst
        · rename_i hreg
          exact op_run_consistent K op s s1 hst hreg hc
        · cases hst
      | init config env =>
        simp only [Step.run] at hst
        split at hst
        · cases hst
        · rename_i hreg
          simp only [Option.map_eq_some'] at hst
          obtain ⟨⟨ret, s2⟩, h1, h2⟩ := hst
          simp only at h2
          subst h2
          have hreg' : s.registered = false := by simpa using hreg
          exact (init_spec K s config env ret _ hreg' (hc.2 hreg') h1).1
      | term close_res =>
        simp only [Step.run] at hst
        obtain ⟨s2, h1, h2, _, h4, _⟩ := term_spec K s close_res hc
        rw [h1] at hst
        simp only [Option.some.injEq] at hst
        subst hst
        exact consistent_of_unregistered _ h2 (by unfold open_handles; rw [h4])

/-! ## C1: the table fills up in order and then refuses -/

theorem set_at_length (occ r : List vfs_fd_t) (e new : vfs_fd_t) :
    (occ ++ e :: r).set occ.length new = occ ++ new :: r := by
  induction occ with
  | nil => rfl
  | cons a occ ih => simp [ih]

/-- Opening on a table whose first slots `occ` are bound and whose remaining
`qs.length` slots are empty binds the empty slots from left to right. -/
theorem open_seq_fill (K : Consts) :
    ∀ (qs : List OpenReq) (s : State) (occ : List vfs_fd_t),
      (∀ e ∈ occ, e.file ≠ none) →
      s.fds = some (occ ++ List.replicate qs.length vfs_fd_t.empty) →
      occ.length + qs.length = s.cfg.open_files →
      (∀ q ∈ qs, 0 ≤ q.err) →
      ∃ s' : State,
        open_seq K s qs = some ((List.range' occ.length qs.length).map Int.ofNat, s') ∧
        s'.fds = some (occ ++ qs.map (fun q => { file := some q.file, name := some q.path })) ∧
        s'.cfg = s.cfg := by
  intro qs
  induction qs with
  | nil =>
    intro s occ _ hfds _ _
    exact ⟨s, by simp [open_seq], by simpa using hfds, rfl⟩
  | cons q qs ih =>
    intro s occ hocc hfds hlen herr
    have hrep : List.replicate (q :: qs).length vfs_fd_t.empty =
        vfs_fd_t.empty :: List.replicate qs.length vfs_fd_t.empty := by
      simp [List.replicate_succ]
    rw [hrep] at hfds
    have hj : (∃ e : vfs_fd_t, (occ ++ vfs_fd_t.empty ::
          List.replicate qs.length vfs_fd_t.empty)[occ.length]? = some e ∧ e.file = none) ∧
        ∀ j' : Nat, j' < occ.length → ∀ e : vfs_fd_t, (occ ++ vfs_fd_t.empty ::
          List.replicate qs.length vfs_fd_t.empty)[j']? = some e → e.file ≠ none := by
      refine ⟨⟨vfs_fd_t.empty, ?_, rfl⟩, ?_⟩
      · rw [List.getElem?_append_right (le_refl _)]
        simp
      intro j' hj' e he
      rw [List.getElem?_append_left hj'] at he
      exact hocc e (List.getElem?_mem he)
    obtain ⟨tr, hopen, _⟩ := open_p_found K s _ occ.length q.path q.flags q.mode q.file q.err
      hfds (by simpa using hlen) hj (herr q (List.mem_cons_self _ _))
    rw [set_at_length] at hopen
    obtain ⟨s', hseq, hfds', hcfg'⟩ := ih
      { s with fds := some (occ ++ { file := some q.file, name := some q.path } ::
                  List.replicate qs.length vfs_fd_t.empty),
               trace := s.trace ++ tr }
      (occ ++ [{ file := some q.file, name := some q.path }])
      (by
        intro e he
        rcases List.mem_append.mp he with h | h
        · exact hocc e h
        · simp only [List.mem_singleton] at h
          subst h
          simp)
      (by simp)
      (by simp only [List.length_append, List.length_singleton]
          simp only [List.length_cons] at hlen
          omega)
      (fun q' hq' => herr q' (List.mem_cons_of_mem _ hq'))
    refine ⟨s', ?_, ?_, hcfg'⟩
    · simp only [open_seq, hopen]
      simp only [List.length_append, List.length_singleton] at hseq
      rw [hseq]
      simp [List.range'_succ]
    · simpa using hfds'

/-- C1 (amended): on a table of `N` empty slots (the table of a freshly
mounted volume of capacity `N`), `N` successive `open_p` calls whose
allocations succeed and whose engine open succeeds all succeed; they return
the descriptors `0, 1, ..., N - 1`, which are pairwise distinct and lie in
`[0, N)`. One further `open_p` whose allocations succeed then returns -1 with
`errno = ENFILE`, makes no engine call and leaves the table unchanged. -/
theorem open_until_full (K : Consts) (N : Nat) (s : State) (qs : List OpenReq)
    (hfds : s.fds = some (List.replicate N vfs_fd_t.empty)) (hcfg : s.cfg.open_files = N)
    (hlen : qs.length = N) (herr : ∀ q ∈ qs, 0 ≤ q.err) :
    ∃ (rs : List Int) (s' : State),
      open_seq K s qs = some (rs, s') ∧
      rs = (List.range N).map Int.ofNat ∧
      rs.length = N ∧ rs.Nodup ∧ (∀ r ∈ rs, 0 ≤ r ∧ r < (N : Int)) ∧
      ∀ (path : String) (flags : Nat) (mode : Int) (f : Ptr) (err : Int),
        ∃ s'' : State,
          open_p K s' path flags mode (some f) true err = some (-1, s'') ∧
          s''.errno = K.ENFILE ∧ s''.fds = s'.fds ∧
          engine_calls s''.trace = engine_calls s'.trace := by
  subst hlen
  obtain ⟨s', hseq, hfds', hcfg'⟩ := open_seq_fill K qs s [] (by simp) (by simpa using hfds)
    (by simpa using hcfg.symm) herr
  simp only [List.length_nil, List.nil_append] at hseq hfds'
  refine ⟨_, s', hseq, ?_, by simp, ?_, ?_, ?_⟩
  · rw [List.range_eq_range']
  · exact (List.nodup_range' 0 qs.length).map (fun a b h => by simpa using h)
  · intro r hr
    simp only [List.mem_map, List.mem_range'_1] at hr
    obtain ⟨i, ⟨_, hi⟩, rfl⟩ := hr
    simp only [Int.ofNat_eq_coe]
    omega
  · intro path flags mode f err
    have hfull : table_full (qs.map (fun q => ({ file := some q.file, name := some q.path } :
        vfs_fd_t))) := by
      intro e he
      simp only [List.mem_map] at he
      obtain ⟨q, _, rfl⟩ := he
      simp
    obtain ⟨tr, hopen, htr⟩ := open_p_full K s' _ path flags mode f err hfds'
      (by rw [hcfg', hcfg]; simp) hfull
    exact ⟨_, hopen, rfl, rfl, by simp [engine_calls_append, htr]⟩

/-- C1 as stated fails when the heap is exhausted: after two successful opens
on a fresh table of capacity 2 the table is full, and a further `open_p`
whose `malloc` returns `NULL` returns -1 with `errno = ENOMEM`, not `ENFILE`,
because the allocations come before the search for a free slot. -/
theorem open_on_full_table_without_memory :
    ∃ (s' s'' : State),
      open_seq esp32 sample_fresh
        [{ path := "/f0", flags := 0, mode := 0, file := 10, err := 0 },
         { path := "/f1", flags := 0, mode := 0, file := 11, err := 0 }] = some ([0, 1], s') ∧
      s'.fds = some [{ file := some 10, name := some "/f0" },
                     { file := some 11, name := some "/f1" }] ∧
      open_p esp32 s' "/f2" 0 0 none true 0 = some (-1, s'') ∧
      s''.errno = esp32.ENOMEM ∧ s''.errno ≠ esp32.ENFILE :=
  ⟨_, _, rfl, rfl, rfl, rfl, by decide⟩

/-- Witness of C1 with `N = 2`. -/
theorem open_until_full_witness :
    ∃ (rs : List Int) (s' : State),
      open_seq esp32 sample_fresh
        [{ path := "/f0", flags := 0, mode := 0, file := 10, err := 0 },
         { path := "/f1", flags := 0, mode := 0, file := 11, err := 0 }] = some (rs, s') ∧
      rs = (List.range 2).map Int.ofNat ∧
      rs.length = 2 ∧ rs.Nodup ∧ (∀ r ∈ rs, 0 ≤ r ∧ r < ((2 : Nat) : Int)) ∧
      ∀ (path : String) (flags : Nat) (mode : Int) (f : Ptr) (err : Int),
        ∃ s'' : State,
          open_p esp32 s' path flags mode (some f) true err = some (-1, s'') ∧
          s''.errno = esp32.ENFILE ∧ s''.fds = s'.fds ∧
          engine_calls s''.trace = engine_calls s'.trace :=
  open_until_full esp32 2 sample_fresh
    [{ path := "/f0", flags := 0, mode := 0, file := 10, err := 0 },
     { path := "/f1", flags := 0, mode := 0, file := 11, err := 0 }] rfl rfl rfl (by decide)

/-! ## C2: closing one descriptor frees exactly one slot -/

/-- C2 (amended): on a full table of capacity `N`, for every `fd` in
`[0, N)` and every engine close result, after `close_p fd` exactly the slot
`fd` is empty and the other slots are unchanged; the next `open_p`
(allocations done, the engine open succeeding) succeeds and returns that same
`fd`, and the `open_p` after that, when its allocations succeed, returns -1
with `errno = ENFILE`. -/
theorem close_frees_one_slot (K : Consts) (N : Nat) (s : State) (t : List vfs_fd_t) (fd : Int)
    (r : Int) (ht : s.fds = some t) (hlen : t.length = N) (hcfg : s.cfg.open_files = N)
    (hfull : table_full t) (h0 : 0 ≤ fd) (hN : fd < (N : Int)) :
    ∃ (ret : Int) (s1 : State) (t1 : List vfs_fd_t),
      close_p K s fd r = some (ret, s1) ∧ s1.fds = some t1 ∧ t1.length = N ∧
      (∀ (j : Nat) (e : vfs_fd_t), t1[j]? = some e → (e.file = none ↔ j = fd.toNat)) ∧
      t1[fd.toNat]? = some { file := none, name := none } ∧
      (∀ j : Nat, j ≠ fd.toNat → t1[j]? = t[j]?) ∧
      ∀ (path : String) (flags : Nat) (mode : Int) (f : Ptr) (err : Int), 0 ≤ err →
        ∃ s2 : State,
          open_p K s1 path flags mode (some f) true err = some (fd, s2) ∧
          ∀ (path2 : String) (flags2 : Nat) (mode2 : Int) (f2 : Ptr) (err2 : Int),
            ∃ s3 : State,
              open_p K s2 path2 flags2 mode2 (some f2) true err2 = some (-1, s3) ∧
              s3.errno = K.ENFILE ∧ s3.fds = s2.fds := by
  obtain ⟨i, rfl⟩ := Int.eq_ofNat_of_zero_le h0
  have hi : i < t.length := by omega
  simp only [Int.toNat_ofNat]
  obtain ⟨e, he⟩ : ∃ e, t[i]? = some e := ⟨t[i], by simp [hi]⟩
  obtain ⟨f0, hf0⟩ : ∃ f0, e.file = some f0 :=
    Option.ne_none_iff_exists'.mp (hfull e (List.getElem?_mem he))
  have hclose := close_p_bound K s t (i : Int) e f0 r ht h0 (by simpa using he) hf0
  simp only [Int.toNat_ofNat] at hclose
  have hslot : (t.set i vfs_fd_t.empty)[i]? = some { file := none, name := none } := by
    simp [hi, vfs_fd_t.empty]
  have hrest : ∀ j, j ≠ i → (t.set i vfs_fd_t.empty)[j]? = t[j]? := by
    intro j hj
    simp [List.getElem?_set_ne (Ne.symm hj)]
  have hexact : ∀ (j : Nat) (e : vfs_fd_t), (t.set i vfs_fd_t.empty)[j]? = some e →
      (e.file = none ↔ j = i) := by
    intro j e' he'
    by_cases hj : j = i
    · subst hj
      rw [hslot] at he'
      cases he'
      simp
    · rw [hrest j hj] at he'
      simp [hj, hfull e' (List.getElem?_mem he')]
  obtain ⟨ret, s1, hm⟩ : ∃ ret s1, map_lfs_error K r
      { s with fds := some (t.set i vfs_fd_t.empty),
               trace := s.trace ++ [Event.lock_acquire, Event.fds_access i,
                 Event.engine (EngineCall.lfs_file_close f0), Event.fds_access i,
                 Event.lock_release] } = (ret, s1) := ⟨_, _, rfl⟩
  have hfds1 : s1.fds = some (t.set i vfs_fd_t.empty) := by
    have h := map_lfs_error_fds K r
      { s with fds := some (t.set i vfs_fd_t.empty),
               trace := s.trace ++ [Event.lock_acquire, Event.fds_access i,
                 Event.engine (EngineCall.lfs_file_close f0), Event.fds_access i,
                 Event.lock_release] }
    rw [hm] at h
    exact h
  have hcfg1 : s1.cfg = s.cfg := by
    have h := map_lfs_error_cfg K r
      { s with fds := some (t.set i vfs_fd_t.empty),
               trace := s.trace ++ [Event.lock_acquire, Event.fds_access i,
                 Event.engine (EngineCall.lfs_file_close f0), Event.fds_access i,
                 Event.lock_release] }
    rw [hm] at h
    exact h
  rw [hm] at hclose
  refine ⟨ret, s1, t.set i vfs_fd_t.empty, hclose, hfds1, by simp [hlen], hexact, hslot,
    hrest, ?_⟩
  intro path flags mode f err herr
  have hj : (∃ e : vfs_fd_t, (t.set i vfs_fd_t.empty)[i]? = some e ∧ e.file = none) ∧
      ∀ j' : Nat, j' < i → ∀ e : vfs_fd_t, (t.set i vfs_fd_t.empty)[j']? = some e →
        e.file ≠ none := by
    refine ⟨⟨_, hslot, rfl⟩, ?_⟩
    intro j' hj' e' he'
    rw [hrest j' (by omega)] at he'
    exact hfull e' (List.getElem?_mem he')
  obtain ⟨tr, hopen, _⟩ := open_p_found K s1 (t.set i vfs_fd_t.empty) i
    path flags mode f err hfds1 (by simp [hlen, hcfg, hcfg1]) hj herr
  refine ⟨_, hopen, ?_⟩
  intro path2 flags2 mode2 f2 err2
  have hfull2 : table_full ((t.set i vfs_fd_t.empty).set i
      { file := some f, name := some path }) := by
    intro e' he'
    obtain ⟨j, hj⟩ := List.mem_iff_getElem?.mp he'
    by_cases hji : j = i
    · subst hji
      simp [hi] at hj
      subst hj
      simp
    · rw [List.getElem?_set_ne (Ne.symm hji), hrest j hji] at hj
      exact hfull e' (List.getElem?_mem hj)
  obtain ⟨tr2, hopen2, _⟩ := open_p_full K
    { s1 with fds := some ((t.set i vfs_fd_t.empty).set i { file := some f, name := some path }),
              trace := s1.trace ++ tr }
    _ path2 flags2 mode2 f2 err2 rfl (by simp [hlen, hcfg, hcfg1]) hfull2
  exact ⟨_, hopen2, rfl, rfl⟩

/-- C2 as stated fails when the heap is exhausted: on a full table of
capacity 2, after `close_p 0` and an `open_p` that returns 0 again, a further
`open_p` whose `strdup` returns `NULL` returns -1 with `errno = ENOMEM`, not
`ENFILE`. -/
theorem reopen_then_open_without_memory :
    ∃ (s1 s2 s3 : State),
      close_p esp32 sample_full 0 0 = some (0, s1) ∧
      open_p esp32 s1 "/c" 0 0 (some 3) true 0 = some (0, s2) ∧
      s2.fds = some [{ file := some 3, name := some "/c" },
                     { file := some 2, name := some "/b" }] ∧
      open_p esp32 s2 "/d" 0 0 (some 4) false 0 = some (-1, s3) ∧
      s3.errno = esp32.ENOMEM ∧ s3.errno ≠ esp32.ENFILE :=
  ⟨_, _, _, rfl, rfl, rfl, rfl, rfl, by decide⟩

/-- Witness of C2: closing descriptor 0 of a full table of two. -/
theorem close_frees_one_slot_witness :
    ∃ (ret : Int) (s1 : State) (t1 : List vfs_fd_t),
      close_p esp32 sample_full 0 0 = some (ret, s1) ∧ s1.fds = some t1 ∧ t1.length = 2 ∧
      (∀ (j : Nat) (e : vfs_fd_t), t1[j]? = some e → (e.file = none ↔ j = (0 : Int).toNat)) ∧
      t1[(0 : Int).toNat]? = some { file := none, name := none } ∧
      (∀ j : Nat, j ≠ (0 : Int).toNat →
        t1[j]? = [({ file := some 1, name := some "/a" } : vfs_fd_t),
                  { file := some 2, name := some "/b" }][j]?) ∧
      ∀ (path : String) (flags : Nat) (mode : Int) (f : Ptr) (err : Int), 0 ≤ err →
        ∃ s2 : State,
          open_p esp32 s1 path flags mode (some f) true err = some (0, s2) ∧
          ∀ (path2 : String) (flags2 : Nat) (mode2 : Int) (f2 : Ptr) (err2 : Int),
            ∃ s3 : State,
              open_p esp32 s2 path2 flags2 mode2 (some f2) true err2 = some (-1, s3) ∧
              s3.errno = esp32.ENFILE ∧ s3.fds = s2.fds :=
  close_frees_one_slot esp32 2 sample_full
    [{ file := some 1, name := some "/a" }, { file := some 2, name := some "/b" }] 0 0
    rfl rfl rfl (by decide) (by decide) (by decide)

/-! ## C3: registration failure after a successful mount -/

/-- When the mount succeeded and the table is allocated but
`esp_vfs_register` fails, `init` returns its local `err`, the result of the
last `lfs_mount`, and leaves `registered = false`, `mounted = true` and the
table of empty slots in place. -/
theorem init_register_failure (K : Consts) (s : State) (config : little_flash_config_t)
    (env : InitEnv) (mem : Nat → vfs_fd_t) (hreach : reaches_mount K config env)
    (hmount : 0 ≤ env.mount) (hnew : env.new_fds = some mem) (hreg : env.register ≠ K.ESP_OK) :
    ∃ s' : State,
      init K (LittleFlash_new s) config env = some (env.mount, s') ∧
      s'.registered = false ∧ s'.mounted = true ∧
      s'.fds = some (List.replicate config.open_files vfs_fd_t.empty) := by
  obtain ⟨sz, cnt, hinit⟩ := init_reaches_mount K (LittleFlash_new s) config env hreach
  rw [hinit]
  unfold init_mount init_finish
  simp only [not_lt.mpr hmount, if_false, hnew, emit_cfg, ne_eq, hreg, not_false_eq_true,
    if_true]
  exact ⟨_, rfl, rfl, rfl, by simp [init_slots_empty]⟩

/-- C3 (the code at the failing input): on the ESP32 constants, with the
engine mounting at once (`lfs_mount` returns `LFS_ERR_OK = 0`), the table
allocated and `esp_vfs_register` returning `ESP_ERR_NO_MEM`, `init` returns
0, which is `ESP_OK`, although `registered` stays false; `mounted` is true
and the table of four empty slots is allocated. -/
theorem init_register_failure_returns_ok :
    ∃ s' : State,
      init esp32 (LittleFlash_new sample_storage) sample_config sample_register_fails =
        some (esp32.ESP_OK, s') ∧
      sample_register_fails.register ≠ esp32.ESP_OK ∧
      s'.registered = false ∧ s'.mounted = true ∧
      s'.fds = some (List.replicate 4 vfs_fd_t.empty) :=
  ⟨{ cfg := sample_config, mounted := true, registered := false, sector_sz := 4096,
     block_cnt := 1024, fds := some (List.replicate 4 vfs_fd_t.empty), errno := 0,
     trace := [Event.lock_init, Event.engine EngineCall.lfs_mount,
       Event.vfs_register "/littleflash"] },
   by decide, by decide, rfl, rfl, rfl⟩

/-! ## C4: the error table -/

/-- C4: `map_lfs_error` is the fixed table. It returns 0 and leaves `errno`
(and everything else) untouched iff the code is `LFS_ERR_OK`; for every other
code it returns -1 and changes only `errno`, to `EIO` for `LFS_ERR_IO` and
`LFS_ERR_CORRUPT`, `ENOENT` for `NOENT`, `EEXIST` for `EXIST`, `ENOTDIR` for
`NOTDIR`, `EISDIR` for `ISDIR`, `ENOTEMPTY` for `NOTEMPTY`, `EINVAL` for
`INVAL`, `ENOSPC` for `NOSPC`, `ENOMEM` for `NOMEM`, and `EINVAL` for every
code that is none of these. -/
theorem map_lfs_error_table (K : Consts) (hK : K.lfs_err_distinct) (err : Int) (s : State) :
    ((map_lfs_error K err s).1 = 0 ↔ err = K.LFS_ERR_OK) ∧
    (err = K.LFS_ERR_OK → map_lfs_error K err s = (0, s)) ∧
    (err ≠ K.LFS_ERR_OK → (map_lfs_error K err s).1 = -1) ∧
    (err = K.LFS_ERR_IO → map_lfs_error K err s = (-1, { s with errno := K.EIO })) ∧
    (err = K.LFS_ERR_CORRUPT → map_lfs_error K err s = (-1, { s with errno := K.EIO })) ∧
    (err = K.LFS_ERR_NOENT → map_lfs_error K err s = (-1, { s with errno := K.ENOENT })) ∧
    (err = K.LFS_ERR_EXIST → map_lfs_error K err s = (-1, { s with errno := K.EEXIST })) ∧
    (err = K.LFS_ERR_NOTDIR → map_lfs_error K err s = (-1, { s with errno := K.ENOTDIR })) ∧
    (err = K.LFS_ERR_ISDIR → map_lfs_error K err s = (-1, { s with errno := K.EISDIR })) ∧
    (err = K.LFS_ERR_NOTEMPTY →
      map_lfs_error K err s = (-1, { s with errno := K.ENOTEMPTY })) ∧
    (err = K.LFS_ERR_INVAL → map_lfs_error K err s = (-1, { s with errno := K.EINVAL })) ∧
    (err = K.LFS_ERR_NOSPC → map_lfs_error K err s = (-1, { s with errno := K.ENOSPC })) ∧
    (err = K.LFS_ERR_NOMEM → map_lfs_error K err s = (-1, { s with errno := K.ENOMEM })) ∧
    (err ∉ [K.LFS_ERR_OK, K.LFS_ERR_IO, K.LFS_ERR_CORRUPT, K.LFS_ERR_NOENT, K.LFS_ERR_EXIST,
        K.LFS_ERR_NOTDIR, K.LFS_ERR_ISDIR, K.LFS_ERR_NOTEMPTY, K.LFS_ERR_INVAL,
        K.LFS_ERR_NOSPC, K.LFS_ERR_NOMEM] →
      map_lfs_error K err s = (-1, { s with errno := K.EINVAL })) := by
  unfold Consts.lfs_err_distinct at hK
  simp only [List.nodup_cons, List.mem_cons, List.mem_singleton, not_or, List.not_mem_nil,
    not_false_eq_true, List.nodup_nil, and_true] at hK
  obtain ⟨⟨a1, a2, a3, a4, a5, a6, a7, a8, a9, a10⟩, ⟨b2, b3, b4, b5, b6, b7, b8, b9, b10⟩,
    ⟨c3, c4, c5, c6, c7, c8, c9, c10⟩, ⟨d4, d5, d6, d7, d8, d9, d10⟩, ⟨e5, e6, e7, e8, e9, e10⟩,
    ⟨f6, f7, f8, f9, f10⟩, ⟨g7, g8, g9, g10⟩, ⟨h8, h9, h10⟩, ⟨i9, i10⟩, j10⟩ := hK
  refine ⟨⟨fun h => ?_, fun h => ?_⟩, fun h => ?_, fun h => map_lfs_error_ret K err s h,
    fun h => ?_, fun h => ?_, fun h => ?_, fun h => ?_, fun h => ?_, fun h => ?_, fun h => ?_,
    fun h => ?_, fun h => ?_, fun h => ?_, fun h => ?_⟩
  · by_contra hne
    rw [map_lfs_error_ret K err s hne] at h
    exact absurd h (by decide)
  · subst h; simp [map_lfs_error]
  · subst h; simp [map_lfs_error]
  · subst h; simp [map_lfs_error, Ne.symm a1]
  · subst h; simp [map_lfs_error, Ne.symm a2, Ne.symm b2]
  · subst h; simp [map_lfs_error, Ne.symm a3, Ne.symm b3, Ne.symm c3]
  · subst h; simp [map_lfs_error, Ne.symm a4, Ne.symm b4, Ne.symm c4, Ne.symm d4]
  · subst h; simp [map_lfs_error, Ne.symm a5, Ne.symm b5, Ne.symm c5, Ne.symm d5, Ne.symm e5]
  · subst h
    simp [map_lfs_error, Ne.symm a6, Ne.symm b6, Ne.symm c6, Ne.symm d6, Ne.symm e6, Ne.symm f6]
  · subst h
    simp [map_lfs_error, Ne.symm a7, Ne.symm b7, Ne.symm c7, Ne.symm d7, Ne.symm e7, Ne.symm f7,
      Ne.symm g7]
  · subst h
    simp [map_lfs_error, Ne.symm a8, Ne.symm b8, Ne.symm c8, Ne.symm d8, Ne.symm e8, Ne.symm f8,
      Ne.symm g8, Ne.symm h8]
  · subst h
    simp [map_lfs_error, Ne.symm a9, Ne.symm b9, Ne.symm c9, Ne.symm d9, Ne.symm e9, Ne.symm f9,
      Ne.symm g9, Ne.symm h9, Ne.symm i9]
  · subst h
    simp [map_lfs_error, Ne.symm a10, Ne.symm b10, Ne.symm c10, Ne.symm d10, Ne.symm e10,
      Ne.symm f10, Ne.symm g10, Ne.symm h10, Ne.symm i10, Ne.symm j10]
  · simp only [List.mem_cons, List.mem_singleton, not_or, List.not_mem_nil,
      not_false_eq_true, and_true] at h
    obtain ⟨n0, n1, n2, n3, n4, n5, n6, n7, n8, n9, n10⟩ := h
    simp [map_lfs_error, n0, n1, n2, n3, n4, n5, n6, n7, n8, n9, n10]

/-- Witness of C4 on the ESP32 constants, at the corruption code. -/
theorem map_lfs_error_table_witness :
    esp32.lfs_err_distinct ∧
    map_lfs_error esp32 (-52)
        { cfg := ⟨none, "", "/littleflash", 4, true, 32⟩, mounted := true, registered := true,
          sector_sz := 4096, block_cnt := 16, fds := none, errno := 0, trace := [] } =
      (-1, { cfg := ⟨none, "", "/littleflash", 4, true, 32⟩, mounted := true, registered := true,
             sector_sz := 4096, block_cnt := 16, fds := none, errno := 5, trace := [] }) :=
  ⟨by decide, (map_lfs_error_table esp32 (by decide) (-52) _).2.2.2.2.1 rfl⟩

/-! ## C5: `close` always releases the slot -/

/-- C5: for every open slot `fd` and every engine close result `r`,
`close_p` calls the engine close once on the slot's handle, resets the slot
to empty (handle and retained path both `NULL`), leaves every other slot
unchanged, and returns the translation of `r`: 0 when `r` is `LFS_ERR_OK`
(with `errno` untouched), otherwise -1 with the mapped `errno`. The slot is
released whatever `r` is. -/
theorem close_p_releases_slot (K : Consts) (s : State) (t : List vfs_fd_t) (fd : Int)
    (e : vfs_fd_t) (f : Ptr) (r : Int)
    (ht : s.fds = some t) (h0 : 0 ≤ fd) (he : t[fd.toNat]? = some e) (hf : e.file = some f) :
    ∃ (ret : Int) (s' : State) (t' : List vfs_fd_t),
      close_p K s fd r = some (ret, s') ∧
      s'.fds = some t' ∧ t'.length = t.length ∧
      t'[fd.toNat]? = some { file := none, name := none } ∧
      (∀ j, j ≠ fd.toNat → t'[j]? = t[j]?) ∧
      (ret, s'.errno) = ((map_lfs_error K r s).1, (map_lfs_error K r s).2.errno) ∧
      (r = K.LFS_ERR_OK → ret = 0 ∧ s'.errno = s.errno) ∧
      (r ≠ K.LFS_ERR_OK → ret = -1) ∧
      engine_calls s'.trace = engine_calls s.trace ++ [EngineCall.lfs_file_close f] := by
  have hlt : fd.toNat < t.length := by
    by_contra hge
    rw [List.getElem?_eq_none (by omega)] at he
    cases he
  have hclose := close_p_bound K s t fd e f r ht h0 he hf
  have hslot : (t.set fd.toNat vfs_fd_t.empty)[fd.toNat]? =
      some { file := none, name := none } := by
    simp [hlt, vfs_fd_t.empty]
  have hrest : ∀ j, j ≠ fd.toNat → (t.set fd.toNat vfs_fd_t.empty)[j]? = t[j]? := by
    intro j hj
    simp [List.getElem?_set_ne (Ne.symm hj)]
  by_cases hr : r = K.LFS_ERR_OK
  · subst hr
    rw [map_lfs_error_ok] at hclose
    refine ⟨0, _, t.set fd.toNat vfs_fd_t.empty, hclose, rfl, by simp, hslot, hrest, ?_,
      fun _ => ⟨rfl, rfl⟩, fun h => absurd rfl h, ?_⟩
    · rw [map_lfs_error_ok]
    · simp [engine_calls_append]
  · rw [map_lfs_error_ne K r _ hr] at hclose
    refine ⟨-1, _, t.set fd.toNat vfs_fd_t.empty, hclose, rfl, by simp, hslot, hrest, ?_,
      fun h => absurd h hr, fun _ => rfl, ?_⟩
    · rw [map_lfs_error_ne K r _ hr]
    · simp [engine_calls_append]

/-- Witness of C5: closing slot 0 of a table of two while the engine close
fails with `LFS_ERR_IO`. -/
theorem close_p_releases_slot_witness :
    ∃ (ret : Int) (s' : State) (t' : List vfs_fd_t),
      close_p esp32 sample_half 0 (-5) = some (ret, s') ∧
      s'.fds = some t' ∧ t'.length = 2 ∧
      t'[(0 : Int).toNat]? = some { file := none, name := none } ∧
      (∀ j, j ≠ (0 : Int).toNat →
        t'[j]? = [({ file := some 1, name := some "/a" } : vfs_fd_t),
                  { file := none, name := none }][j]?) ∧
      (ret, s'.errno) = ((map_lfs_error esp32 (-5) sample_half).1,
        (map_lfs_error esp32 (-5) sample_half).2.errno) ∧
      ((-5 : Int) = esp32.LFS_ERR_OK → ret = 0 ∧ s'.errno = sample_half.errno) ∧
      ((-5 : Int) ≠ esp32.LFS_ERR_OK → ret = -1) ∧
      engine_calls s'.trace = engine_calls sample_half.trace ++ [EngineCall.lfs_file_close 1] :=
  close_p_releases_slot esp32 sample_half
    [{ file := some 1, name := some "/a" }, { file := none, name := none }] 0
    { file := some 1, name := some "/a" } 1 (-5) rfl (by decide) rfl rfl

/-! ## C6: operations on an empty slot -/

/-- The state every descriptor operation leaves when it finds the slot
`fd` empty: `errno` is `EBADF`, the trace has the lock taken, the slot read,
and the lock released, and nothing else is changed. -/
theorem ebadf_state (K : Consts) (s : State) (i : Nat) :
    ({ ((s.emit Event.lock_acquire).emit (Event.fds_access i)).emit Event.lock_release with
        errno := K.EBADF } : State) =
      { s with errno := K.EBADF,
               trace := s.trace ++ [Event.lock_acquire, Event.fds_access i, Event.lock_release] } := by
  simp [State.emit]

/-- C6: for every descriptor `fd` inside the table whose slot is empty, each
of `close_p`, `read_p`, `write_p`, `fstat_p`, `fsync_p`, and `lseek_p` with a
valid whence, returns -1 with `errno = EBADF`, makes no engine call, and
leaves the file-handle table unchanged (`fstat_p` also leaves `*st`
unwritten), whatever the engine would have answered. -/
theorem empty_slot_is_ebadf (K : Consts) (s : State) (t : List vfs_fd_t) (fd : Int)
    (e : vfs_fd_t) (ht : s.fds = some t) (h0 : 0 ≤ fd) (he : t[fd.toNat]? = some e)
    (hf : e.file = none) :
    ∃ s' : State,
      s'.errno = K.EBADF ∧ s'.fds = s.fds ∧ engine_calls s'.trace = engine_calls s.trace ∧
      (∀ err, close_p K s fd err = some (-1, s')) ∧
      (∀ size res, read_p K s fd size res = some (-1, s')) ∧
      (∀ size res, write_p K s fd size res = some (-1, s')) ∧
      (∀ err info, fstat_p K s fd err info = some (-1, none, s')) ∧
      (∀ err, fsync_p K s fd err = some (-1, s')) ∧
      (∀ off mode seek_res tell_res,
        mode = K.SEEK_SET ∨ mode = K.SEEK_CUR ∨ mode = K.SEEK_END →
        lseek_p K s fd off mode seek_res tell_res = some (-1, s')) := by
  have hget := fds_get_int (s.emit Event.lock_acquire) t fd e (by simpa using ht) h0 he
  refine ⟨{ s with errno := K.EBADF,
                   trace := s.trace ++ [Event.lock_acquire, Event.fds_access fd.toNat,
                     Event.lock_release] }, rfl, rfl, ?_, ?_, ?_, ?_, ?_, ?_, ?_⟩
  · simp [engine_calls_append]
  · intro err
    unfold close_p
    rw [hget]
    simp only [hf, ebadf_state]
  · intro size res
    unfold read_p
    rw [hget]
    simp only [hf, ebadf_state]
  · intro size res
    unfold write_p
    rw [hget]
    simp only [hf, ebadf_state]
  · intro err info
    unfold fstat_p
    rw [hget]
    simp only [hf, ebadf_state]
  · intro err
    unfold fsync_p
    rw [hget]
    simp only [hf, ebadf_state]
  · intro off mode seek_res tell_res hmode
    obtain ⟨m, hm⟩ : ∃ m, (if mode = K.SEEK_SET then some K.LFS_SEEK_SET
        else if mode = K.SEEK_CUR then some K.LFS_SEEK_CUR
        else if mode = K.SEEK_END then some K.LFS_SEEK_END
        else none : Option Int) = some m := by
      by_cases a : mode = K.SEEK_SET
      · exact ⟨_, by rw [if_pos a]⟩
      by_cases b : mode = K.SEEK_CUR
      · exact ⟨_, by rw [if_neg a, if_pos b]⟩
      by_cases c : mode = K.SEEK_END
      · exact ⟨_, by rw [if_neg a, if_neg b, if_pos c]⟩
      exfalso
      tauto
    unfold lseek_p
    simp only [hm]
    rw [hget]
    simp only [hf, ebadf_state]

/-- Witness of C6: slot 1 of a table of two is empty. -/
theorem empty_slot_is_ebadf_witness :
    ∃ s' : State,
      s'.errno = esp32.EBADF ∧ s'.fds = sample_half.fds ∧
      engine_calls s'.trace = engine_calls sample_half.trace ∧
      (∀ err, close_p esp32 sample_half 1 err = some (-1, s')) ∧
      (∀ size res, read_p esp32 sample_half 1 size res = some (-1, s')) ∧
      (∀ size res, write_p esp32 sample_half 1 size res = some (-1, s')) ∧
      (∀ err info, fstat_p esp32 sample_half 1 err info = some (-1, none, s')) ∧
      (∀ err, fsync_p esp32 sample_half 1 err = some (-1, s')) ∧
      (∀ off mode seek_res tell_res,
        mode = esp32.SEEK_SET ∨ mode = esp32.SEEK_CUR ∨ mode = esp32.SEEK_END →
        lseek_p esp32 sample_half 1 off mode seek_res tell_res = some (-1, s')) :=
  empty_slot_is_ebadf esp32 sample_half
    [{ file := some 1, name := some "/a" }, { file := none, name := none }] 1
    { file := none, name := none } rfl (by decide) rfl rfl

/-! ## C7: `open` is atomic on failure -/

/-- C7: whenever `open_p` returns -1, for whatever reason (no memory, table
full, or the engine open returning a negative code), the file-handle table
after the call equals the table before it. In the engine-failure case (both
allocations done, a free slot in the table, the engine open returning the
negative code `err`) `open_p` does return -1, the table is as before, `errno`
is the translation of `err`, and the engine was called once. -/
theorem open_p_atomic_on_failure (K : Consts) (s : State) (t : List vfs_fd_t)
    (path : String) (flags : Nat) (mode : Int) (file : Option Ptr) (name_ok : Bool)
    (err : Int) :
    (∀ s', open_p K s path flags mode file name_ok err = some (-1, s') → s'.fds = s.fds) ∧
    (K.lfs_ok_zero → s.fds = some t → t.length = s.cfg.open_files → ¬ table_full t →
      ∀ f, file = some f → name_ok = true → err < 0 →
        ∃ s', open_p K s path flags mode file name_ok err = some (-1, s') ∧
          s'.fds = s.fds ∧ s'.errno = (map_lfs_error K err s).2.errno ∧
          engine_calls s'.trace = engine_calls s.trace ++
            [EngineCall.lfs_file_open f path (open_p_lfs_flags K flags)]) := by
  constructor
  · intro s' h
    unfold open_p at h
    simp only at h
    split at h
    · simp only [Option.some.injEq, Prod.mk.injEq, true_and] at h
      rw [← h]
    · split at h
      · simp only [Option.some.injEq, Prod.mk.injEq, true_and] at h
        rw [← h]
      · split at h
        · cases h
        · rename_i fd s1 hget
          obtain ⟨hfds, hfd⟩ := get_free_fd_loop_frame _ _ _ _ _ hget
          split at h
          · simp only [Option.some.injEq, Prod.mk.injEq, true_and] at h
            rw [← h]
            simpa using hfds
          · split at h
            · simp only [Option.some.injEq] at h
              have h2 := congrArg (fun x => x.2.fds) h
              simp only [map_lfs_error_fds, emit_fds] at h2
              rw [← h2, hfds]
              rfl
            · split at h
              · cases h
              · simp only [Option.some.injEq, Prod.mk.injEq] at h
                omega
  · intro hK ht hlen hnf f hf hn herr
    subst hf hn
    obtain ⟨j, hj⟩ := exists_lowest_free t hnf
    obtain ⟨tr, hopen, htr⟩ := open_p_engine_failure K s t j path flags mode f err ht hlen hj herr
    have hne : err ≠ K.LFS_ERR_OK := by
      unfold Consts.lfs_ok_zero at hK
      omega
    rw [map_lfs_error_ne K err _ hne] at hopen
    refine ⟨_, hopen, rfl, ?_, ?_⟩
    · rw [map_lfs_error_ne K err _ hne]
    · simp [engine_calls_append, htr]

/-- Witness of C7: on a table with one free slot the engine refuses with
`LFS_ERR_NOENT`; `open_p` returns -1 with `ENOENT` and the table is as before. -/
theorem open_p_atomic_on_failure_witness :
    (open_p esp32 sample_half "/b" 0 0 (some 7) true (-2) =
        some (-1, { sample_half with
          errno := 2,
          trace := [Event.lock_acquire, Event.fds_access 0, Event.fds_access 1,
            Event.engine (EngineCall.lfs_file_open 7 "/b" 1), Event.lock_release] }) ∧
      ({ sample_half with
          errno := 2,
          trace := [Event.lock_acquire, Event.fds_access 0, Event.fds_access 1,
            Event.engine (EngineCall.lfs_file_open 7 "/b" 1), Event.lock_release] } : State).fds =
        sample_half.fds) ∧
    ∃ s', open_p esp32 sample_half "/b" 0 0 (some 7) true (-2) = some (-1, s') ∧
      s'.fds = sample_half.fds ∧
      s'.errno = (map_lfs_error esp32 (-2) sample_half).2.errno ∧
      engine_calls s'.trace = engine_calls sample_half.trace ++
        [EngineCall.lfs_file_open 7 "/b" (open_p_lfs_flags esp32 0)] :=
  ⟨⟨by decide,
    (open_p_atomic_on_failure esp32 sample_half
      [{ file := some 1, name := some "/a" }, { file := none, name := none }]
      "/b" 0 0 (some 7) true (-2)).1 _ (by decide)⟩,
   (open_p_atomic_on_failure esp32 sample_half
      [{ file := some 1, name := some "/a" }, { file := none, name := none }]
      "/b" 0 0 (some 7) true (-2)).2 (by decide) rfl rfl (by decide) 7 rfl rfl (by decide)⟩

/-! ## C8: a failed mount without `auto_format` -/

/-- C8: when the first engine mount fails and `auto_format` is false, `init`
on a newly constructed object returns `ESP_FAIL`; the only engine calls it
made are that mount and the unmount that follows it (no format, no second
mount), and the object is left with `mounted = false`, `registered = false`
and no file-handle table. -/
theorem init_mount_fails_without_format (K : Consts) (s : State)
    (config : little_flash_config_t) (env : InitEnv)
    (hreach : reaches_mount K config env) (hauto : config.auto_format = false)
    (hmount : env.mount < 0) :
    ∃ (s' : State) (calls : List EngineCall),
      init K (LittleFlash_new s) config env = some (K.ESP_FAIL, s') ∧
      engine_calls s'.trace = engine_calls s.trace ++ calls ∧
      calls = [EngineCall.lfs_mount, EngineCall.lfs_unmount] ∧
      EngineCall.lfs_format ∉ calls ∧ calls.count EngineCall.lfs_mount = 1 ∧
      s'.mounted = false ∧ s'.registered = false ∧ s'.fds = none := by
  obtain ⟨sz, cnt, hinit⟩ := init_reaches_mount K (LittleFlash_new s) config env hreach
  rw [hinit]
  unfold init_mount
  simp only [emit_cfg, hmount, if_true, hauto, Bool.not_false]
  refine ⟨_, [EngineCall.lfs_mount, EngineCall.lfs_unmount], rfl, ?_, rfl, by decide,
    by decide, rfl, rfl, rfl⟩
  simp [State.emit, LittleFlash_new, engine_calls_append]

/-- Witness of C8: the test configuration with `auto_format` off, on an
unformatted device. -/
theorem init_mount_fails_without_format_witness :
    ∃ (s' : State) (calls : List EngineCall),
      init esp32 (LittleFlash_new sample_storage) { sample_config with auto_format := false }
        sample_unformatted = some (esp32.ESP_FAIL, s') ∧
      engine_calls s'.trace = engine_calls sample_storage.trace ++ calls ∧
      calls = [EngineCall.lfs_mount, EngineCall.lfs_unmount] ∧
      EngineCall.lfs_format ∉ calls ∧ calls.count EngineCall.lfs_mount = 1 ∧
      s'.mounted = false ∧ s'.registered = false ∧ s'.fds = none :=
  init_mount_fails_without_format esp32 sample_storage
    { sample_config with auto_format := false } sample_unformatted
    (by decide) rfl (by decide)

/-! ## C9: the format fallback -/

/-- C9: when the first engine mount fails and `auto_format` is true, `init`
on a newly constructed object formats exactly once and then, if the format
succeeded, mounts exactly once more; it never tries a second format or a
third mount. If format and re-mount succeed and the registration is made and
succeeds, `init` returns `ESP_OK` with `mounted = true`, `registered = true`
and a table of `open_files` empty slots. If the format or the re-mount
fails, `init` returns `ESP_FAIL` with `mounted = false`, and the failing call
is the last format or mount call. -/
theorem init_auto_format (K : Consts) (s : State) (config : little_flash_config_t)
    (env : InitEnv) (hreach : reaches_mount K config env) (hauto : config.auto_format = true)
    (hmount : env.mount < 0) :
    ∃ (ret : Int) (s' : State) (events : List Event) (calls : List EngineCall),
      init K (LittleFlash_new s) config env = some (ret, s') ∧
      s'.trace = s.trace ++ events ∧ engine_calls events = calls ∧
      calls = [EngineCall.lfs_mount, EngineCall.lfs_unmount, EngineCall.lfs_format] ++
        (if env.format < 0 then [EngineCall.lfs_unmount]
         else EngineCall.lfs_mount ::
          (if env.remount < 0 then [EngineCall.lfs_unmount] else [])) ∧
      calls.count EngineCall.lfs_format = 1 ∧
      calls.count EngineCall.lfs_mount = (if env.format < 0 then 1 else 2) ∧
      (0 ≤ env.format → 0 ≤ env.remount →
        Event.vfs_register config.base_path ∈ events → env.register = K.ESP_OK →
          ret = K.ESP_OK ∧ s'.mounted = true ∧ s'.registered = true ∧
          s'.fds = some (List.replicate config.open_files vfs_fd_t.empty)) ∧
      (env.format < 0 ∨ env.remount < 0 → ret = K.ESP_FAIL ∧ s'.mounted = false) := by
  obtain ⟨sz, cnt, hinit⟩ := init_reaches_mount K (LittleFlash_new s) config env hreach
  rw [hinit]
  unfold init_mount
  simp only [emit_cfg, hmount, if_true, hauto, Bool.not_true, Bool.false_eq_true, if_false]
  by_cases hfmt : env.format < 0
  · simp only [hfmt, if_true]
    refine ⟨_, _, [Event.lock_init, Event.engine EngineCall.lfs_mount,
      Event.engine EngineCall.lfs_unmount, Event.engine EngineCall.lfs_format,
      Event.engine EngineCall.lfs_unmount], _, rfl, ?_, rfl, rfl, rfl, rfl, ?_, ?_⟩
    · simp [State.emit, LittleFlash_new]
    · intro h; omega
    · intro _; exact ⟨rfl, rfl⟩
  · simp only [hfmt, if_false]
    by_cases hrem : env.remount < 0
    · simp only [hrem, if_true]
      refine ⟨_, _, [Event.lock_init, Event.engine EngineCall.lfs_mount,
        Event.engine EngineCall.lfs_unmount, Event.engine EngineCall.lfs_format,
        Event.engine EngineCall.lfs_mount, Event.engine EngineCall.lfs_unmount], _, rfl, ?_,
        rfl, rfl, rfl, rfl, ?_, ?_⟩
      · simp [State.emit, LittleFlash_new]
      · intro _ h; omega
      · intro _; exact ⟨rfl, rfl⟩
    · simp only [hrem, if_false]
      unfold init_finish
      cases hnew : env.new_fds with
      | none =>
        refine ⟨_, _, [Event.lock_init, Event.engine EngineCall.lfs_mount,
          Event.engine EngineCall.lfs_unmount, Event.engine EngineCall.lfs_format,
          Event.engine EngineCall.lfs_mount], _, rfl, ?_, rfl, rfl, rfl, rfl,
          ?_, ?_⟩
        · simp [State.emit, LittleFlash_new]
        · intro _ _ h; simp at h
        · intro h; rcases h with h | h <;> exact h.elim
      | some mem =>
        simp only [emit_cfg]
        by_cases hreg : env.register = K.ESP_OK
        · simp only [hreg, ne_eq, not_true_eq_false, if_false]
          refine ⟨_, _, [Event.lock_init, Event.engine EngineCall.lfs_mount,
            Event.engine EngineCall.lfs_unmount, Event.engine EngineCall.lfs_format,
            Event.engine EngineCall.lfs_mount, Event.vfs_register config.base_path], _, rfl,
            ?_, rfl, rfl, rfl, rfl, ?_, ?_⟩
          · simp [State.emit, LittleFlash_new]
          · intro _ _ _ _
            exact ⟨rfl, rfl, rfl, by simp [init_slots_empty]⟩
          · intro h; rcases h with h | h <;> exact h.elim
        · simp only [ne_eq, hreg, not_false_eq_true, if_true]
          refine ⟨_, _, [Event.lock_init, Event.engine EngineCall.lfs_mount,
            Event.engine EngineCall.lfs_unmount, Event.engine EngineCall.lfs_format,
            Event.engine EngineCall.lfs_mount, Event.vfs_register config.base_path], _, rfl,
            ?_, rfl, rfl, rfl, rfl, ?_, ?_⟩
          · simp [State.emit, LittleFlash_new]
          · intro _ _ _ h; exact h.elim
          · intro h; rcases h with h | h <;> exact h.elim

/-- Witness of C9: the test configuration on an unformatted device; format,
re-mount and registration succeed. -/
theorem init_auto_format_witness :
    ∃ (ret : Int) (s' : State),
      init esp32 (LittleFlash_new sample_storage) sample_config sample_unformatted =
        some (ret, s') ∧
      engine_calls s'.trace = [EngineCall.lfs_mount, EngineCall.lfs_unmount,
        EngineCall.lfs_format, EngineCall.lfs_mount] ∧
      ret = esp32.ESP_OK ∧ s'.mounted = true ∧ s'.registered = true ∧
      s'.fds = some (List.replicate sample_config.open_files vfs_fd_t.empty) := by
  obtain ⟨ret, s', events, calls, hinit, htr, hcalls, hlist, _, _, hok, _⟩ :=
    init_auto_format esp32 sample_storage sample_config sample_unformatted
      (by decide) rfl (by decide)
  have hrun : (init esp32 (LittleFlash_new sample_storage) sample_config
      sample_unformatted).map (fun r => r.2.trace) =
        some [Event.lock_init, Event.engine EngineCall.lfs_mount,
          Event.engine EngineCall.lfs_unmount, Event.engine EngineCall.lfs_format,
          Event.engine EngineCall.lfs_mount, Event.vfs_register "/littleflash"] := by
    decide
  rw [hinit] at hrun
  simp only [Option.map_some', Option.some.injEq] at hrun
  have hev : events = [Event.lock_init, Event.engine EngineCall.lfs_mount,
      Event.engine EngineCall.lfs_unmount, Event.engine EngineCall.lfs_format,
      Event.engine EngineCall.lfs_mount, Event.vfs_register "/littleflash"] := by
    rw [hrun] at htr
    simpa [sample_storage] using htr.symm
  obtain ⟨h1, h2, h3, h4⟩ := hok (by decide) (by decide) (by rw [hev]; decide) rfl
  refine ⟨ret, s', hinit, ?_, h1, h2, h3, h4⟩
  rw [hrun]
  rfl

/-! ## C10: `telldir` counts the entries read -/

/-- C10: for a directory whose engine enumeration has the entries `es`
(`T = es.length`), each with a name that fits the host name field, and every
`k ≤ T`: `opendir_p` (storage allocated, the engine opening the directory)
returns a cursor, `telldir_p` on it returns 0, and after `k` calls of
`readdir_p` `telldir_p` returns `k`. -/
theorem telldir_counts_readdir (K : Consts) (s : State) (name : String) (es : List lfs_info)
    (k : Nat) (hfit : ∀ e ∈ es, e.name.length < K.d_name_size) (hk : k ≤ es.length) :
    ∃ (d0 : vfs_lfs_dir_t) (s0 : State),
      opendir_p K s name true K.LFS_ERR_OK (es.map DirStep.entry) = (some d0, s0) ∧
      (telldir_p K s0 (some d0)).1 = 0 ∧
      (telldir_p K (readdir_n K k s0 (some d0)).2 (readdir_n K k s0 (some d0)).1).1 = (k : Int) := by
  refine ⟨{ dirent := { d_ino := 0, d_type := 0, d_name := "" },
            lfs_dir := { steps := es.map DirStep.entry, pos := 0 }, off := 0 },
    ((s.emit Event.lock_acquire).emit (Event.engine (EngineCall.lfs_dir_open name))).emit
      Event.lock_release, ?_, rfl, ?_⟩
  · simp [opendir_p]
  · obtain ⟨d', h', _, hoff'⟩ := readdir_n_entries K es hfit k
      (((s.emit Event.lock_acquire).emit (Event.engine (EngineCall.lfs_dir_open name))).emit
        Event.lock_release)
      { dirent := { d_ino := 0, d_type := 0, d_name := "" },
        lfs_dir := { steps := es.map DirStep.entry, pos := 0 }, off := 0 } rfl
      (by simpa using hk)
    rw [h']
    simp only [telldir_p, hoff']
    omega

/-- Witness of C10: a directory of three entries, two of them read. -/
theorem telldir_counts_readdir_witness :
    ∃ (d0 : vfs_lfs_dir_t) (s0 : State),
      opendir_p esp32 sample_fresh "/dir" true esp32.LFS_ERR_OK
        ([{ type := 34, size := 0, name := "." }, { type := 34, size := 0, name := ".." },
          { type := 17, size := 5, name := "1.txt" }].map DirStep.entry) = (some d0, s0) ∧
      (telldir_p esp32 s0 (some d0)).1 = 0 ∧
      (telldir_p esp32 (readdir_n esp32 2 s0 (some d0)).2 (readdir_n esp32 2 s0 (some d0)).1).1 =
        ((2 : Nat) : Int) :=
  telldir_counts_readdir esp32 sample_fresh "/dir"
    [{ type := 34, size := 0, name := "." }, { type := 34, size := 0, name := ".." },
     { type := 17, size := 5, name := "1.txt" }] 2 (by decide) (by decide)

/-! ## C11: `seekdir` positions the enumeration -/

/-- C11: for a directory whose engine enumeration has the entries `es`
(`T = es.length`), any cursor `d` on it, and every `k ≤ T`, with the engine
rewind succeeding: `seekdir_p d k` followed by `telldir_p` returns `k`, and
the entries the following `readdir_p` calls return are the entries from
position `k` on of a fresh enumeration from `opendir_p` (for every number `n`
of calls, the results equal results `k, ..., k + n - 1` of the fresh
enumeration); when the names fit, these are the directory's entries
`k, ..., T - 1`. With `k = 0` the enumeration restarts. -/
theorem seekdir_matches_fresh_enumeration (K : Consts) (s s0 : State) (name : String)
    (es : List lfs_info) (d : vfs_lfs_dir_t) (k : Nat) (rewind_res : Int)
    (hd : d.lfs_dir.steps = es.map DirStep.entry) (hk : k ≤ es.length)
    (hrw : 0 ≤ rewind_res) :
    ∃ (d' : vfs_lfs_dir_t) (s' : State) (fresh : vfs_lfs_dir_t) (sf : State),
      opendir_p K s0 name true K.LFS_ERR_OK (es.map DirStep.entry) = (some fresh, sf) ∧
      seekdir_p K s (some d) (k : Int) rewind_res = (some d', s') ∧
      (telldir_p K s' (some d')).1 = (k : Int) ∧
      (∀ (n : Nat) (s1 : State),
        readdir_outs K n s1 (some d') = (readdir_outs K (k + n) sf (some fresh)).drop k) ∧
      ((∀ e ∈ es, e.name.length < K.d_name_size) →
        ∀ s1 : State, readdir_outs K (es.length - k) s1 (some d') =
          (es.drop k).map (fun e => some (to_dirent K e))) := by
  obtain ⟨d', s', hseek, hdir, hoff, _⟩ := seekdir_p_entries K s es d k rewind_res hd hk hrw
  refine ⟨d', s',
    { dirent := { d_ino := 0, d_type := 0, d_name := "" },
      lfs_dir := { steps := es.map DirStep.entry, pos := 0 }, off := 0 },
    ((s0.emit Event.lock_acquire).emit (Event.engine (EngineCall.lfs_dir_open name))).emit
      Event.lock_release, ?_, hseek, ?_, ?_, ?_⟩
  · simp [opendir_p]
  · simp [telldir_p, hoff]
  · intro n s1
    obtain ⟨dk, hk1, hk2⟩ := readdir_n_handle K es k
      (((s0.emit Event.lock_acquire).emit (Event.engine (EngineCall.lfs_dir_open name))).emit
        Event.lock_release)
      { dirent := { d_ino := 0, d_type := 0, d_name := "" },
        lfs_dir := { steps := es.map DirStep.entry, pos := 0 }, off := 0 } rfl
      (by simpa using hk)
    rw [readdir_outs_add, List.drop_left' (readdir_outs_length K k _ _), hk1]
    apply readdir_outs_congr
    rw [hdir, hk2]
    simp
  · intro hfit s1
    have h := readdir_outs_entries K es hfit (es.length - k) s1 d' (by rw [hdir])
      (by rw [hdir]; simp only; omega)
    rw [h, hdir]

/-- Witness of C11: a cursor that has read all three entries of a directory
is sent back to position 1. -/
theorem seekdir_matches_fresh_enumeration_witness :
    ∃ (d' : vfs_lfs_dir_t) (s' : State) (fresh : vfs_lfs_dir_t) (sf : State),
      opendir_p esp32 sample_fresh "/dir" true esp32.LFS_ERR_OK
        ([{ type := 34, size := 0, name := "." }, { type := 34, size := 0, name := ".." },
          { type := 17, size := 5, name := "1.txt" }].map DirStep.entry) = (some fresh, sf) ∧
      seekdir_p esp32 sample_fresh
        (some { dirent := { d_ino := 0, d_type := 1, d_name := "1.txt" },
                lfs_dir := { steps := [{ type := 34, size := 0, name := "." },
                    { type := 34, size := 0, name := ".." },
                    { type := 17, size := 5, name := "1.txt" }].map DirStep.entry, pos := 3 },
                off := 3 }) ((1 : Nat) : Int) 0 = (some d', s') ∧
      (telldir_p esp32 s' (some d')).1 = ((1 : Nat) : Int) ∧
      (∀ (n : Nat) (s1 : State),
        readdir_outs esp32 n s1 (some d') =
          (readdir_outs esp32 (1 + n) sf (some fresh)).drop 1) ∧
      ((∀ e ∈ [({ type := 34, size := 0, name := "." } : lfs_info),
            { type := 34, size := 0, name := ".." },
            { type := 17, size := 5, name := "1.txt" }], e.name.length < esp32.d_name_size) →
        ∀ s1 : State, readdir_outs esp32
            ([({ type := 34, size := 0, name := "." } : lfs_info),
              { type := 34, size := 0, name := ".." },
              { type := 17, size := 5, name := "1.txt" }].length - 1) s1 (some d') =
          ([({ type := 34, size := 0, name := "." } : lfs_info),
            { type := 34, size := 0, name := ".." },
            { type := 17, size := 5, name := "1.txt" }].drop 1).map
              (fun e => some (to_dirent esp32 e))) :=
  seekdir_matches_fresh_enumeration esp32 sample_fresh sample_fresh "/dir"
    [{ type := 34, size := 0, name := "." }, { type := 34, size := 0, name := ".." },
     { type := 17, size := 5, name := "1.txt" }]
    { dirent := { d_ino := 0, d_type := 1, d_name := "1.txt" },
      lfs_dir := { steps := [{ type := 34, size := 0, name := "." },
          { type := 34, size := 0, name := ".." },
          { type := 17, size := 5, name := "1.txt" }].map DirStep.entry, pos := 3 },
      off := 3 } 1 0 rfl (by decide) (by decide)

/-! ## C12: the position counter and the entries yielded -/

/-- C12 as stated fails for an offset larger than the number of entries: on a
directory with one entry, `opendir_p` followed by `seekdir_p` to 3 leaves
`off = 3` (and `telldir_p` returns 3) while the engine has yielded one entry
since the rewind, because the replay loop goes on counting when the engine
reports the end of the directory. -/
theorem seekdir_past_end_overcounts :
    ∃ (d0 d1 : vfs_lfs_dir_t) (s0 s1 : State),
      opendir_p esp32 sample_fresh "/dir" true esp32.LFS_ERR_OK
        [DirStep.entry { type := 17, size := 5, name := "1.txt" }] = (some d0, s0) ∧
      seekdir_p esp32 s0 (some d0) 3 0 = (some d1, s1) ∧
      (telldir_p esp32 s1 (some d1)).1 = 3 ∧ d1.off = 3 ∧ yielded d1.lfs_dir = 1 ∧
      d1.off ≠ (yielded d1.lfs_dir : Int) :=
  ⟨_, _, _, _, rfl, rfl, rfl, rfl, rfl, by decide⟩

/-- C12 (amended): for a directory whose engine enumeration is `steps`, of
length `T`, every entry of which has a name that fits the host name field: in
every state reached from `opendir_p` by any sequence of `readdir_p`,
`readdir_r_p`, `telldir_p` and `seekdir_p` calls whose offsets are not larger
than `T` (negative offsets included, whatever the engine rewind returns),
`off` equals the number of entries the engine has yielded since the last
rewind; and once the engine is exhausted, `readdir_p` returns no entry,
leaves `errno` untouched and leaves the cursor, `off` included, as it was
(`readdir_r_p` returns 0 with `*out_dirent = NULL`). -/
theorem cursor_counts_yielded (K : Consts) (steps : List DirStep) (ops : List DirOp)
    (s : State) (name : String)
    (hfit : ∀ info, DirStep.entry info ∈ steps → info.name.length < K.d_name_size)
    (hops : ∀ op ∈ ops, op.within steps.length) :
    ∃ (d0 : vfs_lfs_dir_t) (s0 : State),
      opendir_p K s name true K.LFS_ERR_OK steps = (some d0, s0) ∧
      (dir_run K ops (s0, d0)).2.lfs_dir.steps = steps ∧
      (dir_run K ops (s0, d0)).2.off = (yielded (dir_run K ops (s0, d0)).2.lfs_dir : Int) ∧
      (steps.length ≤ (dir_run K ops (s0, d0)).2.lfs_dir.pos →
        (readdir_p K (dir_run K ops (s0, d0)).1 (some (dir_run K ops (s0, d0)).2)).2.1 = none ∧
        (readdir_p K (dir_run K ops (s0, d0)).1 (some (dir_run K ops (s0, d0)).2)).2.2.errno =
          (dir_run K ops (s0, d0)).1.errno ∧
        (readdir_p K (dir_run K ops (s0, d0)).1 (some (dir_run K ops (s0, d0)).2)).1 =
          some (dir_run K ops (s0, d0)).2 ∧
        ∀ entry, (readdir_r_p K (dir_run K ops (s0, d0)).1
            (some (dir_run K ops (s0, d0)).2) entry).ret = 0 ∧
          (readdir_r_p K (dir_run K ops (s0, d0)).1
            (some (dir_run K ops (s0, d0)).2) entry).out_dirent = OutDirent.null ∧
          (readdir_r_p K (dir_run K ops (s0, d0)).1
            (some (dir_run K ops (s0, d0)).2) entry).dir = some (dir_run K ops (s0, d0)).2) := by
  refine ⟨{ dirent := { d_ino := 0, d_type := 0, d_name := "" },
            lfs_dir := { steps := steps, pos := 0 }, off := 0 },
    ((s.emit Event.lock_acquire).emit (Event.engine (EngineCall.lfs_dir_open name))).emit
      Event.lock_release, by simp [opendir_p], ?_⟩
  obtain ⟨h1, h2⟩ := dir_run_keeps_count K steps hfit ops
    (((s.emit Event.lock_acquire).emit (Event.engine (EngineCall.lfs_dir_open name))).emit
      Event.lock_release)
    { dirent := { d_ino := 0, d_type := 0, d_name := "" },
      lfs_dir := { steps := steps, pos := 0 }, off := 0 } hops rfl
    (by simp only; rw [yielded_zero]; rfl)
  refine ⟨h1, h2, ?_⟩
  intro hend
  generalize dir_run K ops _ = c at h1 hend ⊢
  have hnone : c.2.lfs_dir.steps[c.2.lfs_dir.pos]? = none := by
    rw [h1]
    exact List.getElem?_eq_none hend
  have hr := fun entry => readdir_r_p_end K c.1 c.2 entry hnone
  refine ⟨?_, ?_, ?_, ?_⟩
  · simp only [readdir_p, hr]
  · simp only [readdir_p, hr]
    rfl
  · simp only [readdir_p, hr]
    rfl
  · intro entry
    rw [hr entry]
    exact ⟨rfl, rfl, rfl⟩

/-- Witness of C12: a directory with one entry; the calls read past the end,
seek to the end, to the start and to a negative offset. -/
theorem cursor_counts_yielded_witness :
    ∃ (d0 : vfs_lfs_dir_t) (s0 : State),
      opendir_p esp32 sample_fresh "/dir" true esp32.LFS_ERR_OK
        [DirStep.entry { type := 17, size := 5, name := "1.txt" }] = (some d0, s0) ∧
      (dir_run esp32 [DirOp.readdir, DirOp.readdir, DirOp.telldir, DirOp.seekdir 1 0,
          DirOp.seekdir 0 0, DirOp.readdir_r { d_ino := 0, d_type := 0, d_name := "" },
          DirOp.seekdir (-2) 0, DirOp.seekdir 1 (-5)] (s0, d0)).2.off = 0 ∧
      yielded (dir_run esp32 [DirOp.readdir, DirOp.readdir, DirOp.telldir, DirOp.seekdir 1 0,
          DirOp.seekdir 0 0, DirOp.readdir_r { d_ino := 0, d_type := 0, d_name := "" },
          DirOp.seekdir (-2) 0, DirOp.seekdir 1 (-5)] (s0, d0)).2.lfs_dir = 0 := by
  obtain ⟨d0, s0, h0, _, h2, _⟩ := cursor_counts_yielded esp32
    [DirStep.entry { type := 17, size := 5, name := "1.txt" }]
    [DirOp.readdir, DirOp.readdir, DirOp.telldir, DirOp.seekdir 1 0,
      DirOp.seekdir 0 0, DirOp.readdir_r { d_ino := 0, d_type := 0, d_name := "" },
      DirOp.seekdir (-2) 0, DirOp.seekdir 1 (-5)] sample_fresh "/dir"
    (by
      intro info hmem
      simp only [List.mem_singleton, DirStep.entry.injEq] at hmem
      subst hmem
      decide)
    (by decide)
  have hd0 : opendir_p esp32 sample_fresh "/dir" true esp32.LFS_ERR_OK
      [DirStep.entry { type := 17, size := 5, name := "1.txt" }] =
      (some { dirent := { d_ino := 0, d_type := 0, d_name := "" },
              lfs_dir := { steps := [DirStep.entry { type := 17, size := 5, name := "1.txt" }],
                           pos := 0 },
              off := 0 },
       ((sample_fresh.emit Event.lock_acquire).emit
          (Event.engine (EngineCall.lfs_dir_open "/dir"))).emit Event.lock_release) := rfl
  rw [hd0] at h0
  simp only [Prod.mk.injEq, Option.some.injEq] at h0
  obtain ⟨hd, hs⟩ := h0
  subst hd hs
  refine ⟨_, _, hd0, ?_, ?_⟩
  · decide
  · decide

/-! ## C13: a name that does not fit is an error, never a silent truncation -/

/-- C13: when the engine yields an entry `info` on a cursor `d`: if the
length of its name is greater than or equal to the capacity of the host name
field, `readdir_r_p` returns `ENAMETOOLONG` with `errno = ENAMETOOLONG`, does
not store the entry in `*out_dirent` (which it leaves untouched) and does not
increment `off`, and `readdir_p` returns `NULL` with the same `errno` and the
same `off`; if the name is shorter, `readdir_r_p` returns 0 and stores in
`*out_dirent` the entry, whose name equals the engine's name exactly, and
`off` increases by exactly 1, and so for `readdir_p`. -/
theorem readdir_long_name_is_error (K : Consts) (s : State) (d : vfs_lfs_dir_t)
    (entry : dirent) (info : lfs_info)
    (hstep : d.lfs_dir.steps[d.lfs_dir.pos]? = some (DirStep.entry info)) :
    (K.d_name_size ≤ info.name.length →
      (readdir_r_p K s (some d) entry).ret = K.ENAMETOOLONG ∧
      (readdir_r_p K s (some d) entry).state.errno = K.ENAMETOOLONG ∧
      (readdir_r_p K s (some d) entry).out_dirent = OutDirent.untouched ∧
      (∃ d', (readdir_r_p K s (some d) entry).dir = some d' ∧ d'.off = d.off) ∧
      (readdir_p K s (some d)).2.1 = none ∧
      (readdir_p K s (some d)).2.2.errno = K.ENAMETOOLONG ∧
      (∃ d', (readdir_p K s (some d)).1 = some d' ∧ d'.off = d.off)) ∧
    (info.name.length < K.d_name_size →
      (readdir_r_p K s (some d) entry).ret = 0 ∧
      (readdir_r_p K s (some d) entry).out_dirent = OutDirent.entry ∧
      (readdir_r_p K s (some d) entry).entry.d_name = info.name ∧
      (readdir_r_p K s (some d) entry).state.errno = s.errno ∧
      (∃ d', (readdir_r_p K s (some d) entry).dir = some d' ∧ d'.off = d.off + 1) ∧
      (∃ e, (readdir_p K s (some d)).2.1 = some e ∧ e.d_name = info.name) ∧
      (∃ d', (readdir_p K s (some d)).1 = some d' ∧ d'.off = d.off + 1)) := by
  constructor
  · intro hlong
    have h1 := readdir_r_p_toolong K s d entry info hstep hlong
    have h2 := readdir_r_p_toolong K s d d.dirent info hstep hlong
    refine ⟨by simp only [h1], by simp only [h1], by simp only [h1],
      ⟨{ d with lfs_dir := { d.lfs_dir with pos := d.lfs_dir.pos + 1 } }, by simp only [h1],
        rfl⟩, ?_, ?_, ?_⟩
    · simp only [readdir_p, h2]
    · simp only [readdir_p, h2]
      split <;> rfl
    · simp only [readdir_p, h2]
      exact ⟨_, rfl, rfl⟩
  · intro hfit
    have h1 := readdir_r_p_fit K s d entry info hstep hfit
    have h2 := readdir_r_p_fit K s d d.dirent info hstep hfit
    refine ⟨by simp only [h1], by simp only [h1], by simp only [h1, to_dirent],
      by simp only [h1, emit_errno],
      ⟨{ d with lfs_dir := { d.lfs_dir with pos := d.lfs_dir.pos + 1 }, off := d.off + 1 },
        by simp only [h1], rfl⟩, ?_, ?_⟩
    · simp only [readdir_p, h2]
      exact ⟨_, rfl, rfl⟩
    · simp only [readdir_p, h2]
      exact ⟨_, rfl, rfl⟩

/-- Witness of C13 on the entry `1.txt`: with a name field of 4 bytes the
call fails with `ENAMETOOLONG` and yields no entry; with the name field of 256
bytes of the ESP32 the name is copied whole. -/
theorem readdir_long_name_is_error_witness :
    (readdir_r_p esp32_short_names sample_fresh (some sample_cursor)
      { d_ino := 7, d_type := 7, d_name := "old" }).ret = esp32_short_names.ENAMETOOLONG ∧
    (readdir_r_p esp32_short_names sample_fresh (some sample_cursor)
      { d_ino := 7, d_type := 7, d_name := "old" }).out_dirent = OutDirent.untouched ∧
    (readdir_p esp32_short_names sample_fresh (some sample_cursor)).2.1 = none ∧
    (readdir_r_p esp32 sample_fresh (some sample_cursor)
      { d_ino := 7, d_type := 7, d_name := "old" }).ret = 0 ∧
    (readdir_r_p esp32 sample_fresh (some sample_cursor)
      { d_ino := 7, d_type := 7, d_name := "old" }).entry.d_name = "1.txt" :=
  have hl := (readdir_long_name_is_error esp32_short_names sample_fresh sample_cursor
    { d_ino := 7, d_type := 7, d_name := "old" }
    { type := 17, size := 5, name := "1.txt" } rfl).1 (by decide)
  have hs := (readdir_long_name_is_error esp32 sample_fresh sample_cursor
    { d_ino := 7, d_type := 7, d_name := "old" }
    { type := 17, size := 5, name := "1.txt" } rfl).2 (by decide)
  ⟨hl.1, hl.2.2.1, hl.2.2.2.2.1, hs.1, hs.2.2.1⟩

/-! ## C14: `lseek` -/

/-- C14: for every `whence` outside `SEEK_SET`, `SEEK_CUR`, `SEEK_END`,
`lseek_p` returns -1 with `errno = EINVAL` and does nothing else (no engine
call, not even a look at the table). For a valid `whence` on an open slot it
calls the engine seek with the corresponding engine whence; when that seek
returns a value that is not negative it then calls the engine tell and
returns the value of the tell (not the seek's own return value); a negative
seek result, or a negative tell result, is returned as -1 with the translated
`errno`, and after a negative seek result the tell is not called. -/
theorem lseek_p_contract (K : Consts) (s : State) (t : List vfs_fd_t) (fd : Int) (e : vfs_fd_t)
    (f : Ptr) (off mode seek_res tell_res : Int) :
    (mode ≠ K.SEEK_SET → mode ≠ K.SEEK_CUR → mode ≠ K.SEEK_END →
      lseek_p K s fd off mode seek_res tell_res = some (-1, { s with errno := K.EINVAL })) ∧
    (K.seek_distinct → K.lfs_ok_zero → s.fds = some t → 0 ≤ fd → t[fd.toNat]? = some e →
      e.file = some f → (mode = K.SEEK_SET ∨ mode = K.SEEK_CUR ∨ mode = K.SEEK_END) →
      ∃ (m ret : Int) (s' : State),
        lseek_p K s fd off mode seek_res tell_res = some (ret, s') ∧
        (mode = K.SEEK_SET → m = K.LFS_SEEK_SET) ∧
        (mode = K.SEEK_CUR → m = K.LFS_SEEK_CUR) ∧
        (mode = K.SEEK_END → m = K.LFS_SEEK_END) ∧
        engine_calls s'.trace = engine_calls s.trace ++
          (EngineCall.lfs_file_seek f off m ::
            (if 0 ≤ seek_res then [EngineCall.lfs_file_tell f] else [])) ∧
        s'.fds = s.fds ∧
        (0 ≤ seek_res → 0 ≤ tell_res → ret = tell_res ∧ s'.errno = s.errno) ∧
        (0 ≤ seek_res → tell_res < 0 →
          ret = -1 ∧ s'.errno = (map_lfs_error K tell_res s).2.errno) ∧
        (seek_res < 0 → ret = -1 ∧ s'.errno = (map_lfs_error K seek_res s).2.errno)) := by
  constructor
  · intro h1 h2 h3
    simp [lseek_p, h1, h2, h3]
  · intro hdist hzero ht h0 he hf hmode
    obtain ⟨d1, d2, d3⟩ := hdist
    unfold Consts.lfs_ok_zero at hzero
    obtain ⟨m, hm, hm1, hm2, hm3⟩ : ∃ m : Int,
        (if mode = K.SEEK_SET then some K.LFS_SEEK_SET
          else if mode = K.SEEK_CUR then some K.LFS_SEEK_CUR
          else if mode = K.SEEK_END then some K.LFS_SEEK_END
          else none : Option Int) = some m ∧
        (mode = K.SEEK_SET → m = K.LFS_SEEK_SET) ∧
        (mode = K.SEEK_CUR → m = K.LFS_SEEK_CUR) ∧
        (mode = K.SEEK_END → m = K.LFS_SEEK_END) := by
      rcases hmode with h | h | h
      · exact ⟨K.LFS_SEEK_SET, by rw [if_pos h], fun _ => rfl,
          fun h' => absurd (h.symm.trans h') d1, fun h' => absurd (h.symm.trans h') d2⟩
      · have hn : mode ≠ K.SEEK_SET := fun h' => d1 (h'.symm.trans h)
        exact ⟨K.LFS_SEEK_CUR, by rw [if_neg hn, if_pos h], fun h' => absurd h' hn,
          fun _ => rfl, fun h' => absurd (h.symm.trans h') d3⟩
      · have hn1 : mode ≠ K.SEEK_SET := fun h' => d2 (h'.symm.trans h)
        have hn2 : mode ≠ K.SEEK_CUR := fun h' => d3 (h'.symm.trans h)
        exact ⟨K.LFS_SEEK_END, by rw [if_neg hn1, if_neg hn2, if_pos h],
          fun h' => absurd h' hn1, fun h' => absurd h' hn2, fun _ => rfl⟩
    have hget := fds_get_int (s.emit Event.lock_acquire) t fd e (by simpa using ht) h0 he
    by_cases hseek : 0 ≤ seek_res
    · by_cases htell : 0 ≤ tell_res
      · have hres : lseek_p K s fd off mode seek_res tell_res = some (tell_res,
            (((((s.emit Event.lock_acquire).emit (Event.fds_access fd.toNat)).emit
              (Event.engine (EngineCall.lfs_file_seek f off m))).emit
              (Event.engine (EngineCall.lfs_file_tell f))).emit Event.lock_release)) := by
          unfold lseek_p
          simp only [hm]
          rw [hget]
          simp only [hf, ge_iff_le, hseek, if_true, not_lt.mpr htell, if_false]
        refine ⟨m, tell_res, _, hres, hm1, hm2, hm3, ?_, rfl, fun _ _ => ⟨rfl, rfl⟩,
          fun _ h => absurd htell (not_le.mpr h), fun h => absurd hseek (not_le.mpr h)⟩
        simp [State.emit, engine_calls_append, hseek]
      · have hne : tell_res ≠ K.LFS_ERR_OK := by omega
        have hres : lseek_p K s fd off mode seek_res tell_res = some (-1,
            { (((((s.emit Event.lock_acquire).emit (Event.fds_access fd.toNat)).emit
              (Event.engine (EngineCall.lfs_file_seek f off m))).emit
              (Event.engine (EngineCall.lfs_file_tell f))).emit Event.lock_release) with
              errno := lfs_errno K tell_res }) := by
          unfold lseek_p
          simp only [hm]
          rw [hget]
          simp only [hf, ge_iff_le, hseek, if_true, not_le.mp htell]
          rw [map_lfs_error_ne K tell_res _ hne]
        refine ⟨m, -1, _, hres, hm1, hm2, hm3, ?_, rfl, fun _ h => absurd h htell,
          fun _ _ => ⟨rfl, ?_⟩, fun h => absurd hseek (not_le.mpr h)⟩
        · simp [State.emit, engine_calls_append, hseek]
        · rw [map_lfs_error_ne K tell_res _ hne]
    · have hne : seek_res ≠ K.LFS_ERR_OK := by omega
      have hres : lseek_p K s fd off mode seek_res tell_res = some (-1,
          { ((((s.emit Event.lock_acquire).emit (Event.fds_access fd.toNat)).emit
            (Event.engine (EngineCall.lfs_file_seek f off m))).emit Event.lock_release) with
            errno := lfs_errno K seek_res }) := by
        unfold lseek_p
        simp only [hm]
        rw [hget]
        simp only [hf, ge_iff_le, hseek, if_false, not_le.mp hseek, if_true]
        rw [map_lfs_error_ne K seek_res _ hne]
      refine ⟨m, -1, _, hres, hm1, hm2, hm3, ?_, rfl, fun h => absurd h hseek,
        fun h => absurd h hseek, fun _ => ⟨rfl, ?_⟩⟩
      · simp [State.emit, engine_calls_append, hseek]
      · rw [map_lfs_error_ne K seek_res _ hne]

/-- Witness of C14: `lseek(0, 0, SEEK_END)` on an open slot, where the engine
seek returns 0 and the engine tell returns 11. -/
theorem lseek_p_contract_witness :
    ∃ (m ret : Int) (s' : State),
      lseek_p esp32 sample_half 0 0 2 0 11 = some (ret, s') ∧
      ((2 : Int) = esp32.SEEK_SET → m = esp32.LFS_SEEK_SET) ∧
      ((2 : Int) = esp32.SEEK_CUR → m = esp32.LFS_SEEK_CUR) ∧
      ((2 : Int) = esp32.SEEK_END → m = esp32.LFS_SEEK_END) ∧
      engine_calls s'.trace = engine_calls sample_half.trace ++
        (EngineCall.lfs_file_seek 1 0 m ::
          (if (0 : Int) ≤ 0 then [EngineCall.lfs_file_tell 1] else [])) ∧
      s'.fds = sample_half.fds ∧
      ((0 : Int) ≤ 0 → (0 : Int) ≤ 11 → ret = 11 ∧ s'.errno = sample_half.errno) ∧
      ((0 : Int) ≤ 0 → (11 : Int) < 0 →
        ret = -1 ∧ s'.errno = (map_lfs_error esp32 11 sample_half).2.errno) ∧
      ((0 : Int) < 0 → ret = -1 ∧ s'.errno = (map_lfs_error esp32 0 sample_half).2.errno) :=
  (lseek_p_contract esp32 sample_half
    [{ file := some 1, name := some "/a" }, { file := none, name := none }] 0
    { file := some 1, name := some "/a" } 1 0 2 0 11).2
    (by decide) (by decide) rfl (by decide) rfl rfl (by decide)

/-! ## C15: `term` is idempotent and safe on a partially initialised object -/

/-- C15, as stated, fails when `init` is called on an object whose call
surface is registered: after `init` and two calls of `open` the handles 7 and
8 are open; a second `init`, with a configuration for one open file on a
partition that does not exist, stores that configuration and returns
`ESP_ERR_NOT_FOUND`; `term` then runs its loop over one slot, so that it
closes the handle 7 only and releases the table with the handle 8 open. -/
theorem reinit_then_term_leaves_slot_open :
    run_steps esp32 sample_life (LittleFlash_new sample_storage) = some sample_two_open ∧
    sample_two_open.registered = true ∧
    init esp32 sample_two_open sample_other_config sample_unformatted =
      some (esp32.ESP_ERR_NOT_FOUND, sample_reinit) ∧
    open_handles sample_reinit = [7, 8] ∧
    (term esp32 sample_reinit (fun _ => 0)).map (fun s => engine_calls s.trace) =
      some (engine_calls sample_reinit.trace ++
        [EngineCall.lfs_file_close 7, EngineCall.lfs_unmount]) := by
  decide

/-- C15, amended: in every state an object reaches from its construction by
calls of `init` made while its call surface is not registered (successful, or
failed at any step), calls of the call surface dispatched while it is
registered, and calls of `term`, a call of `term` returns with
`registered = false`, `mounted = false` and no file-handle table; the engine
calls it makes are one `lfs_file_close` for each slot that was open, in the
order of the slots, followed by one `lfs_unmount` if the engine was mounted.
A second `term` only releases the lock object: it makes no engine close,
unregister or unmount call and leaves the fields as they are; and so does
`term` on an object that was never initialised. -/
theorem term_tears_down (K : Consts) (s0 : State) (steps : List Step) (s : State)
    (hrun : run_steps K steps (LittleFlash_new s0) = some s) (close_res close_res2 : Nat → Int) :
    ∃ s1 : State, term K s close_res = some s1 ∧
      s1.registered = false ∧ s1.mounted = false ∧ s1.fds = none ∧
      engine_calls s1.trace = engine_calls s.trace ++
        (open_handles s).map EngineCall.lfs_file_close ++
        (if s.mounted then [EngineCall.lfs_unmount] else []) ∧
      term K s1 close_res2 = some { s1 with trace := s1.trace ++ [Event.lock_close] } ∧
      term K (LittleFlash_new s0) close_res =
        some { LittleFlash_new s0 with
               trace := (LittleFlash_new s0).trace ++ [Event.lock_close] } := by
  have hc := run_steps_consistent K steps _ s hrun (new_consistent s0)
  obtain ⟨s1, h1, h2, h3, h4, _, h6⟩ := term_spec K s close_res hc
  exact ⟨s1, h1, h2, h3, h4, h6, term_torn_down K s1 close_res2 h2 h3 h4,
    term_torn_down K (LittleFlash_new s0) close_res rfl rfl rfl⟩

/-- The object of `sample_life`, with the handles 7 and 8 open, torn down
twice. -/
theorem term_tears_down_witness :
    run_steps esp32 sample_life (LittleFlash_new sample_storage) = some sample_two_open ∧
    open_handles sample_two_open = [7, 8] ∧
    ∃ s1 : State, term esp32 sample_two_open (fun _ => 0) = some s1 ∧
      s1.registered = false ∧ s1.mounted = false ∧ s1.fds = none ∧
      engine_calls s1.trace = engine_calls sample_two_open.trace ++
        (open_handles sample_two_open).map EngineCall.lfs_file_close ++
        (if sample_two_open.mounted then [EngineCall.lfs_unmount] else []) ∧
      term esp32 s1 (fun _ => -5) = some { s1 with trace := s1.trace ++ [Event.lock_close] } ∧
      term esp32 (LittleFlash_new sample_storage) (fun _ => 0) =
        some { LittleFlash_new sample_storage with
               trace := (LittleFlash_new sample_storage).trace ++ [Event.lock_close] } :=
  ⟨by decide, by decide,
    term_tears_down esp32 sample_storage sample_life sample_two_open (by decide)
      (fun _ => 0) (fun _ => -5)⟩

/-! ## C16: the slots of the table -/

/-- The forced close of `term` leaves a table of the same length, with paired
slots if they were paired. -/
theorem term_close_slot_table (K : Consts) (s s' : State) (i : Nat) (err : Int)
    (t : List vfs_fd_t) (ht : s.fds = some t) (h : term_close_slot K s i err = some s') :
    ∃ t', s'.fds = some t' ∧ t'.length = t.length ∧
      ((∀ e ∈ t, e.paired) → ∀ e ∈ t', e.paired) := by
  have hdef : ∃ e, t[i]? = some e := by
    unfold term_close_slot at h
    split at h
    · cases h
    · rename_i e s1 hget
      obtain ⟨_, _, t0, ht0, he⟩ := fds_get_some s s1 (i : Int) e hget
      rw [ht] at ht0
      cases ht0
      exact ⟨e, by simpa using he⟩
  obtain ⟨e, he⟩ := hdef
  cases hf : e.file with
  | none =>
    rw [term_close_slot_free K s t i err e ht he hf] at h
    simp only [Option.some.injEq] at h
    rw [← h]
    exact ⟨t, ht, rfl, fun hall => hall⟩
  | some f =>
    obtain ⟨en, hen⟩ := term_close_slot_bound K s t i err e f ht he hf
    rw [hen] at h
    simp only [Option.some.injEq] at h
    rw [← h]
    refine ⟨_, rfl, by simp, ?_⟩
    intro hall e1 he1
    rcases List.mem_or_eq_of_mem_set he1 with h1 | h1
    · exact hall e1 h1
    · rw [h1]
      unfold vfs_fd_t.paired vfs_fd_t.empty
      simp

/-- Calls and forced closes leave a table of the same length, with paired
slots if they were paired. -/
theorem table_run_paired (K : Consts) :
    ∀ (steps : List TableStep) (s s' : State) (t : List vfs_fd_t),
      table_run K steps s = some s' → s.fds = some t → (∀ e ∈ t, e.paired) →
      ∃ t', s'.fds = some t' ∧ t'.length = t.length ∧ ∀ e ∈ t', e.paired := by
  intro steps
  induction steps with
  | nil =>
    intro s s' t h ht hall
    simp only [table_run, Option.some.injEq] at h
    rw [← h]
    exact ⟨t, ht, rfl, hall⟩
  | cons st steps ih =>
    intro s s' t h ht hall
    rw [table_run] at h
    split at h
    · cases h
    · rename_i s1 hst
      have h1 : ∃ t1, s1.fds = some t1 ∧ t1.length = t.length ∧
          ((∀ e ∈ t, e.paired) → ∀ e ∈ t1, e.paired) := by
        cases st with
        | call op =>
          simp only [TableStep.run] at hst
          obtain ⟨delta, ha, _⟩ := op_run_after K op s s1 hst
          exact (after_table s s1 delta ha).2 t ht
        | forced_close i err =>
          simp only [TableStep.run] at hst
          exact term_close_slot_table K s s1 i err t ht hst
      obtain ⟨t1, ht1, hlen1, hall1⟩ := h1
      obtain ⟨t', ht', hlen', hall'⟩ := ih s1 s' t1 h ht1 (hall1 hall)
      exact ⟨t', ht', by rw [hlen', hlen1], hall'⟩

/-- C16: after an `init` on a newly constructed object that ends with the
call surface registered (it then returns `ESP_OK`), the table has `open_files`
slots and every slot is empty; in every state reached from there by calls of
the call surface and forced closes of `term`, every slot of the table retains
a path if and only if it holds an engine handle; and an `open_p` in such a
state that returns a descriptor has bound the slot of that descriptor to the
handle and to the path it was given. -/
theorem slot_invariant (K : Consts) (hK : K.lfs_ok_zero) (s0 : State)
    (config : little_flash_config_t) (env : InitEnv) (ret : Int) (s1 : State)
    (hinit : init K (LittleFlash_new s0) config env = some (ret, s1))
    (hreg : s1.registered = true)
    (steps : List TableStep) (s : State) (hrun : table_run K steps s1 = some s) :
    ret = K.ESP_OK ∧
    s1.fds = some (List.replicate config.open_files vfs_fd_t.empty) ∧
    (∃ t, s.fds = some t ∧ t.length = config.open_files ∧
      ∀ e ∈ t, (e.name ≠ none ↔ e.file ≠ none)) ∧
    (∀ (path : String) (flags : Nat) (mode : Int) (file : Option Ptr) (name_ok : Bool)
        (err fd : Int) (s' : State),
      open_p K s path flags mode file name_ok err = some (fd, s') → fd ≠ -1 →
      ∃ (t' : List vfs_fd_t) (f : Ptr), file = some f ∧ 0 ≤ fd ∧ s'.fds = some t' ∧
        t'[fd.toNat]? = some { file := some f, name := some path }) := by
  obtain ⟨_, _, hok⟩ := init_spec K (LittleFlash_new s0) config env ret s1 rfl rfl hinit
  obtain ⟨hret, _, hfds⟩ := hok hreg
  have hempty : ∀ e ∈ List.replicate config.open_files vfs_fd_t.empty, e.paired := by
    intro e he
    rw [(List.mem_replicate.mp he).2]
    unfold vfs_fd_t.paired vfs_fd_t.empty
    simp
  obtain ⟨t, ht, hlen, hall⟩ := table_run_paired K steps s1 s _ hrun hfds hempty
  refine ⟨hret, hfds, ⟨t, ht, by simpa using hlen, hall⟩, ?_⟩
  intro path flags mode file name_ok err fd s' hopen hfd
  rcases open_p_cases K s path flags mode file name_ok err fd s' hopen with
    ⟨h1, _⟩ | ⟨tr, _, h1, _⟩ | ⟨tr, f, _, _, herr, hs⟩ |
    ⟨tr, f, j, t0, e, _, hf, _, hj, ht0, he, _, hs⟩
  · exact absurd h1 hfd
  · exact absurd h1 hfd
  · have hne : err ≠ K.LFS_ERR_OK := by
      unfold Consts.lfs_ok_zero at hK
      omega
    rw [map_lfs_error_ne K err _ hne] at hs
    simp only [Prod.mk.injEq] at hs
    exact absurd hs.1 hfd
  · have hlt : j < t0.length := by
      by_contra hge
      rw [List.getElem?_eq_none (by omega)] at he
      cases he
    refine ⟨_, f, hf, by omega, by rw [hs], ?_⟩
    rw [hj]
    simp [hlt]

/-- The object of `sample_life` after its mount: two opens, a close, and
the forced close of slot 1. -/
theorem slot_invariant_witness :
    esp32.lfs_ok_zero ∧
    init esp32 (LittleFlash_new sample_storage) sample_config sample_unformatted =
      some (0, sample_mounted) ∧
    sample_mounted.registered = true ∧
    table_run esp32 sample_table_steps sample_mounted = some sample_after_closes ∧
    (0 = esp32.ESP_OK ∧
    sample_mounted.fds = some (List.replicate sample_config.open_files vfs_fd_t.empty) ∧
    (∃ t, sample_after_closes.fds = some t ∧ t.length = sample_config.open_files ∧
      ∀ e ∈ t, (e.name ≠ none ↔ e.file ≠ none)) ∧
    (∀ (path : String) (flags : Nat) (mode : Int) (file : Option Ptr) (name_ok : Bool)
        (err fd : Int) (s' : State),
      open_p esp32 sample_after_closes path flags mode file name_ok err = some (fd, s') →
      fd ≠ -1 →
      ∃ (t' : List vfs_fd_t) (f : Ptr), file = some f ∧ 0 ≤ fd ∧ s'.fds = some t' ∧
        t'[fd.toNat]? = some { file := some f, name := some path })) :=
  ⟨by decide, by decide, by decide, by decide,
    slot_invariant esp32 (by decide) sample_storage sample_config sample_unformatted 0
      sample_mounted (by decide) (by decide) sample_table_steps sample_after_closes
      (by decide)⟩

/-! ## C17: the open flags are translated exactly -/

/-- The engine flags of `open_p` hold nothing outside of the access mode but
the bit patterns of the four flags. -/
theorem open_p_lfs_flags_acc (K : Consts) (hK : K.open_flags_wf) (flags : Nat) :
    open_p_lfs_flags K flags &&& K.lfs_acc_mask =
      (if flags &&& K.O_ACCMODE = K.O_RDONLY then K.LFS_O_RDONLY
        else if flags &&& K.O_ACCMODE = K.O_WRONLY then K.LFS_O_WRONLY
        else if flags &&& K.O_ACCMODE = K.O_RDWR then K.LFS_O_RDWR
        else 0) := by
  obtain ⟨_, _, hab, _⟩ := hK
  have hm : ∀ b ∈ [K.LFS_O_CREAT, K.LFS_O_EXCL, K.LFS_O_TRUNC, K.LFS_O_APPEND],
      b &&& K.lfs_acc_mask = 0 := by
    intro b hb
    unfold Consts.lfs_acc_mask
    have h1 := hab K.LFS_O_RDONLY (by simp) b hb
    have h2 := hab K.LFS_O_WRONLY (by simp) b hb
    have h3 := hab K.LFS_O_RDWR (by simp) b hb
    rw [Nat.and_comm] at h1 h2 h3
    exact land_lor_zero _ _ _ (land_lor_zero _ _ _ h1 h2) h3
  have ha : (if flags &&& K.O_ACCMODE = K.O_RDONLY then K.LFS_O_RDONLY
        else if flags &&& K.O_ACCMODE = K.O_WRONLY then K.LFS_O_WRONLY
        else if flags &&& K.O_ACCMODE = K.O_RDWR then K.LFS_O_RDWR
        else 0) &&& K.lfs_acc_mask =
      (if flags &&& K.O_ACCMODE = K.O_RDONLY then K.LFS_O_RDONLY
        else if flags &&& K.O_ACCMODE = K.O_WRONLY then K.LFS_O_WRONLY
        else if flags &&& K.O_ACCMODE = K.O_RDWR then K.LFS_O_RDWR
        else 0) := by
    unfold Consts.lfs_acc_mask
    split_ifs
    · rw [Nat.or_assoc]; exact land_self_lor _ _
    · exact land_lor_of_land _ _ _ (land_lor_self _ _)
    · exact land_lor_self _ _
    · exact Nat.zero_and _
  rw [open_p_lfs_flags_eq, lor5_land, ha,
    ite_land_zero _ _ _ (hm _ (by simp)), ite_land_zero _ _ _ (hm _ (by simp)),
    ite_land_zero _ _ _ (hm _ (by simp)), ite_land_zero _ _ _ (hm _ (by simp))]
  simp

/-- The access-mode part of the engine flags has none of the four flag
bits. -/
theorem acc_land_flag (K : Consts) (hK : K.open_flags_wf) (flags b : Nat)
    (hb : b ∈ [K.LFS_O_CREAT, K.LFS_O_EXCL, K.LFS_O_TRUNC, K.LFS_O_APPEND]) :
    (if flags &&& K.O_ACCMODE = K.O_RDONLY then K.LFS_O_RDONLY
        else if flags &&& K.O_ACCMODE = K.O_WRONLY then K.LFS_O_WRONLY
        else if flags &&& K.O_ACCMODE = K.O_RDWR then K.LFS_O_RDWR
        else 0) &&& b = 0 := by
  obtain ⟨_, _, hab, _⟩ := hK
  split_ifs
  · exact hab _ (by simp) b hb
  · exact hab _ (by simp) b hb
  · exact hab _ (by simp) b hb
  · exact Nat.zero_and _

theorem ite_land_same (c : Prop) [Decidable c] (b : Nat) :
    (if c then b else 0) &&& b = if c then b else 0 := by
  split_ifs
  · exact Nat.and_self b
  · exact Nat.zero_and b

theorem open_p_lfs_flags_creat (K : Consts) (hK : K.open_flags_wf) (flags : Nat) :
    open_p_lfs_flags K flags &&& K.LFS_O_CREAT =
      if flags &&& K.O_CREAT ≠ 0 then K.LFS_O_CREAT else 0 := by
  have ha := acc_land_flag K hK flags K.LFS_O_CREAT (by simp)
  obtain ⟨_, _, _, h1, h2, h3, h4, h5, h6⟩ := hK
  rw [open_p_lfs_flags_eq, lor5_land, ha, ite_land_same,
    ite_land_zero _ _ _ (by rw [Nat.and_comm]; exact h1),
    ite_land_zero _ _ _ (by rw [Nat.and_comm]; exact h2),
    ite_land_zero _ _ _ (by rw [Nat.and_comm]; exact h3)]
  simp

theorem open_p_lfs_flags_excl (K : Consts) (hK : K.open_flags_wf) (flags : Nat) :
    open_p_lfs_flags K flags &&& K.LFS_O_EXCL =
      if flags &&& K.O_EXCL ≠ 0 then K.LFS_O_EXCL else 0 := by
  have ha := acc_land_flag K hK flags K.LFS_O_EXCL (by simp)
  obtain ⟨_, _, _, h1, h2, h3, h4, h5, h6⟩ := hK
  rw [open_p_lfs_flags_eq, lor5_land, ha, ite_land_same,
    ite_land_zero _ _ _ h1,
    ite_land_zero _ _ _ (by rw [Nat.and_comm]; exact h4),
    ite_land_zero _ _ _ (by rw [Nat.and_comm]; exact h5)]
  simp

theorem open_p_lfs_flags_trunc (K : Consts) (hK : K.open_flags_wf) (flags : Nat) :
    open_p_lfs_flags K flags &&& K.LFS_O_TRUNC =
      if flags &&& K.O_TRUNC ≠ 0 then K.LFS_O_TRUNC else 0 := by
  have ha := acc_land_flag K hK flags K.LFS_O_TRUNC (by simp)
  obtain ⟨_, _, _, h1, h2, h3, h4, h5, h6⟩ := hK
  rw [open_p_lfs_flags_eq, lor5_land, ha, ite_land_same,
    ite_land_zero _ _ _ h2, ite_land_zero _ _ _ h4,
    ite_land_zero _ _ _ (by rw [Nat.and_comm]; exact h6)]
  simp

theorem open_p_lfs_flags_append (K : Consts) (hK : K.open_flags_wf) (flags : Nat) :
    open_p_lfs_flags K flags &&& K.LFS_O_APPEND =
      if flags &&& K.O_APPEND ≠ 0 then K.LFS_O_APPEND else 0 := by
  have ha := acc_land_flag K hK flags K.LFS_O_APPEND (by simp)
  obtain ⟨_, _, _, h1, h2, h3, h4, h5, h6⟩ := hK
  rw [open_p_lfs_flags_eq, lor5_land, ha, ite_land_same,
    ite_land_zero _ _ _ h3, ite_land_zero _ _ _ h5, ite_land_zero _ _ _ h6]
  simp

/-- Every bit of the engine flags is a bit of an access mode or of one of the
four flags. -/
theorem open_p_lfs_flags_inside (K : Consts) (flags : Nat) :
    open_p_lfs_flags K flags &&& K.lfs_all_mask = open_p_lfs_flags K flags := by
  have ha : (if flags &&& K.O_ACCMODE = K.O_RDONLY then K.LFS_O_RDONLY
        else if flags &&& K.O_ACCMODE = K.O_WRONLY then K.LFS_O_WRONLY
        else if flags &&& K.O_ACCMODE = K.O_RDWR then K.LFS_O_RDWR
        else 0) &&& K.lfs_acc_mask =
      (if flags &&& K.O_ACCMODE = K.O_RDONLY then K.LFS_O_RDONLY
        else if flags &&& K.O_ACCMODE = K.O_WRONLY then K.LFS_O_WRONLY
        else if flags &&& K.O_ACCMODE = K.O_RDWR then K.LFS_O_RDWR
        else 0) := by
    unfold Consts.lfs_acc_mask
    split_ifs
    · rw [Nat.or_assoc]; exact land_self_lor _ _
    · exact land_lor_of_land _ _ _ (land_lor_self _ _)
    · exact land_lor_self _ _
    · exact Nat.zero_and _
  rw [open_p_lfs_flags_eq, lor5_land]
  unfold Consts.lfs_all_mask
  rw [land_lor_of_land _ _ _ (land_lor_of_land _ _ _ (land_lor_of_land _ _ _
        (land_lor_of_land _ _ _ ha))),
    ite_land_self _ _ _ (land_lor_of_land _ _ _ (land_lor_of_land _ _ _
        (land_lor_of_land _ _ _ (land_lor_self _ _)))),
    ite_land_self _ _ _ (land_lor_of_land _ _ _ (land_lor_of_land _ _ _ (land_lor_self _ _))),
    ite_land_self _ _ _ (land_lor_of_land _ _ _ (land_lor_self _ _)),
    ite_land_self _ _ _ (land_lor_self _ _)]

/-- The engine calls `open_p` makes, on any state: none, or one
`lfs_file_open` with the translated flags. -/
theorem open_p_engine_calls (K : Consts) (s : State) (path : String) (flags : Nat) (mode : Int)
    (file : Option Ptr) (name_ok : Bool) (err : Int) (ret : Int) (s' : State)
    (h : open_p K s path flags mode file name_ok err = some (ret, s')) :
    engine_calls s'.trace = engine_calls s.trace ∨
    ∃ f, file = some f ∧ engine_calls s'.trace = engine_calls s.trace ++
      [EngineCall.lfs_file_open f path (open_p_lfs_flags K flags)] := by
  rcases open_p_cases K s path flags mode file name_ok err ret s' h with
    ⟨_, hs⟩ | ⟨tr, htr, _, hs⟩ | ⟨tr, f, htr, hf, _, hs⟩ | ⟨tr, f, j, t, e, htr, hf, _, _, _, _, _, hs⟩
  · left
    rw [hs]
  · left
    rw [hs]
    simp [engine_calls_append, only_fds_access_engine tr htr, engine_calls]
  · right
    refine ⟨f, hf, ?_⟩
    have h2 := congrArg (fun p => p.2.trace) hs
    simp only [map_lfs_error_trace] at h2
    rw [h2]
    simp [engine_calls_append, only_fds_access_engine tr htr, engine_calls]
  · right
    refine ⟨f, hf, ?_⟩
    rw [hs]
    simp [engine_calls_append, only_fds_access_engine tr htr, engine_calls]

/-- C17: with the flag constants of the headers, the engine flags `open_p`
computes from a host flags word have the engine access mode that corresponds
to `flags & O_ACCMODE`, hold the engine create, exclusive, truncate and append
bits exactly when the host bit is set, and hold no other bit; `mode` has no
influence on what `open_p` does, and an engine open that is made gets exactly
these flags. -/
theorem open_flags_translation (K : Consts) (hK : K.open_flags_wf) (flags : Nat) :
    (flags &&& K.O_ACCMODE = K.O_RDONLY →
      open_p_lfs_flags K flags &&& K.lfs_acc_mask = K.LFS_O_RDONLY) ∧
    (flags &&& K.O_ACCMODE = K.O_WRONLY →
      open_p_lfs_flags K flags &&& K.lfs_acc_mask = K.LFS_O_WRONLY) ∧
    (flags &&& K.O_ACCMODE = K.O_RDWR →
      open_p_lfs_flags K flags &&& K.lfs_acc_mask = K.LFS_O_RDWR) ∧
    (open_p_lfs_flags K flags &&& K.LFS_O_CREAT = K.LFS_O_CREAT ↔ flags &&& K.O_CREAT ≠ 0) ∧
    (open_p_lfs_flags K flags &&& K.LFS_O_CREAT = 0 ↔ flags &&& K.O_CREAT = 0) ∧
    (open_p_lfs_flags K flags &&& K.LFS_O_EXCL = K.LFS_O_EXCL ↔ flags &&& K.O_EXCL ≠ 0) ∧
    (open_p_lfs_flags K flags &&& K.LFS_O_EXCL = 0 ↔ flags &&& K.O_EXCL = 0) ∧
    (open_p_lfs_flags K flags &&& K.LFS_O_TRUNC = K.LFS_O_TRUNC ↔ flags &&& K.O_TRUNC ≠ 0) ∧
    (open_p_lfs_flags K flags &&& K.LFS_O_TRUNC = 0 ↔ flags &&& K.O_TRUNC = 0) ∧
    (open_p_lfs_flags K flags &&& K.LFS_O_APPEND = K.LFS_O_APPEND ↔ flags &&& K.O_APPEND ≠ 0) ∧
    (open_p_lfs_flags K flags &&& K.LFS_O_APPEND = 0 ↔ flags &&& K.O_APPEND = 0) ∧
    open_p_lfs_flags K flags &&& K.lfs_all_mask = open_p_lfs_flags K flags ∧
    (∀ (s : State) (path : String) (mode mode' : Int) (file : Option Ptr) (name_ok : Bool)
        (err : Int),
      open_p K s path flags mode file name_ok err =
        open_p K s path flags mode' file name_ok err) ∧
    (∀ (s : State) (path : String) (mode : Int) (file : Option Ptr) (name_ok : Bool)
        (err ret : Int) (s' : State),
      open_p K s path flags mode file name_ok err = some (ret, s') →
      engine_calls s'.trace = engine_calls s.trace ∨
      ∃ f, file = some f ∧ engine_calls s'.trace = engine_calls s.trace ++
        [EngineCall.lfs_file_open f path (open_p_lfs_flags K flags)]) := by
  have hacc := open_p_lfs_flags_acc K hK flags
  have hc := open_p_lfs_flags_creat K hK flags
  have he := open_p_lfs_flags_excl K hK flags
  have ht := open_p_lfs_flags_trunc K hK flags
  have ha := open_p_lfs_flags_append K hK flags
  obtain ⟨⟨d1, d2, d3⟩, ⟨n1, n2, n3, n4⟩, _, _⟩ := hK
  refine ⟨?_, ?_, ?_, ?_, ?_, ?_, ?_, ?_, ?_, ?_, ?_, open_p_lfs_flags_inside K flags,
    fun _ _ _ _ _ _ _ => rfl, fun s path mode file name_ok err ret s' h =>
      open_p_engine_calls K s path flags mode file name_ok err ret s' h⟩
  · intro h
    rw [hacc, if_pos h]
  · intro h
    rw [hacc, if_neg (fun h' => d1 (h'.symm.trans h)), if_pos h]
  · intro h
    rw [hacc, if_neg (fun h' => d2 (h'.symm.trans h)), if_neg (fun h' => d3 (h'.symm.trans h)),
      if_pos h]
  · rw [hc]
    split_ifs with h
    · exact ⟨fun _ => h, fun _ => rfl⟩
    · exact ⟨fun h' => absurd h'.symm n1, fun h' => absurd h' h⟩
  · rw [hc]
    split_ifs with h
    · exact ⟨fun h' => absurd h' n1, fun h' => absurd h' h⟩
    · exact ⟨fun _ => not_not.mp h, fun _ => rfl⟩
  · rw [he]
    split_ifs with h
    · exact ⟨fun _ => h, fun _ => rfl⟩
    · exact ⟨fun h' => absurd h'.symm n2, fun h' => absurd h' h⟩
  · rw [he]
    split_ifs with h
    · exact ⟨fun h' => absurd h' n2, fun h' => absurd h' h⟩
    · exact ⟨fun _ => not_not.mp h, fun _ => rfl⟩
  · rw [ht]
    split_ifs with h
    · exact ⟨fun _ => h, fun _ => rfl⟩
    · exact ⟨fun h' => absurd h'.symm n3, fun h' => absurd h' h⟩
  · rw [ht]
    split_ifs with h
    · exact ⟨fun h' => absurd h' n3, fun h' => absurd h' h⟩
    · exact ⟨fun _ => not_not.mp h, fun _ => rfl⟩
  · rw [ha]
    split_ifs with h
    · exact ⟨fun _ => h, fun _ => rfl⟩
    · exact ⟨fun h' => absurd h'.symm n4, fun h' => absurd h' h⟩
  · rw [ha]
    split_ifs with h
    · exact ⟨fun h' => absurd h' n4, fun h' => absurd h' h⟩
    · exact ⟨fun _ => not_not.mp h, fun _ => rfl⟩

/-- With the constants of the ESP32 headers, on the flags
`O_WRONLY | O_CREAT | O_APPEND`. -/
theorem open_flags_translation_witness :
    esp32.open_flags_wf ∧
    open_p_lfs_flags esp32 (1 ||| 512 ||| 8) = 2 ||| 256 ||| 2048 ∧
    (open_p_lfs_flags esp32 (1 ||| 512 ||| 8) &&& esp32.LFS_O_APPEND = esp32.LFS_O_APPEND ↔
      (1 ||| 512 ||| 8) &&& esp32.O_APPEND ≠ 0) :=
  ⟨by decide, by decide,
    (open_flags_translation esp32 (by decide) (1 ||| 512 ||| 8)).2.2.2.2.2.2.2.2.2.1⟩

/-! ## C18: the addresses passed to the flash drivers -/

/-- C18, as stated, fails for the erase of the external chip: for block 1 of
a chip with 4 KiB sectors the byte address is 4096, which is what the
partition variant passes, while `external_erase` passes the block index 1 to
`erase_sector`. -/
theorem external_erase_passes_block_index :
    size_t (1 * sample_chip.sector_sz + 0) = 4096 ∧
    (internal_erase esp32 sample_chip 1 0).1 = DriverCall.esp_partition_erase_range 4096 4096 ∧
    external_erase esp32 sample_chip 1 0 = some (DriverCall.flash_erase_sector 1, 0) := by
  decide

/-- C18, amended: read and program, on the external chip and on the internal
partition, pass the byte address `block * sector_size + offset` modulo 2^32 to
the driver, and so does the erase of the partition, with offset 0 and the
sector size as length; the erase of the external chip passes the block index
itself to `erase_sector`. Each of the six returns the engine's OK code if and
only if the driver reports `ESP_OK` and the engine's I/O error code for every
other driver result, and both `sync` functions return OK. The external
functions are defined when the chip is configured. -/
theorem block_device_addresses (K : Consts) (hK : K.LFS_ERR_OK ≠ K.LFS_ERR_IO) (s : State)
    (block off size : Nat) (err : Int) :
    ∃ code : Int,
      (code = K.LFS_ERR_OK ↔ err = K.ESP_OK) ∧
      (err ≠ K.ESP_OK → code = K.LFS_ERR_IO) ∧
      (s.cfg.flash ≠ none →
        external_read K s block off size err =
          some (DriverCall.flash_read ((block * s.sector_sz + off) % 2 ^ 32) size, code) ∧
        external_prog K s block off size err =
          some (DriverCall.flash_write ((block * s.sector_sz + off) % 2 ^ 32) size, code) ∧
        external_erase K s block err = some (DriverCall.flash_erase_sector block, code)) ∧
      internal_read K s block off size err =
        (DriverCall.esp_partition_read ((block * s.sector_sz + off) % 2 ^ 32) size, code) ∧
      internal_prog K s block off size err =
        (DriverCall.esp_partition_write ((block * s.sector_sz + off) % 2 ^ 32) size, code) ∧
      internal_erase K s block err =
        (DriverCall.esp_partition_erase_range ((block * s.sector_sz + 0) % 2 ^ 32) s.sector_sz,
          code) ∧
      external_sync K = K.LFS_ERR_OK ∧ internal_sync K = K.LFS_ERR_OK := by
  refine ⟨if err = K.ESP_OK then K.LFS_ERR_OK else K.LFS_ERR_IO, ?_, ?_, ?_,
    rfl, rfl, rfl, rfl, rfl⟩
  · split_ifs with h
    · exact ⟨fun _ => h, fun _ => rfl⟩
    · exact ⟨fun h' => absurd h'.symm hK, fun h' => absurd h' h⟩
  · intro h
    rw [if_neg h]
  · intro hfl
    cases hc : s.cfg.flash with
    | none => exact absurd hc hfl
    | some fl =>
      simp only [external_read, external_prog, external_erase, hc, size_t]
      exact ⟨trivial, trivial, trivial⟩

/-- Block 3 at offset 16 of the chip with 4 KiB sectors, the driver reporting
`ESP_FAIL`. -/
theorem block_device_addresses_witness :
    esp32.LFS_ERR_OK ≠ esp32.LFS_ERR_IO ∧
    ∃ code : Int,
      (code = esp32.LFS_ERR_OK ↔ (-1 : Int) = esp32.ESP_OK) ∧
      ((-1 : Int) ≠ esp32.ESP_OK → code = esp32.LFS_ERR_IO) ∧
      (sample_chip.cfg.flash ≠ none →
        external_read esp32 sample_chip 3 16 256 (-1) =
          some (DriverCall.flash_read ((3 * sample_chip.sector_sz + 16) % 2 ^ 32) 256, code) ∧
        external_prog esp32 sample_chip 3 16 256 (-1) =
          some (DriverCall.flash_write ((3 * sample_chip.sector_sz + 16) % 2 ^ 32) 256, code) ∧
        external_erase esp32 sample_chip 3 (-1) =
          some (DriverCall.flash_erase_sector 3, code)) ∧
      internal_read esp32 sample_chip 3 16 256 (-1) =
        (DriverCall.esp_partition_read ((3 * sample_chip.sector_sz + 16) % 2 ^ 32) 256, code) ∧
      internal_prog esp32 sample_chip 3 16 256 (-1) =
        (DriverCall.esp_partition_write ((3 * sample_chip.sector_sz + 16) % 2 ^ 32) 256, code) ∧
      internal_erase esp32 sample_chip 3 (-1) =
        (DriverCall.esp_partition_erase_range ((3 * sample_chip.sector_sz + 0) % 2 ^ 32)
          sample_chip.sector_sz, code) ∧
      external_sync esp32 = esp32.LFS_ERR_OK ∧ internal_sync esp32 = esp32.LFS_ERR_OK :=
  ⟨by decide, block_device_addresses esp32 (by decide) sample_chip 3 16 256 (-1)⟩

/-! ## C19: the locking discipline -/

/-- C19, as stated, fails for the position counter of a directory cursor:
`telldir_p` reads the counter and never acquires the lock, and `readdir_r_p`
increments the counter after it has released the lock. -/
theorem telldir_reads_counter_without_lock :
    (telldir_p esp32 sample_fresh (some sample_cursor)).2.trace =
      sample_fresh.trace ++ [Event.off_access] ∧
    lock_walk true false [Event.off_access] = none ∧
    (readdir_r_p esp32 sample_fresh (some sample_cursor) sample_cursor.dirent).state.trace =
      sample_fresh.trace ++ [Event.lock_acquire, Event.engine EngineCall.lfs_dir_read,
        Event.lock_release, Event.off_access] ∧
    lock_walk true false [Event.lock_acquire, Event.engine EngineCall.lfs_dir_read,
      Event.lock_release, Event.off_access] = none := by
  decide

/-- C19, amended: the events a call of the call surface appends to the
trace keep the discipline of the lock for the engine and for the file-handle
table: the lock is never acquired while it is held, every engine call and
every access to the table happens while it is held, and it is free when the
call returns, on every return path. A call that makes no access at all may
return without acquiring the lock (a failed allocation, an invalid `whence`,
a `NULL` cursor); every other call acquires it, except `telldir`, which reads
the position counter without the lock. The accesses to the position counter
happen while the lock is held in every call but `readdir`, `readdir_r` and
`telldir`; in particular all those of `seekdir` do. -/
theorem lock_discipline (K : Consts) (op : Op) (s s' : State) (h : op.run K s = some s') :
    ∃ delta : List Event, s'.trace = s.trace ++ delta ∧
      lock_walk false false delta = some false ∧
      (delta = [] ∨ Event.lock_acquire ∈ delta ∨ ∃ d, op = Op.telldir (some d)) ∧
      ((∀ pdir, op ≠ Op.readdir pdir) → (∀ pdir entry, op ≠ Op.readdir_r pdir entry) →
        (∀ pdir, op ≠ Op.telldir pdir) → lock_walk true false delta = some false) := by
  obtain ⟨delta, ha, h1, h2, h3⟩ := op_run_after K op s s' h
  exact ⟨delta, (after_cfg s s' delta ha).2.2.2, h1, h2, h3⟩

/-- A `seekdir` to position 1 on a cursor of a directory with one entry. -/
theorem lock_discipline_witness :
    Op.run esp32 (Op.seekdir (some sample_cursor) 1 0) sample_fresh =
      some { sample_fresh with
             trace := [Event.lock_acquire, Event.engine EngineCall.lfs_dir_rewind,
               Event.off_access, Event.off_access, Event.engine EngineCall.lfs_dir_read,
               Event.off_access, Event.off_access, Event.lock_release] } ∧
    ∃ delta : List Event,
      ({ sample_fresh with
         trace := [Event.lock_acquire, Event.engine EngineCall.lfs_dir_rewind,
           Event.off_access, Event.off_access, Event.engine EngineCall.lfs_dir_read,
           Event.off_access, Event.off_access, Event.lock_release] } : State).trace =
        sample_fresh.trace ++ delta ∧
      lock_walk false false delta = some false ∧
      (delta = [] ∨ Event.lock_acquire ∈ delta ∨
        ∃ d, Op.seekdir (some sample_cursor) 1 0 = Op.telldir (some d)) ∧
      ((∀ pdir, Op.seekdir (some sample_cursor) 1 0 ≠ Op.readdir pdir) →
        (∀ pdir entry, Op.seekdir (some sample_cursor) 1 0 ≠ Op.readdir_r pdir entry) →
        (∀ pdir, Op.seekdir (some sample_cursor) 1 0 ≠ Op.telldir pdir) →
        lock_walk true false delta = some false) :=
  ⟨by decide, lock_discipline esp32 (Op.seekdir (some sample_cursor) 1 0) sample_fresh _
    (by decide)⟩

end LittleFlash
